import Mathlib

set_option maxHeartbeats 1600000
set_option maxRecDepth 4096

/-!
Shallow embedding of the `ssa` package of siderolabs/go-kubernetes
(`kubernetes/ssa/{apply,diff,ssa,inventory}.go` plus the in-repo test
backends `internal/inventory/memory` and `internal/resourcemanager`).

External collaborators (the fluxcd resource manager, the cli-utils
`inventory.CanApply` check, YAML marshalling and the text differ) are not
part of this repository; they are modelled as components of an explicit
environment `Env σ` of pure state-passing functions, so that theorems
quantify over every possible behaviour of those collaborators.  Each
operation additionally produces a trace of the calls it makes against the
cluster and the inventory store, which is how temporal claims are stated.

Go slices are Lean lists, Go maps are association lists with deterministic
(insertion-order) iteration, Go `error` values are the inductive `GoErr`
(`errors.Join` becomes `GoErr.join`, `fmt.Errorf` with `%w` becomes
`GoErr.wrap`), and a Go nil-pointer dereference is the explicit
`GoResult.panicked` outcome.
-/

namespace GoKubernetes

/-- Group and kind of a Kubernetes object (`schema.GroupKind`). -/
structure GroupKind where
  group : String
  kind : String
deriving DecidableEq, Repr

/-- Object identity as used by the inventory (`object.ObjMetadata`):
namespace, name and group/kind.  The version is not part of identity. -/
structure ObjMetadata where
  ns : String
  name : String
  groupKind : GroupKind
deriving DecidableEq, Repr

/-- The fields of an `unstructured.Unstructured` manifest that the ssa
package reads or writes: apiVersion, kind, namespace, name, the
annotations map, the managed fields (only ever stripped) and an opaque
`payload` standing for the rest of the object tree (it takes part in
equality, as `reflect.DeepEqual` compares whole objects). -/
structure Unstructured where
  apiVersion : String
  kind : String
  ns : String
  name : String
  annotations : List (String × String)
  managedFields : Option String
  payload : String
deriving DecidableEq, Repr

/-- Split a character list at every occurrence of the separator (the
semantics of `strings.Split` for a one-character separator; an empty
input yields one empty part). -/
def splitOnChar (c : Char) : List Char → List (List Char)
  | [] => [[]]
  | x :: rest =>
    let r := splitOnChar c rest
    if x = c then [] :: r
    else
      match r with
      | [] => [[x]]
      | y :: ys => (x :: y) :: ys

/-- The parts of an apiVersion string split at `/` (as
`schema.ParseGroupVersion` sees them). -/
def splitSlash (s : String) : List String :=
  (splitOnChar '/' s.data).map List.asString

/-- Group component of `obj.GroupVersionKind()` (parsed from apiVersion;
`schema.FromAPIVersionAndKind` yields an empty GVK on a malformed value). -/
def Unstructured.gvkGroup (o : Unstructured) : String :=
  match splitSlash o.apiVersion with
  | [_] => ""
  | [g, _] => g
  | _ => ""

/-- Version component of `obj.GroupVersionKind()`. -/
def Unstructured.gvkVersion (o : Unstructured) : String :=
  match splitSlash o.apiVersion with
  | [v] => v
  | [_, v] => v
  | _ => ""

/-- Kind component of `obj.GroupVersionKind()`. -/
def Unstructured.gvkKind (o : Unstructured) : String :=
  match splitSlash o.apiVersion with
  | [_] => o.kind
  | [_, _] => o.kind
  | _ => ""

/-- The `ObjMetadata` of an unstructured object, as built at the three
places in the package that construct one (Namespace, Name, GroupKind). -/
def objMetaOf (o : Unstructured) : ObjMetadata :=
  { ns := o.ns, name := o.name
    groupKind := { group := o.gvkGroup, kind := o.gvkKind } }

/-- `formatPath` of format.go: `<kind>/<namespace>/<name>`, namespace
omitted when empty.  Argument order follows the source. -/
def formatPath (ns name kind : String) : String :=
  let nm := if ns ≠ "" then ns ++ "/" ++ name else name
  kind ++ "/" ++ nm

/-- `formatPathGV` of format.go: `<group>/<version>.<kind>/<ns>/<name>`,
version defaulting to `v1` when empty, group and namespace omitted when
empty. -/
def formatPathGV (version group ns name groupKind : String) : String :=
  let v := if version = "" then "v1" else version
  let gv := if group ≠ "" then group ++ "/" ++ v else v
  let nm := if ns ≠ "" then ns ++ "/" ++ name else name
  gv ++ "." ++ groupKind ++ "/" ++ nm

/-- `FormatObjectPath` of format.go. -/
def formatObjectPath (o : Unstructured) : String :=
  formatPath o.ns o.name o.gvkKind

/-- `FormatObjectPathWithGV` of format.go. -/
def formatObjectPathWithGV (o : Unstructured) : String :=
  formatPathGV o.gvkVersion o.gvkGroup o.ns o.name o.gvkKind

/-- `FormatObjectMetaPath` of format.go.  Note that the version argument
is prepended with the metadata's group by `formatPathGV`. -/
def formatObjectMetaPath (m : ObjMetadata) (version : String) : String :=
  formatPathGV version m.groupKind.group m.ns m.name m.groupKind.kind

/-- `InventoryAnnotationKey` of inventory.go. -/
def InventoryAnnotationKey : String := "config.k8s.io/owning-inventory"

/-- Lookup in a Go `map[string]string` modelled as an association list. -/
def getAnn : List (String × String) → String → Option String
  | [], _ => none
  | (k, v) :: rest, key => if k = key then some v else getAnn rest key

/-- Update of a Go `map[string]string`: replace the binding in place or
append a fresh one. -/
def setAnn : List (String × String) → String → String → List (String × String)
  | [], key, val => [(key, val)]
  | (k, v) :: rest, key, val =>
    if k = key then (key, val) :: rest else (k, v) :: setAnn rest key val

/-- A Go `error` value.  `base` is a leaf error; its two flags record
whether `apierrors.IsNotFound` holds of it and whether its text contains
the substring "not found" (the two classifications the package performs on
errors received from collaborators).  `wrap` is `fmt.Errorf` with `%w`,
`join` is `errors.Join` of two non-nil errors. -/
inductive GoErr where
  | base (msg : String) (apiNotFound : Bool) (textNotFound : Bool)
  | wrap (pre : String) (e : GoErr)
  | join (a b : GoErr)
deriving DecidableEq, Repr

/-- `apierrors.IsNotFound` (which unwraps wrapped and joined errors). -/
def GoErr.isApiNotFound : GoErr → Bool
  | .base _ a _ => a
  | .wrap _ e => e.isApiNotFound
  | .join a b => a.isApiNotFound || b.isApiNotFound

/-- The not-found test of `Manager.diff`:
`apierrors.IsNotFound(err) || strings.Contains(err.Error(), "not found")`. -/
def GoErr.notFoundForDiff : GoErr → Bool
  | .base _ a t => a || t
  | .wrap _ e => e.notFoundForDiff
  | .join a b => a.notFoundForDiff || b.notFoundForDiff

/-- `errors.Join` on possibly-nil errors: nil operands are dropped. -/
def joinErr : Option GoErr → Option GoErr → Option GoErr
  | none, e => e
  | some a, none => some a
  | some a, some b => some (.join a b)

/-- Whether a Go error contains the given leaf error (reachable through
wrapping and joining), i.e. whether that leaf is surfaced by the error. -/
def GoErr.hasBase : GoErr → GoErr → Bool
  | .base m a t, b => (GoErr.base m a t == b)
  | .wrap _ e, b => e.hasBase b
  | .join x y, b => x.hasBase b || y.hasBase b

/-- The six `ssa.Action` constants re-exported by apply.go. -/
inductive Action where
  | created
  | configured
  | unchanged
  | deleted
  | skipped
  | unknown
deriving DecidableEq, Repr

/-- The string value of an `ssa.Action` (used when the action is printed
into an error message). -/
def actionName : Action → String
  | .created => "created"
  | .configured => "configured"
  | .unchanged => "unchanged"
  | .deleted => "deleted"
  | .skipped => "skipped"
  | .unknown => "unknown"

/-- `ssa.ChangeSetEntry` (equal to the package's own `ChangeSetEntry`). -/
structure ChangeSetEntry where
  objMetadata : ObjMetadata
  groupVersion : String
  subject : String
  action : Action
deriving DecidableEq, Repr

/-- `Change` of apply.go: a `ChangeSetEntry` plus the rendered diff. -/
structure Change where
  entry : ChangeSetEntry
  diff : String
deriving DecidableEq, Repr

/-- `DiffAction` of diff.go. -/
inductive DiffAction where
  | diffCreated
  | diffConfigured
  | diffPruned
  | diffUnchanged
deriving DecidableEq, Repr

/-- `DiffResult` of diff.go. -/
structure DiffResult where
  action : DiffAction
  diff : String
  objMetadata : ObjMetadata
  groupVersion : String
  subject : String
deriving DecidableEq, Repr

/-- The zero value of `object.ObjMetadata`. -/
def zeroMeta : ObjMetadata :=
  { ns := "", name := "", groupKind := { group := "", kind := "" } }

/-- `inventory.Policy` of cli-utils (zero value is `PolicyMustMatch`). -/
inductive Policy where
  | mustMatch
  | adoptIfNoInventory
  | adoptAll
deriving DecidableEq, Repr

/-- `ApplyOptions` of apply.go.  `DeletePropagationPolicy` is the Go
string type `metav1.DeletionPropagation`; durations are abstract counts. -/
structure ApplyOptions where
  deletePropagationPolicy : String
  inventoryPolicy : Policy
  waitInterval : Nat
  waitTimeout : Nat
  noPrune : Bool
  forceConflicts : Bool
  force : Bool
deriving DecidableEq, Repr

/-- The zero `ApplyOptions` value (`ssa.ApplyOptions{}` in Go). -/
def zeroApplyOptions : ApplyOptions :=
  { deletePropagationPolicy := "", inventoryPolicy := .mustMatch
    waitInterval := 0, waitTimeout := 0
    noPrune := false, forceConflicts := false, force := false }

/-- `DiffOptions` of diff.go. -/
structure DiffOptions where
  noPrune : Bool
  force : Bool
  inventoryPolicy : Policy
deriving DecidableEq, Repr

/-- The zero `DiffOptions` value. -/
def zeroDiffOptions : DiffOptions :=
  { noPrune := false, force := false, inventoryPolicy := .mustMatch }

/-- `DestroyOptions` of ssa.go. -/
structure DestroyOptions where
  deletePropagationPolicy : String
deriving DecidableEq, Repr

/-- Stand-in for `ssa.DefaultApplyOptions().WaitInterval` (an abstract
duration constant; its exact value plays no role). -/
def defaultWaitInterval : Nat := 2

/-- Stand-in for `ssa.DefaultApplyOptions().WaitTimeout`. -/
def defaultWaitTimeout : Nat := 300

/-- `setDefaultOps` of apply.go. -/
def setDefaultOps (ops : ApplyOptions) : ApplyOptions :=
  let o1 := if ops.waitInterval = 0 then { ops with waitInterval := defaultWaitInterval } else ops
  let o2 := if o1.waitTimeout = 0 then { o1 with waitTimeout := defaultWaitTimeout } else o1
  if o2.deletePropagationPolicy = "" then
    { o2 with deletePropagationPolicy := "Background" }
  else o2

/-- One observable call made against the cluster or the inventory store.
`canApplyDiffEv` is the policy check performed during the dry-run (diff)
phase (both inside `Manager.diff` and in the loop of `Manager.Apply`);
`canApplyPruneEv` is the policy check on a prune target.  Events carry
the responses that matter for the claims: the entries a staged apply
returned, the refs an inventory read returned, whether the call erred,
and for a delete the metadata removed on success (`none` on failure). -/
inductive Ev where
  | rmDiffEv (obj : Unstructured)
  | canApplyDiffEv (obj : Option Unstructured) (ok : Bool)
  | canApplyPruneEv (obj : Unstructured) (ok : Bool)
  | applyAllEv (objs : List Unstructured) (entries : Option (List ChangeSetEntry)) (ok : Bool)
  | invReadEv (refs : List ObjMetadata) (ok : Bool)
  | invWriteEv (refs : List ObjMetadata) (ok : Bool)
  | getPruneEv (objs : List Unstructured) (ok : Bool)
  | rmDeleteEv (obj : Unstructured) (propagation : String) (removed : Option ObjMetadata)
  | invDeleteEv (ok : Bool)
deriving DecidableEq, Repr

/-- Outcome of running a piece of Go code: either a value or a runtime
panic (nil-pointer dereference). -/
inductive GoResult (α : Type) where
  | panicked
  | ok (val : α)
deriving DecidableEq, Repr

/-- The four return values of `ResourceManager.Diff`. -/
structure RMDiffOut where
  entry : Option ChangeSetEntry
  inCluster : Option Unstructured
  dryRun : Option Unstructured
  err : Option GoErr

/-- The environment a `Manager` runs in: the inventory identifier plus
the behaviours of the external collaborators, as pure state-passing
functions over an abstract backend state `σ`.  `rmApplyAll` takes the
force flag and the two wait durations of `ssa.ApplyOptions`; `rmDelete`
takes the propagation policy string.  `canApply` is the (pure) cli-utils
`inventory.CanApply` check, `marshal` is `k8syaml.Marshal` and `textDiff`
is `textdiff.DiffWithCustomPaths`. -/
structure Env (σ : Type) where
  invID : String
  rmDiff : σ → Unstructured → Bool → σ × RMDiffOut
  rmApplyAll : σ → List Unstructured → Bool → Nat → Nat → σ × Option (List ChangeSetEntry) × Option GoErr
  rmDelete : σ → Unstructured → String → σ × Option ChangeSetEntry × Option GoErr
  invRead : σ → σ × List ObjMetadata × Option GoErr
  invWrite : σ → List ObjMetadata → σ × Option GoErr
  invGetPrune : σ → List Unstructured → σ × List Unstructured × Option GoErr
  invDelete : σ → σ × Option GoErr
  canApply : Option Unstructured → Policy → Option GoErr
  marshal : Unstructured → Except GoErr String
  textDiff : String → String → String → String → Except GoErr String

/-- `computeDiff` of diff.go. -/
def computeDiff (env : Env σ) (path a b : String) : Except GoErr String :=
  env.textDiff a b ("a/" ++ path) ("b/" ++ path)

/-- `renderManifestDiff` of diff.go: marshal whichever sides are present
(empty string for an absent side), label with the path of the `b` side
when present, otherwise of the `a` side. -/
def renderManifestDiff (env : Env σ) (a b : Option Unstructured) : Except GoErr String :=
  match a, b with
  | none, none => computeDiff env "" "" ""
  | some x, none =>
    match env.marshal x with
    | .error e => .error e
    | .ok ma => computeDiff env (formatObjectPathWithGV x) ma ""
  | none, some y =>
    match env.marshal y with
    | .error e => .error e
    | .ok mb => computeDiff env (formatObjectPathWithGV y) "" mb
  | some x, some y =>
    match env.marshal x with
    | .error e => .error e
    | .ok ma =>
      match env.marshal y with
      | .error e => .error e
      | .ok mb => computeDiff env (formatObjectPathWithGV y) ma mb

/-- `SetManagedFields(nil)` on a deep copy, as done by
`createDeletedDiff`. -/
def stripManaged (o : Unstructured) : Unstructured :=
  { o with managedFields := none }

/-- `createDeletedDiff` of diff.go. -/
def createDeletedDiff (env : Env σ) (o : Unstructured) : Except GoErr String :=
  renderManifestDiff env (some (stripManaged o)) none

/-- The error of `prepareObjects` for an object that already carries a
foreign owning-inventory annotation. -/
def errAnnConflict (o : Unstructured) : GoErr :=
  .base ("object " ++ formatObjectPathWithGV o ++ " already has an inventory annotation") false false

/-- The error `fmt.Errorf("apply dry run failed for %s: %w", ...)`. -/
def errDryRunFailed (o : Unstructured) (e : GoErr) : GoErr :=
  .wrap ("apply dry run failed for " ++ formatObjectPath o ++ ": ") e

/-- The error `fmt.Errorf("inventory policy check failure for object %s, %w", ...)`. -/
def errPolicyCheck (subject : String) (e : GoErr) : GoErr :=
  .wrap ("inventory policy check failure for object " ++ subject ++ ", ") e

/-- The error `fmt.Errorf("failed to get prune objects: %w", ...)`. -/
def errGetPrune (e : GoErr) : GoErr :=
  .wrap "failed to get prune objects: " e

/-- The error `fmt.Errorf("unexpected %q action taken by resourceManager
for resource %s", ...)` of the inventory-merge loop of `Manager.Apply`. -/
def errUnexpectedApplyAction (a : Action) (subject : String) : GoErr :=
  .base ("unexpected " ++ actionName a ++ " action taken by resourceManager for resource " ++ subject) false false

/-- The error `fmt.Errorf("unexpected %q result received from Diff
function %s", ...)` of `Manager.Diff`. -/
def errUnexpectedDiffAction (a : Action) (subject : String) : GoErr :=
  .base ("unexpected " ++ actionName a ++ " result received from Diff function " ++ subject) false false

/-- `inventory.AddInventoryIDAnnotation`: stamp the owning-inventory
annotation onto an object. -/
def stampInv (invID : String) (o : Unstructured) : Unstructured :=
  { o with annotations := setAnn o.annotations InventoryAnnotationKey invID }

/-- `Manager.prepareObjects` of apply.go: reject any object whose
preexisting owning-inventory annotation differs from this manager's ID,
then stamp the annotation on every object. -/
def prepareObjects (invID : String) : List Unstructured → Except GoErr (List Unstructured)
  | [] => .ok []
  | o :: rest =>
    match getAnn o.annotations InventoryAnnotationKey with
    | some v =>
      if v ≠ invID then .error (errAnnConflict o)
      else
        match prepareObjects invID rest with
        | .error e => .error e
        | .ok rest2 => .ok (stampInv invID o :: rest2)
    | none =>
      match prepareObjects invID rest with
      | .error e => .error e
      | .ok rest2 => .ok (stampInv invID o :: rest2)

/-- `utils.FmtUnstructured` of fluxcd (kind/namespace/name, namespace
omitted when empty). -/
def fmtUnstructured (o : Unstructured) : String :=
  formatPath o.ns o.name o.gvkKind

/-- `changeFromObject` of apply.go. -/
def changeFromObject (o : Unstructured) (diff : String) (a : Action) : Change :=
  { entry :=
      { objMetadata := objMetaOf o
        groupVersion := o.apiVersion
        subject := fmtUnstructured o
        action := a }
    diff := diff }

/-- The `changeMap` of `Manager.Apply`: a Go map keyed by the canonical
object path, modelled as an association list iterated in insertion
order. -/
abbrev ChangeMap := List (String × Change)

/-- Go map assignment `m[k] = v` (insert or replace in place). -/
def cmUpsert : ChangeMap → String → Change → ChangeMap
  | [], k, c => [(k, c)]
  | (k0, c0) :: rest, k, c =>
    if k0 = k then (k, c) :: rest else (k0, c0) :: cmUpsert rest k c

/-- Go `changeMap[k].Diff = d`: the key must be present, otherwise the Go
code dereferences a nil pointer (modelled as `none`). -/
def cmSetDiff : ChangeMap → String → String → Option ChangeMap
  | [], _, _ => none
  | (k0, c0) :: rest, k, d =>
    if k0 = k then some ((k0, { c0 with diff := d }) :: rest)
    else
      match cmSetDiff rest k d with
      | none => none
      | some rest2 => some ((k0, c0) :: rest2)

/-- Go `changeMap[k].Action = a`: the key must be present, otherwise the
Go code dereferences a nil pointer (modelled as `none`). -/
def cmSetAction : ChangeMap → String → Action → Option ChangeMap
  | [], _, _ => none
  | (k0, c0) :: rest, k, a =>
    if k0 = k then some ((k0, { c0 with entry := { c0.entry with action := a } }) :: rest)
    else
      match cmSetAction rest k a with
      | none => none
      | some rest2 => some ((k0, c0) :: rest2)

/-- The map-building prologue of `Manager.Apply`: one `Unknown`
placeholder per desired object, keyed by its path. -/
def buildChangeMap (objs : List Unstructured) : ChangeMap :=
  objs.foldl (fun m o => cmUpsert m (formatObjectPathWithGV o) (changeFromObject o "" .unknown)) []

/-- `changesMapToArray` of apply.go: drop the `Unknown` placeholders. -/
def changesMapToArray (m : ChangeMap) : List Change :=
  (m.map (fun kv => kv.2)).filter (fun c => c.entry.action != Action.unknown)

/-- `Manager.diff` of diff.go: one dry run.  A not-found error is turned
into a `Created` action (synthesising an entry if the capability returned
none); any other error aborts.  The diff text is rendered according to
the action, and for `Configured` actions the inventory policy is enforced
against the in-cluster object. -/
def diffOne (env : Env σ) (s : σ) (obj : Unstructured) (force : Bool) (policy : Policy) :
    σ × List Ev × GoResult (Except GoErr (ChangeSetEntry × String)) :=
  let p := env.rmDiff s obj force
  let s1 := p.1
  let out := p.2
  let evs0 := [Ev.rmDiffEv obj]
  match out.err with
  | some e =>
    if e.notFoundForDiff then
      let base :=
        match out.entry with
        | some cs => cs
        | none =>
          { objMetadata := objMetaOf obj
            groupVersion := obj.gvkVersion
            subject := formatObjectPath obj
            action := Action.unknown }
      let cs := { base with action := Action.created }
      match renderManifestDiff env none (some obj) with
      | .error e2 => (s1, evs0, .ok (.error e2))
      | .ok d => (s1, evs0, .ok (.ok (cs, d)))
    else
      (s1, evs0, .ok (.error (errDryRunFailed obj e)))
  | none =>
    match out.entry with
    | none => (s1, evs0, .panicked)
    | some cs =>
      match cs.action with
      | .created =>
        match renderManifestDiff env none (some obj) with
        | .error e2 => (s1, evs0, .ok (.error e2))
        | .ok d => (s1, evs0, .ok (.ok (cs, d)))
      | .configured =>
        match renderManifestDiff env out.inCluster out.dryRun with
        | .error e2 => (s1, evs0, .ok (.error e2))
        | .ok d =>
          match env.canApply out.inCluster policy with
          | some e3 =>
            (s1, evs0 ++ [Ev.canApplyDiffEv out.inCluster false],
             .ok (.error (errPolicyCheck cs.subject e3)))
          | none =>
            (s1, evs0 ++ [Ev.canApplyDiffEv out.inCluster true], .ok (.ok (cs, d)))
      | .deleted =>
        match createDeletedDiff env obj with
        | .error e2 => (s1, evs0, .ok (.error e2))
        | .ok d => (s1, evs0, .ok (.ok (cs, d)))
      | _ => (s1, evs0, .ok (.ok (cs, "")))

/-- The dry-run loop of `Manager.Apply` (apply.go lines 96-113): per
object run `Manager.diff`, record the diff text in the change map, and
for `Configured` actions enforce the inventory policy against the input
object. -/
def applyDiffLoop (env : Env σ) :
    σ → List Unstructured → Bool → Policy → ChangeMap →
    σ × List Ev × GoResult (Except GoErr ChangeMap)
  | s, [], _, _, cm => (s, [], .ok (.ok cm))
  | s, o :: rest, force, policy, cm =>
    match diffOne env s o force policy with
    | (s1, evs, .panicked) => (s1, evs, .panicked)
    | (s1, evs, .ok (.error e)) => (s1, evs, .ok (.error e))
    | (s1, evs, .ok (.ok (cs, d))) =>
      match cmSetDiff cm (formatObjectPathWithGV o) d with
      | none => (s1, evs, .panicked)
      | some cm1 =>
        if cs.action = Action.configured then
          match env.canApply (some o) policy with
          | some e =>
            (s1, evs ++ [Ev.canApplyDiffEv (some o) false],
             .ok (.error (errPolicyCheck cs.subject e)))
          | none =>
            match applyDiffLoop env s1 rest force policy cm1 with
            | (s2, evs2, r) => (s2, evs ++ [Ev.canApplyDiffEv (some o) true] ++ evs2, r)
        else
          match applyDiffLoop env s1 rest force policy cm1 with
          | (s2, evs2, r) => (s2, evs ++ evs2, r)

/-- The inventory-merge loop of `Manager.Apply` (apply.go lines 131-145):
record terminal actions in the change map, union newly applied objects
into the inventory refs, and turn `Deleted`/`Unknown` entries into
errors. -/
def mergeLoop :
    List ChangeSetEntry → ChangeMap → List ObjMetadata → Option GoErr →
    GoResult (ChangeMap × List ObjMetadata × Option GoErr)
  | [], cm, refs, invErr => .ok (cm, refs, invErr)
  | e :: rest, cm, refs, invErr =>
    match e.action with
    | .deleted =>
      mergeLoop rest cm refs (joinErr invErr (some (errUnexpectedApplyAction .deleted e.subject)))
    | .unknown =>
      mergeLoop rest cm refs (joinErr invErr (some (errUnexpectedApplyAction .unknown e.subject)))
    | a =>
      match cmSetAction cm (formatObjectMetaPath e.objMetadata e.groupVersion) a with
      | none => .panicked
      | some cm1 =>
        if refs.contains e.objMetadata then mergeLoop rest cm1 refs invErr
        else mergeLoop rest cm1 (refs ++ [e.objMetadata]) invErr

/-- Outcome of the prune loop: either an abort on a policy violation
(which returns `nil` changes from `Apply`), or completion with the
updated map, refs and accumulated prune error. -/
inductive PruneOut where
  | abortPolicy (e : GoErr)
  | done (cm : ChangeMap) (refs : List ObjMetadata) (pruneErr : Option GoErr)
deriving Repr

/-- The prune loop of `Manager.Apply` (apply.go lines 166-190): per prune
target check the inventory policy (aborting the whole call on violation),
delete with the hard-coded `Background` propagation policy, drop the
deleted object from the refs, and record a `Deleted` change. -/
def pruneLoop (env : Env σ) (policy : Policy) :
    σ → List Unstructured → ChangeMap → List ObjMetadata → Option GoErr →
    σ × List Ev × GoResult PruneOut
  | s, [], cm, refs, pruneErr => (s, [], .ok (.done cm refs pruneErr))
  | s, p :: rest, cm, refs, pruneErr =>
    match env.canApply (some p) policy with
    | some e =>
      (s, [Ev.canApplyPruneEv p false],
       .ok (.abortPolicy (errPolicyCheck (formatObjectPathWithGV p) e)))
    | none =>
      let q := env.rmDelete s p "Background"
      let s1 := q.1
      match q.2.2 with
      | some e =>
        match pruneLoop env policy s1 rest cm refs (joinErr pruneErr (some e)) with
        | (s2, evs2, r) =>
          (s2, Ev.canApplyPruneEv p true :: Ev.rmDeleteEv p "Background" none :: evs2, r)
      | none =>
        match q.2.1 with
        | none =>
          (s1, [Ev.canApplyPruneEv p true, Ev.rmDeleteEv p "Background" none], .panicked)
        | some de =>
          let refs1 := refs.filter (fun m => m != de.objMetadata)
          let dres := createDeletedDiff env p
          let pruneErr1 :=
            match dres with
            | .error e2 => joinErr pruneErr (some e2)
            | .ok _ => pruneErr
          let d :=
            match dres with
            | .error _ => ""
            | .ok d0 => d0
          let cm1 := cmUpsert cm (formatObjectPathWithGV p) (changeFromObject p d .deleted)
          match pruneLoop env policy s1 rest cm1 refs1 pruneErr1 with
          | (s2, evs2, r) =>
            (s2, Ev.canApplyPruneEv p true ::
                 Ev.rmDeleteEv p "Background" (some de.objMetadata) :: evs2, r)

/-- The prune phase of `Manager.Apply` (apply.go lines 155-194; entered
once the staged apply and the post-apply inventory write both succeeded):
either stop on `NoPrune`, or compute the prune set, run the prune loop
and write the inventory once more. -/
def applyPrunePhase (env : Env σ) (s4 : σ) (objs : List Unstructured) (ops : ApplyOptions)
    (cm2 : ChangeMap) (refs1 : List ObjMetadata) :
    σ × List Ev × GoResult (List Change × Option GoErr) :=
  if ops.noPrune then (s4, [], .ok (changesMapToArray cm2, none))
  else
    let g := env.invGetPrune s4 objs
    let s5 := g.1
    let pruneObjs := g.2.1
    match g.2.2 with
    | some e =>
      (s5, [Ev.getPruneEv pruneObjs false],
       .ok (changesMapToArray cm2, some (errGetPrune e)))
    | none =>
      match pruneLoop env ops.inventoryPolicy s5 pruneObjs cm2 refs1 none with
      | (s6, tr6, .panicked) => (s6, Ev.getPruneEv pruneObjs true :: tr6, .panicked)
      | (s6, tr6, .ok (.abortPolicy e)) =>
        (s6, Ev.getPruneEv pruneObjs true :: tr6, .ok ([], some e))
      | (s6, tr6, .ok (.done cm3 refs2 pruneErr)) =>
        let w2 := env.invWrite s6 refs2
        (w2.1, Ev.getPruneEv pruneObjs true :: tr6 ++ [Ev.invWriteEv refs2 w2.2.isNone],
         .ok (changesMapToArray cm3, joinErr pruneErr w2.2))

/-- Everything `Manager.Apply` does after the dry-run loop succeeded
(apply.go lines 115-194): staged apply, inventory read, merge, inventory
write, then the prune phase. -/
def applyPost (env : Env σ) (s1 : σ) (objs : List Unstructured) (ops : ApplyOptions)
    (cm1 : ChangeMap) : σ × List Ev × GoResult (List Change × Option GoErr) :=
  let q := env.rmApplyAll s1 objs ops.force ops.waitInterval ops.waitTimeout
  let s2 := q.1
  let entriesOpt := q.2.1
  let applyErr := q.2.2
  let ev0 := Ev.applyAllEv objs entriesOpt applyErr.isNone
  match entriesOpt, applyErr with
  | none, some e => (s2, [ev0], .ok ([], some e))
  | _, _ =>
    let r := env.invRead s2
    let s3 := r.1
    let refs0 := r.2.1
    match r.2.2 with
    | some e => (s3, [ev0, Ev.invReadEv refs0 false], .ok ([], some e))
    | none =>
      match entriesOpt with
      | none => (s3, [ev0, Ev.invReadEv refs0 true], .panicked)
      | some entries =>
        match mergeLoop entries cm1 refs0 none with
        | .panicked => (s3, [ev0, Ev.invReadEv refs0 true], .panicked)
        | .ok (cm2, refs1, invErr0) =>
          let w := env.invWrite s3 refs1
          let s4 := w.1
          let werr := w.2
          let invErr := joinErr invErr0 werr
          let evw := [ev0, Ev.invReadEv refs0 true, Ev.invWriteEv refs1 werr.isNone]
          match joinErr applyErr invErr with
          | some e => (s4, evw, .ok (changesMapToArray cm2, some e))
          | none =>
            match applyPrunePhase env s4 objs ops cm2 refs1 with
            | (s7, tr7, res) => (s7, evw ++ tr7, res)

/-- `Manager.Apply` of apply.go: build the placeholder map, prepare,
dry-run every object, then run the apply/inventory/prune pipeline. -/
def applyM (env : Env σ) (s0 : σ) (objects : List Unstructured) (ops0 : ApplyOptions) :
    σ × List Ev × GoResult (List Change × Option GoErr) :=
  let cm0 := buildChangeMap objects
  match prepareObjects env.invID objects with
  | .error e => (s0, [], .ok ([], some e))
  | .ok objs =>
    let ops := setDefaultOps ops0
    match applyDiffLoop env s0 objs ops.force ops.inventoryPolicy cm0 with
    | (s1, tr1, .panicked) => (s1, tr1, .panicked)
    | (s1, tr1, .ok (.error e)) => (s1, tr1, .ok ([], some e))
    | (s1, tr1, .ok (.ok cm1)) =>
      match applyPost env s1 objs ops cm1 with
      | (s7, tr7, res) => (s7, tr1 ++ tr7, res)

/-- The prune-preview loop of `Manager.Diff` (diff.go lines 71-87):
policy-check each prune target, then append a `DiffPruned` result whose
identity fields are left at their zero values. -/
def diffPruneLoop (env : Env σ) (policy : Policy) :
    List Unstructured → List Ev × Except GoErr (List DiffResult)
  | [] => ([], .ok [])
  | p :: rest =>
    match env.canApply (some p) policy with
    | some e =>
      ([Ev.canApplyPruneEv p false], .error (errPolicyCheck (formatObjectPath p) e))
    | none =>
      match createDeletedDiff env p with
      | .error e1 => ([Ev.canApplyPruneEv p true], .error e1)
      | .ok d =>
        match diffPruneLoop env policy rest with
        | (evs, .error e) => (Ev.canApplyPruneEv p true :: evs, .error e)
        | (evs, .ok rs) =>
          (Ev.canApplyPruneEv p true :: evs,
           .ok ({ action := .diffPruned, diff := d
                  objMetadata := zeroMeta, groupVersion := "", subject := "" } :: rs))

/-- One iteration of the desired-object loop of `Manager.Diff` (diff.go
lines 90-116): run the dry-run and translate the resulting action into a
`DiffAction`, failing on any untranslatable action. -/
def diffDesiredStep (env : Env σ) (s : σ) (o : Unstructured) (force : Bool) (policy : Policy) :
    σ × List Ev × GoResult (Except GoErr DiffResult) :=
  match diffOne env s o force policy with
  | (s1, evs, .panicked) => (s1, evs, .panicked)
  | (s1, evs, .ok (.error e)) => (s1, evs, .ok (.error e))
  | (s1, evs, .ok (.ok (cs, d))) =>
    match cs.action with
    | .configured =>
      (s1, evs, .ok (.ok { action := .diffConfigured, diff := d
                           objMetadata := cs.objMetadata
                           groupVersion := cs.groupVersion, subject := cs.subject }))
    | .created =>
      (s1, evs, .ok (.ok { action := .diffCreated, diff := d
                           objMetadata := cs.objMetadata
                           groupVersion := cs.groupVersion, subject := cs.subject }))
    | .unchanged =>
      (s1, evs, .ok (.ok { action := .diffUnchanged, diff := d
                           objMetadata := cs.objMetadata
                           groupVersion := cs.groupVersion, subject := cs.subject }))
    | a => (s1, evs, .ok (.error (errUnexpectedDiffAction a cs.subject)))

/-- The desired-object loop of `Manager.Diff`. -/
def diffDesiredLoop (env : Env σ) (force : Bool) (policy : Policy) :
    σ → List Unstructured → σ × List Ev × GoResult (Except GoErr (List DiffResult))
  | s, [] => (s, [], .ok (.ok []))
  | s, o :: rest =>
    match diffDesiredStep env s o force policy with
    | (s1, evs, .panicked) => (s1, evs, .panicked)
    | (s1, evs, .ok (.error e)) => (s1, evs, .ok (.error e))
    | (s1, evs, .ok (.ok r)) =>
      match diffDesiredLoop env force policy s1 rest with
      | (s2, evs2, .panicked) => (s2, evs ++ evs2, .panicked)
      | (s2, evs2, .ok (.error e)) => (s2, evs ++ evs2, .ok (.error e))
      | (s2, evs2, .ok (.ok rs)) => (s2, evs ++ evs2, .ok (.ok (r :: rs)))

/-- `Manager.Diff` of diff.go. -/
def diffM (env : Env σ) (s0 : σ) (objects : List Unstructured) (ops : DiffOptions) :
    σ × List Ev × GoResult (Except GoErr (List DiffResult)) :=
  match prepareObjects env.invID objects with
  | .error e => (s0, [], .ok (.error e))
  | .ok objs =>
    let g := env.invGetPrune s0 objs
    let s1 := g.1
    let pruneObjs := g.2.1
    match g.2.2 with
    | some e => (s1, [Ev.getPruneEv pruneObjs false], .ok (.error e))
    | none =>
      let preview :=
        if ops.noPrune then ([], Except.ok [])
        else diffPruneLoop env ops.inventoryPolicy pruneObjs
      match preview with
      | (evs, .error e) => (s1, Ev.getPruneEv pruneObjs true :: evs, .ok (.error e))
      | (evs, .ok pruneResults) =>
        match diffDesiredLoop env ops.force ops.inventoryPolicy s1 objs with
        | (s2, evs2, .panicked) =>
          (s2, Ev.getPruneEv pruneObjs true :: (evs ++ evs2), .panicked)
        | (s2, evs2, .ok (.error e)) =>
          (s2, Ev.getPruneEv pruneObjs true :: (evs ++ evs2), .ok (.error e))
        | (s2, evs2, .ok (.ok rs)) =>
          (s2, Ev.getPruneEv pruneObjs true :: (evs ++ evs2), .ok (.ok (pruneResults ++ rs)))

/-- The delete loop of `Manager.Destroy` (ssa.go): delete each object,
aborting on the first error. -/
def destroyLoop (env : Env σ) (dp : String) :
    σ → List Unstructured → σ × List Ev × Option GoErr
  | s, [] => (s, [], none)
  | s, o :: rest =>
    let q := env.rmDelete s o dp
    match q.2.2 with
    | some e => (q.1, [Ev.rmDeleteEv o dp none], some e)
    | none =>
      let rm :=
        match q.2.1 with
        | some en => some en.objMetadata
        | none => none
      match destroyLoop env dp q.1 rest with
      | (s2, evs, res) => (s2, Ev.rmDeleteEv o dp rm :: evs, res)

/-- `Manager.Destroy` of ssa.go: delete everything the inventory tracks,
then write an empty inventory and delete the inventory container,
swallowing a NotFound error from that final delete. -/
def destroyM (env : Env σ) (s0 : σ) (ops : DestroyOptions) : σ × List Ev × Option GoErr :=
  let dp := if ops.deletePropagationPolicy = "" then "Background" else ops.deletePropagationPolicy
  let g := env.invGetPrune s0 []
  let allObjs := g.2.1
  match g.2.2 with
  | some e => (g.1, [Ev.getPruneEv allObjs false], some e)
  | none =>
    match destroyLoop env dp g.1 allObjs with
    | (s2, evs, some e) => (s2, Ev.getPruneEv allObjs true :: evs, some e)
    | (s2, evs, none) =>
      let w := env.invWrite s2 []
      match w.2 with
      | some e =>
        (w.1, Ev.getPruneEv allObjs true :: evs ++ [Ev.invWriteEv [] false], some e)
      | none =>
        let dl := env.invDelete w.1
        match dl.2 with
        | some e =>
          if e.isApiNotFound then
            (dl.1, Ev.getPruneEv allObjs true :: evs ++ [Ev.invWriteEv [] true, Ev.invDeleteEv false], none)
          else
            (dl.1, Ev.getPruneEv allObjs true :: evs ++ [Ev.invWriteEv [] true, Ev.invDeleteEv false], some e)
        | none =>
          (dl.1, Ev.getPruneEv allObjs true :: evs ++ [Ev.invWriteEv [] true, Ev.invDeleteEv true], none)

/-- The key of the mock resource manager's object store
(`resourcemanager.objKey`). -/
structure ObjKey where
  group : String
  kind : String
  ns : String
  name : String
deriving DecidableEq, Repr

/-- `keyFromObj` of the mock resource manager. -/
def keyFromObj (o : Unstructured) : ObjKey :=
  { group := o.gvkGroup, kind := o.gvkKind, ns := o.ns, name := o.name }

/-- Combined state of the in-repo test backends: the mock resource
manager's object store and the in-memory inventory's refs. -/
structure MockSt where
  objects : List (ObjKey × Unstructured)
  refs : List ObjMetadata
deriving DecidableEq, Repr

/-- Lookup in the mock's object map. -/
def mLookup : List (ObjKey × Unstructured) → ObjKey → Option Unstructured
  | [], _ => none
  | (k0, o0) :: rest, k => if k0 = k then some o0 else mLookup rest k

/-- Insert-or-replace in the mock's object map. -/
def mInsert : List (ObjKey × Unstructured) → ObjKey → Unstructured → List (ObjKey × Unstructured)
  | [], k, o => [(k, o)]
  | (k0, o0) :: rest, k, o =>
    if k0 = k then (k, o) :: rest else (k0, o0) :: mInsert rest k o

/-- Deletion from the mock's object map. -/
def mRemove : List (ObjKey × Unstructured) → ObjKey → List (ObjKey × Unstructured)
  | [], _ => []
  | (k0, o0) :: rest, k => if k0 = k then mRemove rest k else (k0, o0) :: mRemove rest k

/-- `entryFromObj` of the mock resource manager (note that its
`GroupVersion` is the full `GetAPIVersion()` string). -/
def entryFromObj (o : Unstructured) (a : Action) : ChangeSetEntry :=
  { objMetadata := objMetaOf o
    groupVersion := o.apiVersion
    subject := fmtUnstructured o
    action := a }

/-- `Mock.Diff`: `Created` with a nil in-cluster object when absent,
otherwise `Unchanged` or `Configured` by deep equality. -/
def mockDiff (st : MockSt) (o : Unstructured) : RMDiffOut :=
  match mLookup st.objects (keyFromObj o) with
  | none =>
    { entry := some (entryFromObj o .created), inCluster := none
      dryRun := some o, err := none }
  | some ex =>
    let a := if ex = o then Action.unchanged else Action.configured
    { entry := some (entryFromObj o a), inCluster := some ex
      dryRun := some o, err := none }

/-- `Mock.Apply`: store the object, reporting `Created` or `Configured`. -/
def mockApplyOne (st : MockSt) (o : Unstructured) : MockSt × ChangeSetEntry :=
  let k := keyFromObj o
  let a := if (mLookup st.objects k).isSome then Action.configured else Action.created
  ({ st with objects := mInsert st.objects k o }, entryFromObj o a)

/-- `Mock.ApplyAllStaged`: apply every object in order. -/
def mockApplyAll (st : MockSt) : List Unstructured → MockSt × List ChangeSetEntry
  | [] => (st, [])
  | o :: rest =>
    let p := mockApplyOne st o
    let q := mockApplyAll p.1 rest
    (q.1, p.2 :: q.2)

/-- The error returned by `apierrors.NewNotFound` (its text contains
"not found" and `apierrors.IsNotFound` holds of it). -/
def errNotFoundGo (name : String) : GoErr :=
  .base (name ++ " not found") true true

/-- `Mock.Delete`: NotFound when absent, otherwise remove and report a
`Deleted` entry. -/
def mockDelete (st : MockSt) (o : Unstructured) : MockSt × Option ChangeSetEntry × Option GoErr :=
  let k := keyFromObj o
  match mLookup st.objects k with
  | none => (st, none, some (errNotFoundGo k.name))
  | some _ =>
    ({ st with objects := mRemove st.objects k }, some (entryFromObj o .deleted), none)

/-- The identity-only skeleton object built by `memory.GetPruneObjs` via
`SetGroupVersionKind` (the version of an inventory ref is unknown, so the
apiVersion is just the group, `<group>/` or empty). -/
def skeletonOf (r : ObjMetadata) : Unstructured :=
  { apiVersion := if r.groupKind.group = "" then "" else r.groupKind.group ++ "/"
    kind := r.groupKind.kind, ns := r.ns, name := r.name
    annotations := [], managedFields := none, payload := "" }

/-- `memory.Inventory.GetPruneObjs`: skeletons for every tracked ref not
present in the current desired set. -/
def memGetPrune (st : MockSt) (objs : List Unstructured) : List Unstructured :=
  let cur := objs.map (fun o => objMetaOf o)
  (st.refs.filter (fun r => !(cur.contains r))).map skeletonOf

/-- Modelled from the spec: `inventory.CanApply` of sigs.k8s.io/cli-utils
(an external dependency, not part of this repository).  Per the spec's
inventory-policy table: `MustMatch` refuses any live object whose
owning-inventory annotation differs or is missing, `AdoptIfNoInventory`
adopts unmanaged objects but refuses foreign ones, `AdoptAll` adopts
regardless.  A nil object is accepted. -/
def canApplySpec (invID : String) (obj : Option Unstructured) (p : Policy) : Option GoErr :=
  match obj with
  | none => none
  | some o =>
    match getAnn o.annotations InventoryAnnotationKey with
    | none =>
      match p with
      | .mustMatch => some (.base "inventory policy prevented adoption (no owning inventory)" false false)
      | _ => none
    | some v =>
      if v = invID then none
      else
        match p with
        | .adoptAll => none
        | _ => some (.base "inventory policy prevented adoption (foreign owning inventory)" false false)

/-- Deterministic stand-in for `k8syaml.Marshal` (never fails; only its
determinism and injectivity on our record type matter). -/
def marshalC (o : Unstructured) : Except GoErr String :=
  .ok (toString (repr o))

/-- Deterministic stand-in for `textdiff.DiffWithCustomPaths`. -/
def textDiffC (a b pa pb : String) : Except GoErr String :=
  .ok ("--- " ++ pa ++ "\n+++ " ++ pb ++ "\n-" ++ a ++ "\n+" ++ b)

/-- The environment assembled from the in-repo test backends: the mock
resource manager, the in-memory inventory, the spec-modelled policy
check and the deterministic renderer stand-ins. -/
def mockEnv (id : String) : Env MockSt :=
  { invID := id
    rmDiff := fun s o _ => (s, mockDiff s o)
    rmApplyAll := fun s objs _ _ _ =>
      let p := mockApplyAll s objs
      (p.1, some p.2, none)
    rmDelete := fun s o _ => mockDelete s o
    invRead := fun s => (s, s.refs, none)
    invWrite := fun s refs => ({ s with refs := refs }, none)
    invGetPrune := fun s objs => (s, memGetPrune s objs, none)
    invDelete := fun s => ({ s with refs := [] }, none)
    canApply := fun o p => canApplySpec id o p
    marshal := marshalC
    textDiff := textDiffC }

/-- The configmap manifest used throughout the package's tests. -/
def cmManifest (name : String) : Unstructured :=
  { apiVersion := "v1", kind := "ConfigMap", ns := "default", name := name
    annotations := [], managedFields := none, payload := "key: value" }

/-- Events of the dry-run (diff) phase: read-only dry runs and their
policy checks. -/
def isDiffPhaseEv : Ev → Bool
  | .rmDiffEv _ => true
  | .canApplyDiffEv _ _ => true
  | _ => false

/-- Events that modify the cluster: a staged apply or a delete. -/
def isClusterWriteEv : Ev → Bool
  | .applyAllEv _ _ _ => true
  | .rmDeleteEv _ _ _ => true
  | _ => false

/-- Events of the prune loop. -/
def isPrunePhaseEv : Ev → Bool
  | .canApplyPruneEv _ _ => true
  | .rmDeleteEv _ _ _ => true
  | _ => false

/-- Whether an event is the staged-apply call. -/
def isApplyAllEv : Ev → Bool
  | .applyAllEv _ _ _ => true
  | _ => false

/-- Whether an event is an inventory write. -/
def isInvWriteEv : Ev → Bool
  | .invWriteEv _ _ => true
  | _ => false

/-- Whether an event is a cluster delete. -/
def isRmDeleteEv : Ev → Bool
  | .rmDeleteEv _ _ _ => true
  | _ => false

/-- The metadata removed from the inventory refs by the successful
deletes recorded in a trace segment. -/
def sucDeleteMetas (l : List Ev) : List ObjMetadata :=
  l.filterMap (fun ev =>
    match ev with
    | .rmDeleteEv _ _ (some m) => some m
    | _ => none)

theorem split_after_clean {α : Type} (p : α → Bool) :
    ∀ (A : List α) (B t1 t2 : List α) (x : α), A ++ B = t1 ++ x :: t2 → p x = true →
      (∀ y ∈ A, p y = false) → ∃ u, t1 = A ++ u ∧ B = u ++ x :: t2 := by
  intro A
  induction A with
  | nil =>
    intro B t1 t2 x h _ _
    exact ⟨t1, rfl, h⟩
  | cons a A ih =>
    intro B t1 t2 x h hx hA
    cases t1 with
    | nil =>
      simp only [List.nil_append, List.cons_append, List.cons.injEq] at h
      have : p x = false := h.1 ▸ hA a (by simp)
      rw [this] at hx
      cases hx
    | cons b t1 =>
      simp only [List.cons_append, List.cons.injEq] at h
      obtain ⟨u, h1, h2⟩ := ih B t1 t2 x h.2 hx (fun y hy => hA y (by simp [hy]))
      exact ⟨u, by simp [h.1, h1], h2⟩

theorem split_before_clean {α : Type} (p : α → Bool) :
    ∀ (t1 : List α) (A B t2 : List α) (x : α), A ++ B = t1 ++ x :: t2 → p x = true →
      (∀ y ∈ B, p y = false) → ∃ u, A = t1 ++ x :: u ∧ t2 = u ++ B := by
  intro t1
  induction t1 with
  | nil =>
    intro A B t2 x h hx hB
    cases A with
    | nil =>
      simp only [List.nil_append] at h
      have : p x = false := hB x (by simp [h])
      rw [this] at hx
      cases hx
    | cons a A =>
      simp only [List.cons_append, List.nil_append, List.cons.injEq] at h
      exact ⟨A, by simp [h.1], h.2.symm⟩
  | cons b t1 ih =>
    intro A B t2 x h hx hB
    cases A with
    | nil =>
      simp only [List.nil_append] at h
      have hxB : x ∈ B := by
        rw [h]
        simp
      have : p x = false := hB x hxB
      rw [this] at hx
      cases hx
    | cons a A =>
      simp only [List.cons_append, List.cons.injEq] at h
      obtain ⟨u, h1, h2⟩ := ih A B t2 x h.2 hx hB
      exact ⟨u, by simp [h.1, h1], h2⟩

theorem append_singleton_eq {α : Type} {a b : List α} {x y : α}
    (h : a ++ [x] = b ++ [y]) : a = b ∧ x = y := by
  have h1 := congrArg List.reverse h
  simp only [List.reverse_append, List.reverse_cons, List.reverse_nil, List.nil_append,
    List.singleton_append, List.cons.injEq] at h1
  refine ⟨?_, h1.1⟩
  have := congrArg List.reverse h1.2
  simpa using this

theorem diffOne_evs (env : Env σ) (s : σ) (o : Unstructured) (f : Bool) (pol : Policy) :
    ∀ ev ∈ (diffOne env s o f pol).2.1, isDiffPhaseEv ev = true := by
  intro ev hev
  unfold diffOne at hev
  rcases herr : (env.rmDiff s o f).2.err with _ | e
  · simp only [herr] at hev
    rcases hent : (env.rmDiff s o f).2.entry with _ | cs
    · simp only [hent] at hev
      simp at hev
      simp [hev, isDiffPhaseEv]
    · simp only [hent] at hev
      rcases hact : cs.action <;> simp only [hact] at hev
      case created =>
        rcases hr : renderManifestDiff env none (some o) with e2 | d <;>
          simp only [hr] at hev <;> simp at hev <;> simp [hev, isDiffPhaseEv]
      case configured =>
        rcases hr : renderManifestDiff env (env.rmDiff s o f).2.inCluster (env.rmDiff s o f).2.dryRun with e2 | d <;>
          simp only [hr] at hev
        · simp at hev
          simp [hev, isDiffPhaseEv]
        · rcases hca : env.canApply (env.rmDiff s o f).2.inCluster pol with _ | e3 <;>
            simp only [hca] at hev <;> simp at hev <;>
            rcases hev with hev | hev <;> simp [hev, isDiffPhaseEv]
      case deleted =>
        rcases hr : createDeletedDiff env o with e2 | d <;>
          simp only [hr] at hev <;> simp at hev <;> simp [hev, isDiffPhaseEv]
      case unchanged => simp at hev; simp [hev, isDiffPhaseEv]
      case skipped => simp at hev; simp [hev, isDiffPhaseEv]
      case unknown => simp at hev; simp [hev, isDiffPhaseEv]
  · simp only [herr] at hev
    by_cases hnf : e.notFoundForDiff = true
    · simp only [hnf, if_pos] at hev
      rcases hr : renderManifestDiff env none (some o) with e2 | d <;>
        simp only [hr] at hev <;> simp at hev <;> simp [hev, isDiffPhaseEv]
    · simp only [if_neg hnf] at hev
      simp at hev
      simp [hev, isDiffPhaseEv]

theorem diffOne_false_check (env : Env σ) (s : σ) (o : Unstructured) (f : Bool) (pol : Policy)
    {x : Option Unstructured}
    (h : Ev.canApplyDiffEv x false ∈ (diffOne env s o f pol).2.1) :
    (diffOne env s o f pol).2.1 = [Ev.rmDiffEv o, Ev.canApplyDiffEv x false] ∧
    ∃ e, (diffOne env s o f pol).2.2 = .ok (.error e) := by
  unfold diffOne at h ⊢
  rcases herr : (env.rmDiff s o f).2.err with _ | e
  · simp only [herr] at h ⊢
    rcases hent : (env.rmDiff s o f).2.entry with _ | cs
    · simp only [hent] at h ⊢
      simp at h
    · simp only [hent] at h ⊢
      rcases hact : cs.action <;> simp only [hact] at h ⊢
      case created =>
        rcases hr : renderManifestDiff env none (some o) with e2 | d <;>
          simp only [hr] at h ⊢ <;> simp at h
      case configured =>
        rcases hr : renderManifestDiff env (env.rmDiff s o f).2.inCluster (env.rmDiff s o f).2.dryRun with e2 | d <;>
          simp only [hr] at h ⊢
        · simp at h
        · rcases hca : env.canApply (env.rmDiff s o f).2.inCluster pol with _ | e3 <;>
            simp only [hca] at h ⊢
          · simp at h
          · simp at h
            simp [h]
      case deleted =>
        rcases hr : createDeletedDiff env o with e2 | d <;>
          simp only [hr] at h ⊢ <;> simp at h
      case unchanged => simp at h
      case skipped => simp at h
      case unknown => simp at h
  · simp only [herr] at h ⊢
    by_cases hnf : e.notFoundForDiff = true
    · simp only [hnf, if_pos] at h ⊢
      rcases hr : renderManifestDiff env none (some o) with e2 | d <;>
        simp only [hr] at h ⊢ <;> simp at h
    · simp only [if_neg hnf] at h ⊢
      simp at h

theorem applyDiffLoop_evs (env : Env σ) :
    ∀ (objs : List Unstructured) (s : σ) (f : Bool) (pol : Policy) (cm : ChangeMap),
      ∀ ev ∈ (applyDiffLoop env s objs f pol cm).2.1, isDiffPhaseEv ev = true := by
  intro objs
  induction objs with
  | nil => intro s f pol cm ev hev; simp [applyDiffLoop] at hev
  | cons o rest ih =>
    intro s f pol cm ev hev
    have hone := diffOne_evs env s o f pol
    rcases hd : diffOne env s o f pol with ⟨s1, evs, r⟩
    rw [hd] at hone
    simp only at hone
    rcases r with _ | r
    · simp only [applyDiffLoop, hd] at hev
      exact hone ev hev
    · rcases r with e | pr
      · simp only [applyDiffLoop, hd] at hev
        exact hone ev hev
      · rcases pr with ⟨cs, d⟩
        simp only [applyDiffLoop, hd] at hev
        rcases hcm : cmSetDiff cm (formatObjectPathWithGV o) d with _ | cm1 <;>
          simp only [hcm] at hev
        · exact hone ev hev
        · by_cases hcfg : cs.action = Action.configured
          · simp only [if_pos hcfg] at hev
            rcases hca : env.canApply (some o) pol with _ | e3 <;> simp only [hca] at hev
            · rcases hrec : applyDiffLoop env s1 rest f pol cm1 with ⟨s2, evs2, r2⟩
              simp only [hrec] at hev
              simp only [List.append_assoc, List.mem_append, List.mem_singleton,
                List.mem_cons, List.singleton_append] at hev
              rcases hev with hev | hev | hev
              · exact hone ev hev
              · simp [hev, isDiffPhaseEv]
              · have := ih s1 f pol cm1 ev (by rw [hrec]; exact hev)
                exact this
            · simp only [List.mem_append, List.mem_singleton] at hev
              rcases hev with hev | hev
              · exact hone ev hev
              · simp [hev, isDiffPhaseEv]
          · simp only [if_neg hcfg] at hev
            rcases hrec : applyDiffLoop env s1 rest f pol cm1 with ⟨s2, evs2, r2⟩
            simp only [hrec] at hev
            simp only [List.mem_append] at hev
            rcases hev with hev | hev
            · exact hone ev hev
            · exact ih s1 f pol cm1 ev (by rw [hrec]; exact hev)

theorem diffOne_no_false {env : Env σ} {s : σ} {o : Unstructured} {f : Bool} {pol : Policy}
    (hq : ∀ e, (diffOne env s o f pol).2.2 ≠ .ok (.error e)) :
    ∀ q : Option Unstructured, Ev.canApplyDiffEv q false ∉ (diffOne env s o f pol).2.1 := by
  intro q h
  obtain ⟨_, e, he⟩ := diffOne_false_check env s o f pol h
  exact hq e he

theorem applyDiffLoop_false (env : Env σ) :
    ∀ (objs : List Unstructured) (s : σ) (f : Bool) (pol : Policy) (cm : ChangeMap)
      (x : Option Unstructured),
      Ev.canApplyDiffEv x false ∈ (applyDiffLoop env s objs f pol cm).2.1 →
      (∃ pre, (applyDiffLoop env s objs f pol cm).2.1 = pre ++ [Ev.canApplyDiffEv x false] ∧
        ∀ q : Option Unstructured, Ev.canApplyDiffEv q false ∉ pre) ∧
      ∃ e, (applyDiffLoop env s objs f pol cm).2.2 = .ok (.error e) := by
  intro objs
  induction objs with
  | nil => intro s f pol cm x h; simp [applyDiffLoop] at h
  | cons o rest ih =>
    intro s f pol cm x h
    rcases hd : diffOne env s o f pol with ⟨s1, evs, r⟩
    rcases r with _ | r
    · simp only [applyDiffLoop, hd] at h
      exfalso
      obtain ⟨_, e, he⟩ := diffOne_false_check env s o f pol (by rw [hd]; exact h)
      rw [hd] at he
      exact GoResult.noConfusion he
    · rcases r with e | pr
      · simp only [applyDiffLoop, hd] at h ⊢
        obtain ⟨hevs, e2, he⟩ := diffOne_false_check env s o f pol (by rw [hd]; exact h)
        rw [hd] at hevs he
        simp only at hevs he
        refine ⟨⟨[Ev.rmDiffEv o], by simp [hevs], by simp⟩, e, rfl⟩
      · rcases pr with ⟨cs, d⟩
        have hnofalse : ∀ q : Option Unstructured, Ev.canApplyDiffEv q false ∉ evs := by
          intro q hq
          obtain ⟨_, e2, he⟩ := @diffOne_false_check σ env s o f pol q (by rw [hd]; exact hq)
          rw [hd] at he
          simp at he
        simp only [applyDiffLoop, hd] at h ⊢
        rcases hcm : cmSetDiff cm (formatObjectPathWithGV o) d with _ | cm1 <;>
          simp only [hcm] at h ⊢
        · exact absurd h (hnofalse x)
        · by_cases hcfg : cs.action = Action.configured
          · simp only [if_pos hcfg] at h ⊢
            rcases hca : env.canApply (some o) pol with _ | e3 <;> simp only [hca] at h ⊢
            · rcases hrec : applyDiffLoop env s1 rest f pol cm1 with ⟨s2, evs2, r2⟩
              simp only [hrec] at h ⊢
              simp only [List.append_assoc, List.mem_append, List.mem_singleton,
                List.mem_cons, List.singleton_append] at h
              rcases h with h | h | h
              · exact absurd h (hnofalse x)
              · exact absurd h (by simp)
              · obtain ⟨⟨pre2, hpre2, hnf2⟩, e2, he2⟩ := ih s1 f pol cm1 x (by rw [hrec]; exact h)
                rw [hrec] at hpre2 he2
                simp only at hpre2 he2
                refine ⟨⟨evs ++ Ev.canApplyDiffEv (some o) true :: pre2, by simp [hpre2], ?_⟩, e2, he2⟩
                intro q hq
                simp only [List.mem_append, List.mem_cons] at hq
                rcases hq with hq | hq | hq
                · exact hnofalse q hq
                · exact Ev.noConfusion hq (fun _ hb => Bool.noConfusion hb)
                · exact hnf2 q hq
            · simp only [List.mem_append, List.mem_singleton] at h
              rcases h with h | h
              · exact absurd h (hnofalse x)
              · cases h
                exact ⟨⟨evs, rfl, hnofalse⟩, errPolicyCheck cs.subject e3, rfl⟩
          · simp only [if_neg hcfg] at h ⊢
            rcases hrec : applyDiffLoop env s1 rest f pol cm1 with ⟨s2, evs2, r2⟩
            simp only [hrec] at h ⊢
            simp only [List.mem_append] at h
            rcases h with h | h
            · exact absurd h (hnofalse x)
            · obtain ⟨⟨pre2, hpre2, hnf2⟩, e2, he2⟩ := ih s1 f pol cm1 x (by rw [hrec]; exact h)
              rw [hrec] at hpre2 he2
              simp only at hpre2 he2
              refine ⟨⟨evs ++ pre2, by simp [hpre2], ?_⟩, e2, he2⟩
              intro q hq
              simp only [List.mem_append] at hq
              rcases hq with hq | hq
              · exact hnofalse q hq
              · exact hnf2 q hq

/-- Boolean membership test on metadata lists (used to state which refs
survive the prune loop). -/
def metaIn (m : ObjMetadata) : List ObjMetadata → Bool
  | [] => false
  | x :: rest => if x = m then true else metaIn m rest

theorem pruneLoop_evs (env : Env σ) (pol : Policy) :
    ∀ (ps : List Unstructured) (s : σ) (cm : ChangeMap) (refs : List ObjMetadata)
      (pe : Option GoErr),
      ∀ ev ∈ (pruneLoop env pol s ps cm refs pe).2.1, isPrunePhaseEv ev = true := by
  intro ps
  induction ps with
  | nil => intro s cm refs pe ev hev; simp [pruneLoop] at hev
  | cons p rest ih =>
    intro s cm refs pe ev hev
    simp only [pruneLoop] at hev
    rcases hca : env.canApply (some p) pol with _ | e <;> simp only [hca] at hev
    · rcases hdel : (env.rmDelete s p "Background").2.2 with _ | e2 <;> simp only [hdel] at hev
      · rcases hent : (env.rmDelete s p "Background").2.1 with _ | de <;> simp only [hent] at hev
        · simp at hev
          rcases hev with hev | hev <;> simp [hev, isPrunePhaseEv]
        · rcases hrec : pruneLoop env pol (env.rmDelete s p "Background").1 rest
              (cmUpsert cm (formatObjectPathWithGV p)
                (changeFromObject p
                  (match createDeletedDiff env p with
                   | .error _ => ""
                   | .ok d0 => d0) .deleted))
              (refs.filter (fun m => m != de.objMetadata))
              (match createDeletedDiff env p with
               | .error e2 => joinErr pe (some e2)
               | .ok _ => pe) with ⟨s2, evs2, r2⟩
          simp only [hrec] at hev
          simp only [List.mem_cons] at hev
          rcases hev with hev | hev | hev
          · simp [hev, isPrunePhaseEv]
          · simp [hev, isPrunePhaseEv]
          · exact ih _ _ _ _ ev (by rw [hrec]; exact hev)
      · rcases hrec : pruneLoop env pol (env.rmDelete s p "Background").1 rest cm refs
            (joinErr pe (some e2)) with ⟨s2, evs2, r2⟩
        simp only [hrec] at hev
        simp only [List.mem_cons] at hev
        rcases hev with hev | hev | hev
        · simp [hev, isPrunePhaseEv]
        · simp [hev, isPrunePhaseEv]
        · exact ih _ _ _ _ ev (by rw [hrec]; exact hev)
    · simp at hev
      simp [hev, isPrunePhaseEv]

theorem pruneLoop_false (env : Env σ) (pol : Policy) :
    ∀ (ps : List Unstructured) (s : σ) (cm : ChangeMap) (refs : List ObjMetadata)
      (pe : Option GoErr) (p : Unstructured),
      Ev.canApplyPruneEv p false ∈ (pruneLoop env pol s ps cm refs pe).2.1 →
      (∃ pre, (pruneLoop env pol s ps cm refs pe).2.1 = pre ++ [Ev.canApplyPruneEv p false] ∧
        ∀ q : Unstructured, Ev.canApplyPruneEv q false ∉ pre) ∧
      ∃ e, env.canApply (some p) pol = some e ∧
        (pruneLoop env pol s ps cm refs pe).2.2 =
          .ok (.abortPolicy (errPolicyCheck (formatObjectPathWithGV p) e)) := by
  intro ps
  induction ps with
  | nil => intro s cm refs pe p h; simp [pruneLoop] at h
  | cons q rest ih =>
    intro s cm refs pe p h
    simp only [pruneLoop] at h ⊢
    rcases hca : env.canApply (some q) pol with _ | e <;> simp only [hca] at h ⊢
    · rcases hdel : (env.rmDelete s q "Background").2.2 with _ | e2 <;> simp only [hdel] at h ⊢
      · rcases hent : (env.rmDelete s q "Background").2.1 with _ | de <;> simp only [hent] at h ⊢
        · simp at h
        · rcases hrec : pruneLoop env pol (env.rmDelete s q "Background").1 rest
              (cmUpsert cm (formatObjectPathWithGV q)
                (changeFromObject q
                  (match createDeletedDiff env q with
                   | .error _ => ""
                   | .ok d0 => d0) .deleted))
              (refs.filter (fun m => m != de.objMetadata))
              (match createDeletedDiff env q with
               | .error e2 => joinErr pe (some e2)
               | .ok _ => pe) with ⟨s2, evs2, r2⟩
          simp only [hrec] at h ⊢
          simp only [List.mem_cons] at h
          rcases h with h | h | h
          · exact absurd h (by simp)
          · exact absurd h (by simp)
          · obtain ⟨⟨pre2, hpre2, hnf2⟩, e3, he3, hr3⟩ := ih _ _ _ _ p (by rw [hrec]; exact h)
            rw [hrec] at hpre2 hr3
            simp only at hpre2 hr3
            refine ⟨⟨Ev.canApplyPruneEv q true ::
              Ev.rmDeleteEv q "Background" (some de.objMetadata) :: pre2, by simp [hpre2], ?_⟩,
              e3, he3, hr3⟩
            intro q2 hq2
            simp only [List.mem_cons] at hq2
            rcases hq2 with hq2 | hq2 | hq2
            · exact Ev.noConfusion hq2 (fun _ hb => Bool.noConfusion hb)
            · exact Ev.noConfusion hq2
            · exact hnf2 q2 hq2
      · rcases hrec : pruneLoop env pol (env.rmDelete s q "Background").1 rest cm refs
            (joinErr pe (some e2)) with ⟨s2, evs2, r2⟩
        simp only [hrec] at h ⊢
        simp only [List.mem_cons] at h
        rcases h with h | h | h
        · exact absurd h (by simp)
        · exact absurd h (by simp)
        · obtain ⟨⟨pre2, hpre2, hnf2⟩, e3, he3, hr3⟩ := ih _ _ _ _ p (by rw [hrec]; exact h)
          rw [hrec] at hpre2 hr3
          simp only at hpre2 hr3
          refine ⟨⟨Ev.canApplyPruneEv q true ::
            Ev.rmDeleteEv q "Background" none :: pre2, by simp [hpre2], ?_⟩, e3, he3, hr3⟩
          intro q2 hq2
          simp only [List.mem_cons] at hq2
          rcases hq2 with hq2 | hq2 | hq2
          · exact Ev.noConfusion hq2 (fun _ hb => Bool.noConfusion hb)
          · exact Ev.noConfusion hq2
          · exact hnf2 q2 hq2
    · simp only [List.mem_singleton] at h
      cases h
      exact ⟨⟨[], by simp, by simp⟩, e, hca, rfl⟩

theorem filter_ne_filter_notIn (x : ObjMetadata) (S : List ObjMetadata) (l : List ObjMetadata) :
    (l.filter (fun m => m != x)).filter (fun m => !(metaIn m S)) =
      l.filter (fun m => !(metaIn m (x :: S))) := by
  rw [List.filter_filter]
  refine List.filter_congr ?_
  intro m _
  by_cases h : x = m
  · subst h
    simp [metaIn]
  · have h2 : m ≠ x := fun hh => h hh.symm
    simp [metaIn, if_neg h, bne_iff_ne, h2]

theorem pruneLoop_done_refs (env : Env σ) (pol : Policy) :
    ∀ (ps : List Unstructured) (s : σ) (cm : ChangeMap) (refs : List ObjMetadata)
      (pe : Option GoErr) (s' : σ) (evs : List Ev) (cm' : ChangeMap)
      (refs' : List ObjMetadata) (pe' : Option GoErr),
      pruneLoop env pol s ps cm refs pe = (s', evs, .ok (.done cm' refs' pe')) →
      refs' = refs.filter (fun m => !(metaIn m (sucDeleteMetas evs))) := by
  intro ps
  induction ps with
  | nil =>
    intro s cm refs pe s' evs cm' refs' pe' h
    simp only [pruneLoop, Prod.mk.injEq, GoResult.ok.injEq, PruneOut.done.injEq] at h
    obtain ⟨-, hevs, -, hrefs, -⟩ := h
    subst hevs
    subst hrefs
    simp [sucDeleteMetas, metaIn]
  | cons q rest ih =>
    intro s cm refs pe s' evs cm' refs' pe' h
    simp only [pruneLoop] at h
    rcases hca : env.canApply (some q) pol with _ | e <;> simp only [hca] at h
    · rcases hdel : (env.rmDelete s q "Background").2.2 with _ | e2 <;> simp only [hdel] at h
      · rcases hent : (env.rmDelete s q "Background").2.1 with _ | de <;> simp only [hent] at h
        · exact absurd h (by simp)
        · rcases hrec : pruneLoop env pol (env.rmDelete s q "Background").1 rest
              (cmUpsert cm (formatObjectPathWithGV q)
                (changeFromObject q
                  (match createDeletedDiff env q with
                   | .error _ => ""
                   | .ok d0 => d0) .deleted))
              (refs.filter (fun m => m != de.objMetadata))
              (match createDeletedDiff env q with
               | .error e2 => joinErr pe (some e2)
               | .ok _ => pe) with ⟨s2, evs2, r2⟩
          simp only [hrec, Prod.mk.injEq] at h
          obtain ⟨-, hevs, hr⟩ := h
          subst hevs
          rw [hr] at hrec
          have := ih _ _ _ _ s2 evs2 cm' refs' pe' hrec
          rw [this]
          have hsuc : sucDeleteMetas (Ev.canApplyPruneEv q true ::
              Ev.rmDeleteEv q "Background" (some de.objMetadata) :: evs2) =
              de.objMetadata :: sucDeleteMetas evs2 := by
            simp [sucDeleteMetas]
          rw [hsuc]
          exact filter_ne_filter_notIn de.objMetadata (sucDeleteMetas evs2) refs
      · rcases hrec : pruneLoop env pol (env.rmDelete s q "Background").1 rest cm refs
            (joinErr pe (some e2)) with ⟨s2, evs2, r2⟩
        simp only [hrec, Prod.mk.injEq] at h
        obtain ⟨-, hevs, hr⟩ := h
        subst hevs
        rw [hr] at hrec
        have := ih _ _ _ _ s2 evs2 cm' refs' pe' hrec
        rw [this]
        have hsuc : sucDeleteMetas (Ev.canApplyPruneEv q true ::
            Ev.rmDeleteEv q "Background" none :: evs2) = sucDeleteMetas evs2 := by
          simp [sucDeleteMetas]
        rw [hsuc]
    · exact absurd h (by simp)

/-- The four actions the inventory-merge loop accepts (everything except
`Deleted` and `Unknown`). -/
def isGoodAction : Action → Bool
  | .deleted => false
  | .unknown => false
  | _ => true

theorem joinErr_some_right_hasBase (x : Option GoErr) (e b : GoErr) (hb : e.hasBase b = true) :
    ∃ er, joinErr x (some e) = some er ∧ er.hasBase b = true := by
  cases x <;> simp [joinErr, GoErr.hasBase, hb]

theorem joinErr_mono_hasBase (y : Option GoErr) (er b : GoErr) (hb : er.hasBase b = true) :
    ∃ er2, joinErr (some er) y = some er2 ∧ er2.hasBase b = true := by
  cases y <;> simp [joinErr, GoErr.hasBase, hb]

theorem mergeLoop_refs :
    ∀ (entries : List ChangeSetEntry) (cm : ChangeMap) (refs : List ObjMetadata)
      (err0 : Option GoErr) (cm' : ChangeMap) (refs' : List ObjMetadata) (err' : Option GoErr),
      mergeLoop entries cm refs err0 = .ok (cm', refs', err') →
      ∃ δ, refs' = refs ++ δ ∧
        ∀ m ∈ δ, ∃ e ∈ entries, isGoodAction e.action = true ∧ e.objMetadata = m := by
  intro entries
  induction entries with
  | nil =>
    intro cm refs err0 cm' refs' err' h
    simp only [mergeLoop, GoResult.ok.injEq, Prod.mk.injEq] at h
    exact ⟨[], by simp [h.2.1.symm], by simp⟩
  | cons e rest ih =>
    intro cm refs err0 cm' refs' err' h
    rcases ha : e.action <;> simp only [mergeLoop, ha] at h
    case deleted =>
      obtain ⟨δ, h1, h2⟩ := ih _ _ _ _ _ _ h
      exact ⟨δ, h1, fun m hm => by
        obtain ⟨e2, he2, hg, hmeta⟩ := h2 m hm
        exact ⟨e2, by simp [he2], hg, hmeta⟩⟩
    case unknown =>
      obtain ⟨δ, h1, h2⟩ := ih _ _ _ _ _ _ h
      exact ⟨δ, h1, fun m hm => by
        obtain ⟨e2, he2, hg, hmeta⟩ := h2 m hm
        exact ⟨e2, by simp [he2], hg, hmeta⟩⟩
    all_goals
      rcases hset : cmSetAction cm (formatObjectMetaPath e.objMetadata e.groupVersion) e.action with _ | cm1
    all_goals simp only [ha] at hset
    all_goals simp only [hset] at h
    case created.none => exact absurd h (by simp)
    case configured.none => exact absurd h (by simp)
    case unchanged.none => exact absurd h (by simp)
    case skipped.none => exact absurd h (by simp)
    all_goals
      by_cases hcon : refs.contains e.objMetadata = true
    all_goals first
      | (rw [if_pos hcon] at h
         obtain ⟨δ, h1, h2⟩ := ih _ _ _ _ _ _ h
         refine ⟨δ, h1, fun m hm => ?_⟩
         obtain ⟨e2, he2, hg, hmeta⟩ := h2 m hm
         exact ⟨e2, List.mem_cons_of_mem e he2, hg, hmeta⟩)
      | (rw [if_neg hcon] at h
         obtain ⟨δ, h1, h2⟩ := ih _ _ _ _ _ _ h
         refine ⟨e.objMetadata :: δ, by simp [h1], fun m hm => ?_⟩
         rcases List.mem_cons.mp hm with hm | hm
         · exact ⟨e, List.mem_cons_self e rest, by simp [isGoodAction, ha], hm.symm⟩
         · obtain ⟨e2, he2, hg, hmeta⟩ := h2 m hm
           exact ⟨e2, List.mem_cons_of_mem e he2, hg, hmeta⟩)

theorem mergeLoop_err_mono :
    ∀ (entries : List ChangeSetEntry) (cm : ChangeMap) (refs : List ObjMetadata)
      (er0 : GoErr) (cm' : ChangeMap) (refs' : List ObjMetadata) (err' : Option GoErr)
      (b : GoErr),
      mergeLoop entries cm refs (some er0) = .ok (cm', refs', err') →
      er0.hasBase b = true →
      ∃ er', err' = some er' ∧ er'.hasBase b = true := by
  intro entries
  induction entries with
  | nil =>
    intro cm refs er0 cm' refs' err' b h hb
    simp only [mergeLoop, GoResult.ok.injEq, Prod.mk.injEq] at h
    exact ⟨er0, h.2.2.symm, hb⟩
  | cons e rest ih =>
    intro cm refs er0 cm' refs' err' b h hb
    rcases ha : e.action <;> simp only [mergeLoop, ha] at h
    case deleted =>
      obtain ⟨er1, he1, hb1⟩ :=
        joinErr_mono_hasBase (some (errUnexpectedApplyAction .deleted e.subject)) er0 b hb
      rw [he1] at h
      exact ih _ _ _ _ _ _ _ h hb1
    case unknown =>
      obtain ⟨er1, he1, hb1⟩ :=
        joinErr_mono_hasBase (some (errUnexpectedApplyAction .unknown e.subject)) er0 b hb
      rw [he1] at h
      exact ih _ _ _ _ _ _ _ h hb1
    all_goals
      rcases hset : cmSetAction cm (formatObjectMetaPath e.objMetadata e.groupVersion) e.action with _ | cm1
    all_goals simp only [ha] at hset
    all_goals simp only [hset] at h
    case created.none => exact absurd h (by simp)
    case configured.none => exact absurd h (by simp)
    case unchanged.none => exact absurd h (by simp)
    case skipped.none => exact absurd h (by simp)
    all_goals by_cases hcon : refs.contains e.objMetadata = true
    all_goals first
      | (rw [if_pos hcon] at h
         exact ih _ _ _ _ _ _ _ h hb)
      | (rw [if_neg hcon] at h
         exact ih _ _ _ _ _ _ _ h hb)

theorem mergeLoop_bad :
    ∀ (entries : List ChangeSetEntry) (cm : ChangeMap) (refs : List ObjMetadata)
      (err0 : Option GoErr) (cm' : ChangeMap) (refs' : List ObjMetadata) (err' : Option GoErr)
      (e : ChangeSetEntry),
      e ∈ entries → isGoodAction e.action = false →
      mergeLoop entries cm refs err0 = .ok (cm', refs', err') →
      ∃ er', err' = some er' ∧
        er'.hasBase (errUnexpectedApplyAction e.action e.subject) = true := by
  intro entries
  induction entries with
  | nil => intro cm refs err0 cm' refs' err' e he; exact absurd he (by simp)
  | cons e0 rest ih =>
    intro cm refs err0 cm' refs' err' e he hbad h
    rcases List.mem_cons.mp he with he | he
    · subst he
      rcases ha : e.action <;> simp only [isGoodAction, ha] at hbad <;>
        simp only [mergeLoop, ha] at h
      all_goals try (exact Bool.noConfusion hbad)
      case deleted =>
        obtain ⟨er1, he1, hb1⟩ := joinErr_some_right_hasBase err0
          (errUnexpectedApplyAction .deleted e.subject)
          (errUnexpectedApplyAction .deleted e.subject) (by simp [errUnexpectedApplyAction, GoErr.hasBase])
        rw [he1] at h
        obtain ⟨er', he', hb'⟩ := mergeLoop_err_mono rest _ _ _ _ _ _ _ h hb1
        exact ⟨er', he', hb'⟩
      case unknown =>
        obtain ⟨er1, he1, hb1⟩ := joinErr_some_right_hasBase err0
          (errUnexpectedApplyAction .unknown e.subject)
          (errUnexpectedApplyAction .unknown e.subject) (by simp [errUnexpectedApplyAction, GoErr.hasBase])
        rw [he1] at h
        obtain ⟨er', he', hb'⟩ := mergeLoop_err_mono rest _ _ _ _ _ _ _ h hb1
        exact ⟨er', he', hb'⟩
    · rcases ha : e0.action <;> simp only [mergeLoop, ha] at h
      case deleted => exact ih _ _ _ _ _ _ e he hbad h
      case unknown => exact ih _ _ _ _ _ _ e he hbad h
      all_goals
        rcases hset : cmSetAction cm (formatObjectMetaPath e0.objMetadata e0.groupVersion) e0.action with _ | cm1
      all_goals simp only [ha] at hset
      all_goals simp only [hset] at h
      case created.none => exact absurd h (by simp)
      case configured.none => exact absurd h (by simp)
      case unchanged.none => exact absurd h (by simp)
      case skipped.none => exact absurd h (by simp)
      all_goals by_cases hcon : refs.contains e0.objMetadata = true
      all_goals first
        | (rw [if_pos hcon] at h
           exact ih _ _ _ _ _ _ e he hbad h)
        | (rw [if_neg hcon] at h
           exact ih _ _ _ _ _ _ e he hbad h)

theorem mergeLoop_good :
    ∀ (entries : List ChangeSetEntry) (cm : ChangeMap) (refs : List ObjMetadata)
      (err0 : Option GoErr) (cm' : ChangeMap) (refs' : List ObjMetadata) (err' : Option GoErr)
      (e : ChangeSetEntry),
      e ∈ entries → isGoodAction e.action = true →
      mergeLoop entries cm refs err0 = .ok (cm', refs', err') →
      e.objMetadata ∈ refs' := by
  intro entries
  induction entries with
  | nil => intro cm refs err0 cm' refs' err' e he; exact absurd he (by simp)
  | cons e0 rest ih =>
    intro cm refs err0 cm' refs' err' e he hgood h
    rcases List.mem_cons.mp he with he | he
    · subst he
      rcases ha : e.action <;> simp only [isGoodAction, ha] at hgood <;>
        simp only [mergeLoop, ha] at h
      all_goals try (exact Bool.noConfusion hgood)
      all_goals
        rcases hset : cmSetAction cm (formatObjectMetaPath e.objMetadata e.groupVersion) e.action with _ | cm1
      all_goals simp only [ha] at hset
      all_goals simp only [hset] at h
      case created.none => exact absurd h (by simp)
      case configured.none => exact absurd h (by simp)
      case unchanged.none => exact absurd h (by simp)
      case skipped.none => exact absurd h (by simp)
      all_goals by_cases hcon : refs.contains e.objMetadata = true
      all_goals first
        | (rw [if_pos hcon] at h
           obtain ⟨δ, h1, -⟩ := mergeLoop_refs rest _ _ _ _ _ _ h
           rw [h1]
           exact List.mem_append_left δ (List.mem_of_elem_eq_true hcon))
        | (rw [if_neg hcon] at h
           obtain ⟨δ, h1, -⟩ := mergeLoop_refs rest _ _ _ _ _ _ h
           rw [h1]
           exact List.mem_append_left δ (by simp))
    · rcases ha : e0.action <;> simp only [mergeLoop, ha] at h
      case deleted => exact ih _ _ _ _ _ _ e he hgood h
      case unknown => exact ih _ _ _ _ _ _ e he hgood h
      all_goals
        rcases hset : cmSetAction cm (formatObjectMetaPath e0.objMetadata e0.groupVersion) e0.action with _ | cm1
      all_goals simp only [ha] at hset
      all_goals simp only [hset] at h
      case created.none => exact absurd h (by simp)
      case configured.none => exact absurd h (by simp)
      case unchanged.none => exact absurd h (by simp)
      case skipped.none => exact absurd h (by simp)
      all_goals by_cases hcon : refs.contains e0.objMetadata = true
      all_goals first
        | (rw [if_pos hcon] at h
           exact ih _ _ _ _ _ _ e he hgood h)
        | (rw [if_neg hcon] at h
           exact ih _ _ _ _ _ _ e he hgood h)

/-- An input manifest carrying an owning-inventory annotation different
from the manager's inventory ID. -/
def hasForeignAnn (invID : String) (o : Unstructured) : Prop :=
  ∃ v, getAnn o.annotations InventoryAnnotationKey = some v ∧ v ≠ invID

theorem prepareObjects_err (invID : String) :
    ∀ objs : List Unstructured, (∃ o ∈ objs, hasForeignAnn invID o) →
      ∃ e, prepareObjects invID objs = .error e := by
  intro objs
  induction objs with
  | nil => rintro ⟨o, ho, -⟩; exact absurd ho (by simp)
  | cons o rest ih =>
    rintro ⟨o2, ho2, v, hv, hne⟩
    rcases List.mem_cons.mp ho2 with ho2 | ho2
    · subst ho2
      simp only [prepareObjects, hv, if_pos, ne_eq, hne, not_false_eq_true, if_true]
      exact ⟨errAnnConflict o2, rfl⟩
    · have ⟨e, he⟩ := ih ⟨o2, ho2, v, hv, hne⟩
      rcases hg : getAnn o.annotations InventoryAnnotationKey with _ | v0
      · simp only [prepareObjects, hg, he]
        exact ⟨e, rfl⟩
      · by_cases hv0 : v0 = invID
        · simp only [prepareObjects, hg, hv0, ne_eq, not_true_eq_false, if_false, he]
          exact ⟨e, by simp⟩
        · simp only [prepareObjects, hg, ne_eq, hv0, not_false_eq_true, if_true]
          exact ⟨errAnnConflict o, rfl⟩

/-- Claim C5: an input manifest that already carries an owning-inventory
annotation whose value differs from this manager's inventory ID makes
both `Manager.Apply` and `Manager.Diff` fail, for every inventory policy
(and every other option), before any dry-run, apply or prune side effect
is performed: the traces are empty and the state is untouched. -/
theorem claim_C5 {σ : Type} (env : Env σ) (s : σ) (objs : List Unstructured)
    (aops : ApplyOptions) (dops : DiffOptions)
    (h : ∃ o ∈ objs, hasForeignAnn env.invID o) :
    (∃ e, applyM env s objs aops = (s, [], .ok ([], some e))) ∧
    (∃ e, diffM env s objs dops = (s, [], .ok (.error e))) := by
  obtain ⟨e, he⟩ := prepareObjects_err env.invID objs h
  exact ⟨⟨e, by simp [applyM, he]⟩, ⟨e, by simp [diffM, he]⟩⟩

/-- Witness for C5: the scenario of the package's own test
`TestInventoryPolicy/input_object_with_foreign_annotation_rejected` — a
configmap annotated with a foreign inventory ID is rejected even under
`AdoptAll`. -/
theorem claim_C5_witness :
    (∃ e, applyM (mockEnv "my-inventory") ⟨[], []⟩
        [{ cmManifest "test-cm" with
            annotations := [(InventoryAnnotationKey, "other-inventory")] }]
        { zeroApplyOptions with inventoryPolicy := .adoptAll } =
        (⟨[], []⟩, [], .ok ([], some e))) ∧
    (∃ e, diffM (mockEnv "my-inventory") ⟨[], []⟩
        [{ cmManifest "test-cm" with
            annotations := [(InventoryAnnotationKey, "other-inventory")] }]
        zeroDiffOptions =
        (⟨[], []⟩, [], .ok (.error e))) := by
  refine claim_C5 (mockEnv "my-inventory") ⟨[], []⟩ _ _ _ ?_
  refine ⟨{ cmManifest "test-cm" with
      annotations := [(InventoryAnnotationKey, "other-inventory")] },
    List.mem_singleton.mpr rfl, "other-inventory", ?_, ?_⟩
  · decide
  · decide

theorem applyPrunePhase_cases (env : Env σ) (s4 : σ) (objs : List Unstructured)
    (ops : ApplyOptions) (cm2 : ChangeMap) (refs1 : List ObjMetadata) :
    (ops.noPrune = true ∧
      applyPrunePhase env s4 objs ops cm2 refs1 = (s4, [], .ok (changesMapToArray cm2, none))) ∨
    (ops.noPrune = false ∧ ∃ e,
      (env.invGetPrune s4 objs).2.2 = some e ∧
      applyPrunePhase env s4 objs ops cm2 refs1 =
        ((env.invGetPrune s4 objs).1, [Ev.getPruneEv (env.invGetPrune s4 objs).2.1 false],
         .ok (changesMapToArray cm2, some (errGetPrune e)))) ∨
    (ops.noPrune = false ∧ (env.invGetPrune s4 objs).2.2 = none ∧
      ∃ s6 tr6 plr,
        pruneLoop env ops.inventoryPolicy (env.invGetPrune s4 objs).1
          (env.invGetPrune s4 objs).2.1 cm2 refs1 none = (s6, tr6, plr) ∧
        ((plr = .panicked ∧
           applyPrunePhase env s4 objs ops cm2 refs1 =
             (s6, Ev.getPruneEv (env.invGetPrune s4 objs).2.1 true :: tr6, .panicked)) ∨
         (∃ e, plr = .ok (.abortPolicy e) ∧
           applyPrunePhase env s4 objs ops cm2 refs1 =
             (s6, Ev.getPruneEv (env.invGetPrune s4 objs).2.1 true :: tr6, .ok ([], some e))) ∨
         (∃ cm3 refs2 pruneErr, plr = .ok (.done cm3 refs2 pruneErr) ∧
           applyPrunePhase env s4 objs ops cm2 refs1 =
             ((env.invWrite s6 refs2).1,
              Ev.getPruneEv (env.invGetPrune s4 objs).2.1 true :: tr6 ++
                [Ev.invWriteEv refs2 (env.invWrite s6 refs2).2.isNone],
              .ok (changesMapToArray cm3, joinErr pruneErr (env.invWrite s6 refs2).2))))) := by
  by_cases hnp : ops.noPrune = true
  · exact Or.inl ⟨hnp, by simp [applyPrunePhase, hnp]⟩
  · simp only [Bool.not_eq_true] at hnp
    rcases hg : (env.invGetPrune s4 objs).2.2 with _ | e
    · refine Or.inr (Or.inr ⟨hnp, rfl, ?_⟩)
      rcases hpl : pruneLoop env ops.inventoryPolicy (env.invGetPrune s4 objs).1
          (env.invGetPrune s4 objs).2.1 cm2 refs1 none with ⟨s6, tr6, plr⟩
      refine ⟨s6, tr6, plr, rfl, ?_⟩
      rcases plr with _ | plr
      · exact Or.inl ⟨rfl, by simp [applyPrunePhase, hnp, hg, hpl]⟩
      · rcases plr with e2 | ⟨cm3, refs2, pruneErr⟩
        · exact Or.inr (Or.inl ⟨e2, rfl, by simp [applyPrunePhase, hnp, hg, hpl]⟩)
        · exact Or.inr (Or.inr ⟨cm3, refs2, pruneErr, rfl,
            by simp [applyPrunePhase, hnp, hg, hpl]⟩)
    · exact Or.inr (Or.inl ⟨hnp, e, rfl, by simp [applyPrunePhase, hnp, hg]⟩)

theorem applyPost_cases (env : Env σ) (s1 : σ) (objs : List Unstructured)
    (ops : ApplyOptions) (cm1 : ChangeMap) :
    (∃ e, (env.rmApplyAll s1 objs ops.force ops.waitInterval ops.waitTimeout).2.1 = none ∧
      (env.rmApplyAll s1 objs ops.force ops.waitInterval ops.waitTimeout).2.2 = some e ∧
      applyPost env s1 objs ops cm1 =
        ((env.rmApplyAll s1 objs ops.force ops.waitInterval ops.waitTimeout).1,
         [Ev.applyAllEv objs none false], .ok ([], some e))) ∨
    (∃ e,
      (env.invRead (env.rmApplyAll s1 objs ops.force ops.waitInterval ops.waitTimeout).1).2.2 = some e ∧
      applyPost env s1 objs ops cm1 =
        ((env.invRead (env.rmApplyAll s1 objs ops.force ops.waitInterval ops.waitTimeout).1).1,
         [Ev.applyAllEv objs (env.rmApplyAll s1 objs ops.force ops.waitInterval ops.waitTimeout).2.1
            (env.rmApplyAll s1 objs ops.force ops.waitInterval ops.waitTimeout).2.2.isNone,
          Ev.invReadEv
            (env.invRead (env.rmApplyAll s1 objs ops.force ops.waitInterval ops.waitTimeout).1).2.1
            false],
         .ok ([], some e))) ∨
    ((env.invRead (env.rmApplyAll s1 objs ops.force ops.waitInterval ops.waitTimeout).1).2.2 = none ∧
      ((env.rmApplyAll s1 objs ops.force ops.waitInterval ops.waitTimeout).2.1 = none ∨
        ∃ entries, (env.rmApplyAll s1 objs ops.force ops.waitInterval ops.waitTimeout).2.1 = some entries ∧
          mergeLoop entries cm1
            (env.invRead (env.rmApplyAll s1 objs ops.force ops.waitInterval ops.waitTimeout).1).2.1
            none = .panicked) ∧
      applyPost env s1 objs ops cm1 =
        ((env.invRead (env.rmApplyAll s1 objs ops.force ops.waitInterval ops.waitTimeout).1).1,
         [Ev.applyAllEv objs (env.rmApplyAll s1 objs ops.force ops.waitInterval ops.waitTimeout).2.1
            (env.rmApplyAll s1 objs ops.force ops.waitInterval ops.waitTimeout).2.2.isNone,
          Ev.invReadEv
            (env.invRead (env.rmApplyAll s1 objs ops.force ops.waitInterval ops.waitTimeout).1).2.1
            true],
         .panicked)) ∨
    (∃ entries cm2 refs1 invErr0,
      (env.rmApplyAll s1 objs ops.force ops.waitInterval ops.waitTimeout).2.1 = some entries ∧
      (env.invRead (env.rmApplyAll s1 objs ops.force ops.waitInterval ops.waitTimeout).1).2.2 = none ∧
      mergeLoop entries cm1
        (env.invRead (env.rmApplyAll s1 objs ops.force ops.waitInterval ops.waitTimeout).1).2.1
        none = .ok (cm2, refs1, invErr0) ∧
      ((∃ e, joinErr (env.rmApplyAll s1 objs ops.force ops.waitInterval ops.waitTimeout).2.2
          (joinErr invErr0
            (env.invWrite
              (env.invRead (env.rmApplyAll s1 objs ops.force ops.waitInterval ops.waitTimeout).1).1
              refs1).2) = some e ∧
        applyPost env s1 objs ops cm1 =
          ((env.invWrite
              (env.invRead (env.rmApplyAll s1 objs ops.force ops.waitInterval ops.waitTimeout).1).1
              refs1).1,
           [Ev.applyAllEv objs (some entries)
              (env.rmApplyAll s1 objs ops.force ops.waitInterval ops.waitTimeout).2.2.isNone,
            Ev.invReadEv
              (env.invRead (env.rmApplyAll s1 objs ops.force ops.waitInterval ops.waitTimeout).1).2.1
              true,
            Ev.invWriteEv refs1
              (env.invWrite
                (env.invRead (env.rmApplyAll s1 objs ops.force ops.waitInterval ops.waitTimeout).1).1
                refs1).2.isNone],
           .ok (changesMapToArray cm2, some e))) ∨
       (joinErr (env.rmApplyAll s1 objs ops.force ops.waitInterval ops.waitTimeout).2.2
          (joinErr invErr0
            (env.invWrite
              (env.invRead (env.rmApplyAll s1 objs ops.force ops.waitInterval ops.waitTimeout).1).1
              refs1).2) = none ∧
        applyPost env s1 objs ops cm1 =
          ((applyPrunePhase env
              (env.invWrite
                (env.invRead (env.rmApplyAll s1 objs ops.force ops.waitInterval ops.waitTimeout).1).1
                refs1).1 objs ops cm2 refs1).1,
           [Ev.applyAllEv objs (some entries)
              (env.rmApplyAll s1 objs ops.force ops.waitInterval ops.waitTimeout).2.2.isNone,
            Ev.invReadEv
              (env.invRead (env.rmApplyAll s1 objs ops.force ops.waitInterval ops.waitTimeout).1).2.1
              true,
            Ev.invWriteEv refs1
              (env.invWrite
                (env.invRead (env.rmApplyAll s1 objs ops.force ops.waitInterval ops.waitTimeout).1).1
                refs1).2.isNone] ++
            (applyPrunePhase env
              (env.invWrite
                (env.invRead (env.rmApplyAll s1 objs ops.force ops.waitInterval ops.waitTimeout).1).1
                refs1).1 objs ops cm2 refs1).2.1,
           (applyPrunePhase env
              (env.invWrite
                (env.invRead (env.rmApplyAll s1 objs ops.force ops.waitInterval ops.waitTimeout).1).1
                refs1).1 objs ops cm2 refs1).2.2)))) := by
  rcases hq : env.rmApplyAll s1 objs ops.force ops.waitInterval ops.waitTimeout with ⟨s2, entsOpt, applyErr⟩
  rcases entsOpt with _ | entries
  · rcases applyErr with _ | ae
    · rcases hr : env.invRead s2 with ⟨s3, refs0, readErr⟩
      rcases readErr with _ | re
      · refine Or.inr (Or.inr (Or.inl ⟨rfl, Or.inl rfl, ?_⟩))
        simp [applyPost, hq, hr]
      · refine Or.inr (Or.inl ⟨re, rfl, ?_⟩)
        simp [applyPost, hq, hr]
    · refine Or.inl ⟨ae, rfl, rfl, ?_⟩
      simp [applyPost, hq]
  · rcases hr : env.invRead s2 with ⟨s3, refs0, readErr⟩
    rcases readErr with _ | re
    · rcases hm : mergeLoop entries cm1 refs0 none with _ | ⟨cm2, refs1, invErr0⟩
      · refine Or.inr (Or.inr (Or.inl ⟨rfl, Or.inr ⟨entries, rfl, hm⟩, ?_⟩))
        · rcases applyErr with _ | ae <;> simp [applyPost, hq, hr, hm]
      · refine Or.inr (Or.inr (Or.inr ⟨entries, cm2, refs1, invErr0, rfl, rfl, hm, ?_⟩))
        rcases hj : joinErr applyErr (joinErr invErr0 (env.invWrite s3 refs1).2) with _ | e
        · refine Or.inr ⟨rfl, ?_⟩
          rcases applyErr with _ | ae <;>
            simp_all [applyPost, hq, hr, hm, hj]
        · refine Or.inl ⟨e, rfl, ?_⟩
          rcases applyErr with _ | ae <;>
            simp_all [applyPost, hq, hr, hm, hj]
    · refine Or.inr (Or.inl ⟨re, rfl, ?_⟩)
      rcases applyErr with _ | ae <;> simp [applyPost, hq, hr]

theorem applyM_cases (env : Env σ) (s0 : σ) (objects : List Unstructured)
    (ops0 : ApplyOptions) :
    (∃ e, prepareObjects env.invID objects = .error e ∧
      applyM env s0 objects ops0 = (s0, [], .ok ([], some e))) ∨
    (∃ objs s1 tr1 r1, prepareObjects env.invID objects = .ok objs ∧
      applyDiffLoop env s0 objs (setDefaultOps ops0).force (setDefaultOps ops0).inventoryPolicy
        (buildChangeMap objects) = (s1, tr1, r1) ∧
      ((r1 = .panicked ∧ applyM env s0 objects ops0 = (s1, tr1, .panicked)) ∨
       (∃ e, r1 = .ok (.error e) ∧ applyM env s0 objects ops0 = (s1, tr1, .ok ([], some e))) ∨
       (∃ cm1, r1 = .ok (.ok cm1) ∧
         applyM env s0 objects ops0 =
           ((applyPost env s1 objs (setDefaultOps ops0) cm1).1,
            tr1 ++ (applyPost env s1 objs (setDefaultOps ops0) cm1).2.1,
            (applyPost env s1 objs (setDefaultOps ops0) cm1).2.2)))) := by
  rcases hp : prepareObjects env.invID objects with e | objs
  · exact Or.inl ⟨e, rfl, by simp [applyM, hp]⟩
  · rcases hd : applyDiffLoop env s0 objs (setDefaultOps ops0).force
        (setDefaultOps ops0).inventoryPolicy (buildChangeMap objects) with ⟨s1, tr1, r1⟩
    refine Or.inr ⟨objs, s1, tr1, r1, rfl, hd, ?_⟩
    rcases r1 with _ | r1
    · exact Or.inl ⟨rfl, by simp [applyM, hp, hd]⟩
    · rcases r1 with e | cm1
      · exact Or.inr (Or.inl ⟨e, rfl, by simp [applyM, hp, hd]⟩)
      · refine Or.inr (Or.inr ⟨cm1, rfl, ?_⟩)
        simp only [applyM, hp, hd]

theorem pruneLoop_delete_dp (env : Env σ) (pol : Policy) :
    ∀ (ps : List Unstructured) (s : σ) (cm : ChangeMap) (refs : List ObjMetadata)
      (pe : Option GoErr) (o : Unstructured) (dp : String) (r : Option ObjMetadata),
      Ev.rmDeleteEv o dp r ∈ (pruneLoop env pol s ps cm refs pe).2.1 → dp = "Background" := by
  intro ps
  induction ps with
  | nil => intro s cm refs pe o dp r h; simp [pruneLoop] at h
  | cons p rest ih =>
    intro s cm refs pe o dp r h
    simp only [pruneLoop] at h
    rcases hca : env.canApply (some p) pol with _ | e <;> simp only [hca] at h
    · rcases hdel : (env.rmDelete s p "Background").2.2 with _ | e2 <;> simp only [hdel] at h
      · rcases hent : (env.rmDelete s p "Background").2.1 with _ | de <;> simp only [hent] at h
        · simp only [List.mem_cons, List.not_mem_nil, or_false] at h
          rcases h with h | h
          · exact Ev.noConfusion h
          · injection h with h1 h2 h3
        · rcases hrec : pruneLoop env pol (env.rmDelete s p "Background").1 rest
              (cmUpsert cm (formatObjectPathWithGV p)
                (changeFromObject p
                  (match createDeletedDiff env p with
                   | .error _ => ""
                   | .ok d0 => d0) .deleted))
              (refs.filter (fun m => m != de.objMetadata))
              (match createDeletedDiff env p with
               | .error e2 => joinErr pe (some e2)
               | .ok _ => pe) with ⟨s2, evs2, r2⟩
          simp only [hrec] at h
          simp only [List.mem_cons] at h
          rcases h with h | h | h
          · exact Ev.noConfusion h
          · injection h with h1 h2 h3
          · exact ih _ _ _ _ o dp r (by rw [hrec]; exact h)
      · rcases hrec : pruneLoop env pol (env.rmDelete s p "Background").1 rest cm refs
            (joinErr pe (some e2)) with ⟨s2, evs2, r2⟩
        simp only [hrec] at h
        simp only [List.mem_cons] at h
        rcases h with h | h | h
        · exact Ev.noConfusion h
        · injection h with h1 h2 h3
        · exact ih _ _ _ _ o dp r (by rw [hrec]; exact h)
    · simp only [List.mem_singleton] at h
      exact Ev.noConfusion h

theorem applyPrunePhase_delete_background (env : Env σ) (s4 : σ) (objs : List Unstructured)
    (ops : ApplyOptions) (cm2 : ChangeMap) (refs1 : List ObjMetadata)
    (o : Unstructured) (dp : String) (r : Option ObjMetadata)
    (h : Ev.rmDeleteEv o dp r ∈ (applyPrunePhase env s4 objs ops cm2 refs1).2.1) :
    dp = "Background" := by
  rcases applyPrunePhase_cases env s4 objs ops cm2 refs1 with
    ⟨-, hP⟩ | ⟨-, e, -, hP⟩ | ⟨-, -, s6, tr6, plr, hpl, hsub⟩
  · rw [hP] at h
    simp at h
  · rw [hP] at h
    simp at h
  · rcases hsub with ⟨-, hP⟩ | ⟨e, -, hP⟩ | ⟨cm3, refs2, pruneErr, -, hP⟩ <;> rw [hP] at h
    · simp only [List.mem_cons] at h
      rcases h with h | h
      · exact Ev.noConfusion h
      · exact pruneLoop_delete_dp env ops.inventoryPolicy _ _ _ _ _ o dp r (by rw [hpl]; exact h)
    · simp only [List.mem_cons] at h
      rcases h with h | h
      · exact Ev.noConfusion h
      · exact pruneLoop_delete_dp env ops.inventoryPolicy _ _ _ _ _ o dp r (by rw [hpl]; exact h)
    · simp only [List.cons_append, List.mem_cons, List.mem_append, List.mem_singleton,
        List.not_mem_nil, or_false] at h
      rcases h with h | h | h
      · exact Ev.noConfusion h
      · exact pruneLoop_delete_dp env ops.inventoryPolicy _ _ _ _ _ o dp r (by rw [hpl]; exact h)
      · exact Ev.noConfusion h

theorem applyM_delete_background (env : Env σ) (s0 : σ) (objects : List Unstructured)
    (ops0 : ApplyOptions) (o : Unstructured) (dp : String) (r : Option ObjMetadata)
    (h : Ev.rmDeleteEv o dp r ∈ (applyM env s0 objects ops0).2.1) : dp = "Background" := by
  have hnotdiff : ∀ s1 tr1 r1 objs,
      applyDiffLoop env s0 objs (setDefaultOps ops0).force (setDefaultOps ops0).inventoryPolicy
        (buildChangeMap objects) = (s1, tr1, r1) →
      Ev.rmDeleteEv o dp r ∉ tr1 := by
    intro s1 tr1 r1 objs hd hmem
    have := applyDiffLoop_evs env objs s0 (setDefaultOps ops0).force
      (setDefaultOps ops0).inventoryPolicy (buildChangeMap objects) (Ev.rmDeleteEv o dp r)
      (by rw [hd]; exact hmem)
    simp [isDiffPhaseEv] at this
  rcases applyM_cases env s0 objects ops0 with
    ⟨e, -, hA⟩ | ⟨objs, s1, tr1, r1, -, hd, hsub⟩
  · rw [hA] at h
    simp at h
  · rcases hsub with ⟨-, hA⟩ | ⟨e, -, hA⟩ | ⟨cm1, -, hA⟩ <;> rw [hA] at h
    · exact absurd h (hnotdiff s1 tr1 r1 objs hd)
    · exact absurd h (hnotdiff s1 tr1 r1 objs hd)
    · simp only [List.mem_append] at h
      rcases h with h | h
      · exact absurd h (hnotdiff s1 tr1 r1 objs hd)
      · rcases applyPost_cases env s1 objs (setDefaultOps ops0) cm1 with
          ⟨e, -, -, hP⟩ | ⟨e, -, hP⟩ | ⟨-, -, hP⟩ | ⟨entries, cm2, refs1, invErr0, -, -, -, hsub2⟩
        · rw [hP] at h
          simp at h
        · rw [hP] at h
          simp at h
        · rw [hP] at h
          simp at h
        · rcases hsub2 with ⟨e, -, hP⟩ | ⟨-, hP⟩ <;> rw [hP] at h
          · simp at h
          · simp only [List.cons_append, List.nil_append, List.mem_cons, List.mem_append] at h
            rcases h with h | h | h | h
            · exact Ev.noConfusion h
            · exact Ev.noConfusion h
            · exact Ev.noConfusion h
            · exact applyPrunePhase_delete_background env _ objs (setDefaultOps ops0) cm2 refs1 o dp r h

/-- Claim C8 (code bug): the package's own option plumbing says prune
deletes honour `ApplyOptions.DeletePropagationPolicy` (documented on the
field and defaulted by `setDefaultOps`), but `Manager.Apply` issues every
prune delete with the hard-coded `Background` policy.  First conjunct:
in every run of `Apply`, against any backend, every delete carries
`Background`.  Second conjunct: a concrete run that sets `Foreground`
still issues its prune delete with `Background`. -/
theorem claim_C8 :
    (∀ (σ : Type) (env : Env σ) (s0 : σ) (objects : List Unstructured) (ops0 : ApplyOptions)
      (o : Unstructured) (dp : String) (r : Option ObjMetadata),
      Ev.rmDeleteEv o dp r ∈ (applyM env s0 objects ops0).2.1 → dp = "Background") ∧
    (∃ m, Ev.rmDeleteEv (skeletonOf (objMetaOf (cmManifest "old-cm"))) "Background" m ∈
      (applyM (mockEnv "test-inventory")
        ⟨[(keyFromObj (cmManifest "old-cm"), cmManifest "old-cm")],
          [objMetaOf (cmManifest "old-cm")]⟩ []
        { zeroApplyOptions with
            deletePropagationPolicy := "Foreground"
            inventoryPolicy := .adoptAll }).2.1 ∧
      ∀ m2, Ev.rmDeleteEv (skeletonOf (objMetaOf (cmManifest "old-cm"))) "Foreground" m2 ∉
        (applyM (mockEnv "test-inventory")
          ⟨[(keyFromObj (cmManifest "old-cm"), cmManifest "old-cm")],
            [objMetaOf (cmManifest "old-cm")]⟩ []
          { zeroApplyOptions with
              deletePropagationPolicy := "Foreground"
              inventoryPolicy := .adoptAll }).2.1) := by
  constructor
  · intro σ env s0 objects ops0 o dp r h
    exact applyM_delete_background env s0 objects ops0 o dp r h
  · refine ⟨some (objMetaOf (cmManifest "old-cm")), ?_, ?_⟩
    · decide
    · intro m2 hmem
      have := applyM_delete_background _ _ _ _ _ _ _ hmem
      exact absurd this (by decide)

/-- Witness for the universally quantified part of C8, at the concrete
run of its second conjunct. -/
theorem claim_C8_witness :
    "Background" = "Background" ∧
    Ev.rmDeleteEv (skeletonOf (objMetaOf (cmManifest "old-cm"))) "Background"
        (some (objMetaOf (cmManifest "old-cm"))) ∈
      (applyM (mockEnv "test-inventory")
        ⟨[(keyFromObj (cmManifest "old-cm"), cmManifest "old-cm")],
          [objMetaOf (cmManifest "old-cm")]⟩ []
        { zeroApplyOptions with
            deletePropagationPolicy := "Foreground"
            inventoryPolicy := .adoptAll }).2.1 := by
  have hmem : Ev.rmDeleteEv (skeletonOf (objMetaOf (cmManifest "old-cm"))) "Background"
      (some (objMetaOf (cmManifest "old-cm"))) ∈
      (applyM (mockEnv "test-inventory")
        ⟨[(keyFromObj (cmManifest "old-cm"), cmManifest "old-cm")],
          [objMetaOf (cmManifest "old-cm")]⟩ []
        { zeroApplyOptions with
            deletePropagationPolicy := "Foreground"
            inventoryPolicy := .adoptAll }).2.1 := by decide
  exact ⟨claim_C8.1 MockSt (mockEnv "test-inventory") _ _ _ _ _ _ hmem, hmem⟩

theorem diffPhase_not_write (ev : Ev) (h : isDiffPhaseEv ev = true) :
    isClusterWriteEv ev = false := by
  cases ev <;> simp_all [isDiffPhaseEv, isClusterWriteEv]

theorem prunePhase_not_diff (ev : Ev) (h : isPrunePhaseEv ev = true) :
    isDiffPhaseEv ev = false := by
  cases ev <;> simp_all [isPrunePhaseEv, isDiffPhaseEv]

theorem diffPhase_not_delete (ev : Ev) (h : isDiffPhaseEv ev = true) :
    isRmDeleteEv ev = false := by
  cases ev <;> simp_all [isDiffPhaseEv, isRmDeleteEv]

theorem joinErr_eq_none {a b : Option GoErr} (h : joinErr a b = none) :
    a = none ∧ b = none := by
  cases a <;> cases b <;> simp_all [joinErr]

theorem applyPrunePhase_no_diff (env : Env σ) (s4 : σ) (objs : List Unstructured)
    (ops : ApplyOptions) (cm2 : ChangeMap) (refs1 : List ObjMetadata) :
    ∀ ev ∈ (applyPrunePhase env s4 objs ops cm2 refs1).2.1, isDiffPhaseEv ev = false := by
  intro ev hev
  rcases applyPrunePhase_cases env s4 objs ops cm2 refs1 with
    ⟨-, hP⟩ | ⟨-, e, -, hP⟩ | ⟨-, -, s6, tr6, plr, hpl, hsub⟩
  · rw [hP] at hev
    simp at hev
  · rw [hP] at hev
    simp at hev
    simp [hev, isDiffPhaseEv]
  · have htr6 : ∀ y ∈ tr6, isDiffPhaseEv y = false := by
      intro y hy
      exact prunePhase_not_diff y
        (pruneLoop_evs env ops.inventoryPolicy _ _ _ _ _ y (by rw [hpl]; exact hy))
    rcases hsub with ⟨-, hP⟩ | ⟨e, -, hP⟩ | ⟨cm3, refs2, pruneErr, -, hP⟩ <;> rw [hP] at hev
    · simp only [List.mem_cons] at hev
      rcases hev with hev | hev
      · simp [hev, isDiffPhaseEv]
      · exact htr6 ev hev
    · simp only [List.mem_cons] at hev
      rcases hev with hev | hev
      · simp [hev, isDiffPhaseEv]
      · exact htr6 ev hev
    · simp only [List.cons_append, List.mem_cons, List.mem_append, List.mem_singleton,
        List.not_mem_nil, or_false] at hev
      rcases hev with hev | hev | hev
      · simp [hev, isDiffPhaseEv]
      · exact htr6 ev hev
      · simp [hev, isDiffPhaseEv]

theorem applyPost_no_diff (env : Env σ) (s1 : σ) (objs : List Unstructured)
    (ops : ApplyOptions) (cm1 : ChangeMap) :
    ∀ ev ∈ (applyPost env s1 objs ops cm1).2.1, isDiffPhaseEv ev = false := by
  intro ev hev
  rcases applyPost_cases env s1 objs ops cm1 with
    ⟨e, -, -, hP⟩ | ⟨e, -, hP⟩ | ⟨-, -, hP⟩ | ⟨entries, cm2, refs1, invErr0, -, -, -, hsub⟩
  · rw [hP] at hev
    simp at hev
    simp [hev, isDiffPhaseEv]
  · rw [hP] at hev
    simp at hev
    rcases hev with hev | hev <;> simp [hev, isDiffPhaseEv]
  · rw [hP] at hev
    simp at hev
    rcases hev with hev | hev <;> simp [hev, isDiffPhaseEv]
  · rcases hsub with ⟨e, -, hP⟩ | ⟨-, hP⟩ <;> rw [hP] at hev
    · simp at hev
      rcases hev with hev | hev | hev <;> simp [hev, isDiffPhaseEv]
    · simp only [List.cons_append, List.nil_append, List.mem_cons, List.mem_append] at hev
      rcases hev with hev | hev | hev | hev
      · simp [hev, isDiffPhaseEv]
      · simp [hev, isDiffPhaseEv]
      · simp [hev, isDiffPhaseEv]
      · exact applyPrunePhase_no_diff env _ objs ops cm2 refs1 ev hev

/-- Claim C3: within one `Manager.Apply` invocation, (i) no cluster
write (staged apply or delete) ever precedes a per-object dry-run diff
or its diff-phase inventory-policy check, (ii) a diff-phase policy
violation ends the call immediately, with zero cluster writes in the
whole trace and a `nil, error` return, and (iii) every prune delete
comes after the staged apply and the post-apply inventory write, both of
which succeeded — prune is never interleaved with apply. -/
theorem claim_C3 {σ : Type} (env : Env σ) (s0 : σ) (objects : List Unstructured)
    (ops0 : ApplyOptions) (s' : σ) (tr : List Ev)
    (res : GoResult (List Change × Option GoErr))
    (h : applyM env s0 objects ops0 = (s', tr, res)) :
    (∀ t1 x t2, tr = t1 ++ x :: t2 → isDiffPhaseEv x = true →
      ∀ y ∈ t1, isClusterWriteEv y = false) ∧
    (∀ t1 xo t2, tr = t1 ++ Ev.canApplyDiffEv xo false :: t2 →
      t2 = [] ∧ (∀ y ∈ tr, isClusterWriteEv y = false) ∧ ∃ e, res = .ok ([], some e)) ∧
    (∀ t1 o dp r t2, tr = t1 ++ Ev.rmDeleteEv o dp r :: t2 →
      ∃ u1 objs entries rrefs wrefs u3,
        t1 = u1 ++ [Ev.applyAllEv objs (some entries) true, Ev.invReadEv rrefs true,
                    Ev.invWriteEv wrefs true] ++ u3) := by
  rcases applyM_cases env s0 objects ops0 with
    ⟨e0, -, hA⟩ | ⟨objs, s1, tr1, r1, -, hd, hsub⟩
  · rw [hA] at h
    obtain ⟨-, htr, hres⟩ : s0 = s' ∧ ([] : List Ev) = tr ∧ GoResult.ok ([], some e0) = res := by
      simpa [Prod.mk.injEq] using h
    refine ⟨?_, ?_, ?_⟩
    · intro t1 x t2 hsplit _ y hy
      rw [← htr] at hsplit
      exact absurd hsplit.symm (by simp)
    · intro t1 xo t2 hsplit
      rw [← htr] at hsplit
      exact absurd hsplit.symm (by simp)
    · intro t1 o dp r t2 hsplit
      rw [← htr] at hsplit
      exact absurd hsplit.symm (by simp)
  · have htr1diff : ∀ y ∈ tr1, isDiffPhaseEv y = true := by
      intro y hy
      exact applyDiffLoop_evs env objs s0 (setDefaultOps ops0).force
        (setDefaultOps ops0).inventoryPolicy (buildChangeMap objects) y (by rw [hd]; exact hy)
    rcases hsub with ⟨hr1, hA⟩ | ⟨e0, hr1, hA⟩ | ⟨cm1, hr1, hA⟩
    -- dry-run loop panicked: the trace is the loop trace only
    · rw [hA] at h
      obtain ⟨-, htr, hres⟩ : s1 = s' ∧ tr1 = tr ∧ GoResult.panicked = res := by
        simpa [Prod.mk.injEq] using h
      subst htr
      refine ⟨?_, ?_, ?_⟩
      · intro t1 x t2 hsplit _ y hy
        exact diffPhase_not_write y (htr1diff y (by rw [hsplit]; simp [hy]))
      · intro t1 xo t2 hsplit
        exfalso
        have hmem : Ev.canApplyDiffEv xo false ∈ tr1 := by rw [hsplit]; simp
        obtain ⟨-, e2, he2⟩ := applyDiffLoop_false env objs s0 _ _ _ xo (by rw [hd]; exact hmem)
        rw [hd] at he2
        simp only at he2
        rw [hr1] at he2
        exact GoResult.noConfusion he2
      · intro t1 o dp r t2 hsplit
        exfalso
        have hmem : Ev.rmDeleteEv o dp r ∈ tr1 := by rw [hsplit]; simp
        have := diffPhase_not_delete _ (htr1diff _ hmem)
        simp [isRmDeleteEv] at this
    -- dry-run loop errored
    · rw [hA] at h
      obtain ⟨-, htr, hres⟩ : s1 = s' ∧ tr1 = tr ∧ GoResult.ok ([], some e0) = res := by
        simpa [Prod.mk.injEq] using h
      subst htr
      refine ⟨?_, ?_, ?_⟩
      · intro t1 x t2 hsplit _ y hy
        exact diffPhase_not_write y (htr1diff y (by rw [hsplit]; simp [hy]))
      · intro t1 xo t2 hsplit
        have hmem : Ev.canApplyDiffEv xo false ∈ tr1 := by rw [hsplit]; simp
        obtain ⟨⟨pre, hpre, hnf⟩, e2, he2⟩ :=
          applyDiffLoop_false env objs s0 _ _ _ xo (by rw [hd]; exact hmem)
        rw [hd] at hpre
        simp only at hpre
        have hclean : ∀ y ∈ pre, (y == Ev.canApplyDiffEv xo false) = false := by
          intro y hy
          rcases hbe : y == Ev.canApplyDiffEv xo false with _ | _
          · rfl
          · exact absurd (eq_of_beq hbe ▸ hy) (hnf xo)
        obtain ⟨u, hu1, hu2⟩ := split_after_clean (fun y => y == Ev.canApplyDiffEv xo false)
          pre [Ev.canApplyDiffEv xo false] t1 t2 (Ev.canApplyDiffEv xo false)
          (by rw [← hpre, hsplit]) (by simp) hclean
        have ht2 : t2 = [] := by
          rcases u with _ | ⟨a, u⟩
          · simpa using hu2.symm
          · exfalso
            have := congrArg List.length hu2
            simp at this
        refine ⟨ht2, ?_, e0, hres.symm⟩
        intro y hy
        exact diffPhase_not_write y (htr1diff y hy)
      · intro t1 o dp r t2 hsplit
        exfalso
        have hmem : Ev.rmDeleteEv o dp r ∈ tr1 := by rw [hsplit]; simp
        have := diffPhase_not_delete _ (htr1diff _ hmem)
        simp [isRmDeleteEv] at this
    -- dry-run loop succeeded: the post pipeline ran
    · rw [hA] at h
      obtain ⟨-, htr, hres⟩ :
          (applyPost env s1 objs (setDefaultOps ops0) cm1).1 = s' ∧
          tr1 ++ (applyPost env s1 objs (setDefaultOps ops0) cm1).2.1 = tr ∧
          (applyPost env s1 objs (setDefaultOps ops0) cm1).2.2 = res := by
        simpa [Prod.mk.injEq] using h
      have hpostnodiff := applyPost_no_diff env s1 objs (setDefaultOps ops0) cm1
      have hnofalse1 : ∀ q : Option Unstructured, Ev.canApplyDiffEv q false ∉ tr1 := by
        intro q hq
        obtain ⟨-, e2, he2⟩ := applyDiffLoop_false env objs s0 _ _ _ q (by rw [hd]; exact hq)
        rw [hd] at he2
        simp only at he2
        rw [hr1] at he2
        simp at he2
      refine ⟨?_, ?_, ?_⟩
      · intro t1 x t2 hsplit hxdiff y hy
        obtain ⟨u, hu1, -⟩ := split_before_clean isDiffPhaseEv t1 tr1
          (applyPost env s1 objs (setDefaultOps ops0) cm1).2.1 t2 x
          (by rw [htr, hsplit]) hxdiff
          (fun y hy => by simp [hpostnodiff y hy])
        have : y ∈ tr1 := by
          rw [hu1]
          simp [hy]
        exact diffPhase_not_write y (htr1diff y this)
      · intro t1 xo t2 hsplit
        exfalso
        have hmem : Ev.canApplyDiffEv xo false ∈ tr := by rw [hsplit]; simp
        rw [← htr] at hmem
        rcases List.mem_append.mp hmem with hmem | hmem
        · exact hnofalse1 xo hmem
        · have := hpostnodiff _ hmem
          simp [isDiffPhaseEv] at this
      · intro t1 o dp r t2 hsplit
        -- the delete lives in the post pipeline, whose trace in the prune case
        -- starts with the successful apply, read and write events
        rcases applyPost_cases env s1 objs (setDefaultOps ops0) cm1 with
          ⟨e2, -, -, hP⟩ | ⟨e2, -, hP⟩ | ⟨-, -, hP⟩ |
          ⟨entries, cm2, refs1, invErr0, -, -, -, hsub2⟩
        · exfalso
          have hmem : Ev.rmDeleteEv o dp r ∈ tr := by rw [hsplit]; simp
          rw [← htr, hP] at hmem
          rcases List.mem_append.mp hmem with hmem | hmem
          · have := diffPhase_not_delete _ (htr1diff _ hmem)
            simp [isRmDeleteEv] at this
          · simp at hmem
        · exfalso
          have hmem : Ev.rmDeleteEv o dp r ∈ tr := by rw [hsplit]; simp
          rw [← htr, hP] at hmem
          rcases List.mem_append.mp hmem with hmem | hmem
          · have := diffPhase_not_delete _ (htr1diff _ hmem)
            simp [isRmDeleteEv] at this
          · simp at hmem
        · exfalso
          have hmem : Ev.rmDeleteEv o dp r ∈ tr := by rw [hsplit]; simp
          rw [← htr, hP] at hmem
          rcases List.mem_append.mp hmem with hmem | hmem
          · have := diffPhase_not_delete _ (htr1diff _ hmem)
            simp [isRmDeleteEv] at this
          · simp at hmem
        · rcases hsub2 with ⟨e2, -, hP⟩ | ⟨hjoin, hP⟩
          · exfalso
            have hmem : Ev.rmDeleteEv o dp r ∈ tr := by rw [hsplit]; simp
            rw [← htr, hP] at hmem
            rcases List.mem_append.mp hmem with hmem | hmem
            · have := diffPhase_not_delete _ (htr1diff _ hmem)
              simp [isRmDeleteEv] at this
            · simp at hmem
          · obtain ⟨hae, hrest⟩ := joinErr_eq_none hjoin
            obtain ⟨hinv0, hw⟩ := joinErr_eq_none hrest
            have hclean : ∀ y ∈ tr1 ++ [Ev.applyAllEv objs (some entries)
                (env.rmApplyAll s1 objs (setDefaultOps ops0).force (setDefaultOps ops0).waitInterval
                  (setDefaultOps ops0).waitTimeout).2.2.isNone,
                Ev.invReadEv (env.invRead (env.rmApplyAll s1 objs (setDefaultOps ops0).force
                  (setDefaultOps ops0).waitInterval (setDefaultOps ops0).waitTimeout).1).2.1 true,
                Ev.invWriteEv refs1 (env.invWrite (env.invRead (env.rmApplyAll s1 objs
                  (setDefaultOps ops0).force (setDefaultOps ops0).waitInterval
                  (setDefaultOps ops0).waitTimeout).1).1 refs1).2.isNone],
                isRmDeleteEv y = false := by
              intro y hy
              rcases List.mem_append.mp hy with hy | hy
              · exact diffPhase_not_delete _ (htr1diff _ hy)
              · simp only [List.mem_cons, List.mem_singleton, List.not_mem_nil, or_false] at hy
                rcases hy with hy | hy | hy <;> simp [hy, isRmDeleteEv]
            obtain ⟨u, hu1, -⟩ := split_after_clean isRmDeleteEv _
              (applyPrunePhase env (env.invWrite (env.invRead (env.rmApplyAll s1 objs
                (setDefaultOps ops0).force (setDefaultOps ops0).waitInterval
                (setDefaultOps ops0).waitTimeout).1).1 refs1).1 objs (setDefaultOps ops0)
                cm2 refs1).2.1
              t1 t2 (Ev.rmDeleteEv o dp r)
              (by rw [← hsplit, ← htr, hP]; simp) (by simp [isRmDeleteEv]) hclean
            refine ⟨tr1, objs, entries,
              (env.invRead (env.rmApplyAll s1 objs (setDefaultOps ops0).force
                (setDefaultOps ops0).waitInterval (setDefaultOps ops0).waitTimeout).1).2.1,
              refs1, u, ?_⟩
            rw [hu1, hae, hw]
            simp [Option.isNone]

/-- A cluster/inventory state holding one previously applied configmap
(used as a concrete prune scenario). -/
def oneCmSt : MockSt :=
  ⟨[(keyFromObj (cmManifest "old-cm"), cmManifest "old-cm")], [objMetaOf (cmManifest "old-cm")]⟩

/-- Options that request `Foreground` delete propagation and `AdoptAll`. -/
def fgOps : ApplyOptions :=
  { zeroApplyOptions with
      deletePropagationPolicy := "Foreground"
      inventoryPolicy := .adoptAll }

/-- Witness for C3, instantiated at a concrete run whose prune phase
issues one delete: the trace up to that delete indeed decomposes around a
successful staged apply and a successful inventory write. -/
theorem claim_C3_witness :
    ∃ u1 objs entries rrefs wrefs u3,
      [Ev.applyAllEv ([] : List Unstructured) (some ([] : List ChangeSetEntry)) true,
       Ev.invReadEv [objMetaOf (cmManifest "old-cm")] true,
       Ev.invWriteEv [objMetaOf (cmManifest "old-cm")] true,
       Ev.getPruneEv [skeletonOf (objMetaOf (cmManifest "old-cm"))] true,
       Ev.canApplyPruneEv (skeletonOf (objMetaOf (cmManifest "old-cm"))) true] =
      u1 ++ [Ev.applyAllEv objs (some entries) true, Ev.invReadEv rrefs true,
             Ev.invWriteEv wrefs true] ++ u3 := by
  have h := claim_C3 (mockEnv "test-inventory") oneCmSt [] fgOps _ _ _ rfl
  exact h.2.2
    [Ev.applyAllEv ([] : List Unstructured) (some ([] : List ChangeSetEntry)) true,
     Ev.invReadEv [objMetaOf (cmManifest "old-cm")] true,
     Ev.invWriteEv [objMetaOf (cmManifest "old-cm")] true,
     Ev.getPruneEv [skeletonOf (objMetaOf (cmManifest "old-cm"))] true,
     Ev.canApplyPruneEv (skeletonOf (objMetaOf (cmManifest "old-cm"))) true]
    (skeletonOf (objMetaOf (cmManifest "old-cm"))) "Background"
    (some (objMetaOf (cmManifest "old-cm")))
    [Ev.invWriteEv [] true] (by decide)

theorem destroyLoop_evs (env : Env σ) (dp : String) :
    ∀ (objs : List Unstructured) (s : σ),
      ∀ ev ∈ (destroyLoop env dp s objs).2.1, ∃ o r0, ev = Ev.rmDeleteEv o dp r0 := by
  intro objs
  induction objs with
  | nil => intro s ev hev; simp [destroyLoop] at hev
  | cons o rest ih =>
    intro s ev hev
    simp only [destroyLoop] at hev
    rcases hdel : (env.rmDelete s o dp).2.2 with _ | e <;> simp only [hdel] at hev
    · rcases hrec : destroyLoop env dp (env.rmDelete s o dp).1 rest with ⟨s2, evs, r2⟩
      simp only [hrec] at hev
      simp only [List.mem_cons] at hev
      rcases hev with hev | hev
      · exact ⟨o, _, hev⟩
      · exact ih _ ev (by rw [hrec]; exact hev)
    · simp only [List.mem_singleton] at hev
      exact ⟨o, none, hev⟩

theorem destroyLoop_ok_all (env : Env σ) (dp : String) :
    ∀ (objs : List Unstructured) (s : σ) (s2 : σ) (evs : List Ev),
      destroyLoop env dp s objs = (s2, evs, none) →
      ∀ o ∈ objs, ∃ m, Ev.rmDeleteEv o dp m ∈ evs := by
  intro objs
  induction objs with
  | nil => intro s s2 evs h o ho; exact absurd ho (by simp)
  | cons o0 rest ih =>
    intro s s2 evs h o ho
    simp only [destroyLoop] at h
    rcases hdel : (env.rmDelete s o0 dp).2.2 with _ | e <;> simp only [hdel] at h
    · rcases hrec : destroyLoop env dp (env.rmDelete s o0 dp).1 rest with ⟨s3, evs2, r2⟩
      simp only [hrec, Prod.mk.injEq] at h
      obtain ⟨-, hevs, hr⟩ := h
      subst hevs
      rcases List.mem_cons.mp ho with ho | ho
      · subst ho
        exact ⟨_, List.mem_cons_self _ _⟩
      · obtain ⟨m, hm⟩ := ih _ s3 evs2 (by rw [hrec, hr]) o ho
        exact ⟨m, by simp [hm]⟩
    · simp only [Prod.mk.injEq] at h
      exact absurd h.2.2 (by simp)

/-- Claim C7: `Manager.Destroy` deletes every object returned by
`inventory.GetPruneObjs(nil)`; on the first delete error it aborts
without touching the inventory (no write, no inventory delete); on
success it writes an empty inventory and then deletes the inventory
container, swallowing a NotFound error from that final delete; and (with
the in-repo backends) a second `Destroy` right after a successful one is
a no-op success issuing no deletes. -/
theorem claim_C7 :
    (∀ (σ : Type) (env : Env σ) (s : σ) (ops : DestroyOptions) (dp : String),
      dp = (if ops.deletePropagationPolicy = "" then "Background"
            else ops.deletePropagationPolicy) →
      (∀ s1 pobjs e, env.invGetPrune s [] = (s1, pobjs, some e) →
        destroyM env s ops = (s1, [Ev.getPruneEv pobjs false], some e)) ∧
      (∀ s1 pobjs, env.invGetPrune s [] = (s1, pobjs, none) →
        (∀ s2 evs e, destroyLoop env dp s1 pobjs = (s2, evs, some e) →
          destroyM env s ops = (s2, Ev.getPruneEv pobjs true :: evs, some e) ∧
          (∀ refs b, Ev.invWriteEv refs b ∉ Ev.getPruneEv pobjs true :: evs) ∧
          (∀ b, Ev.invDeleteEv b ∉ Ev.getPruneEv pobjs true :: evs)) ∧
        (∀ s2 evs, destroyLoop env dp s1 pobjs = (s2, evs, none) →
          (∀ o ∈ pobjs, ∃ m, Ev.rmDeleteEv o dp m ∈ evs) ∧
          (∀ s3 e, env.invWrite s2 [] = (s3, some e) →
            destroyM env s ops =
              (s3, Ev.getPruneEv pobjs true :: evs ++ [Ev.invWriteEv [] false], some e)) ∧
          (∀ s3, env.invWrite s2 [] = (s3, none) →
            (∀ s4 e, env.invDelete s3 = (s4, some e) →
              destroyM env s ops =
                (s4, Ev.getPruneEv pobjs true :: evs ++
                  [Ev.invWriteEv [] true, Ev.invDeleteEv false],
                 if e.isApiNotFound then none else some e)) ∧
            (∀ s4, env.invDelete s3 = (s4, none) →
              destroyM env s ops =
                (s4, Ev.getPruneEv pobjs true :: evs ++
                  [Ev.invWriteEv [] true, Ev.invDeleteEv true], none)))))) ∧
    (∀ (id : String) (st : MockSt) (ops1 ops2 : DestroyOptions) (s1 : MockSt) (tr1 : List Ev),
      destroyM (mockEnv id) st ops1 = (s1, tr1, none) →
      destroyM (mockEnv id) s1 ops2 =
        (s1, [Ev.getPruneEv [] true, Ev.invWriteEv [] true, Ev.invDeleteEv true], none)) := by
  constructor
  · intro σ env s ops dp hdp
    subst hdp
    constructor
    · intro s1 pobjs e hg
      simp [destroyM, hg]
    · intro s1 pobjs hg
      refine ⟨?_, ?_⟩
      · intro s2 evs e hL
        refine ⟨by simp [destroyM, hg, hL], ?_, ?_⟩
        · intro refs b hmem
          simp only [List.mem_cons] at hmem
          rcases hmem with hmem | hmem
          · exact Ev.noConfusion hmem
          · obtain ⟨o, r0, ho⟩ := destroyLoop_evs env _ pobjs s1 _ (by rw [hL]; exact hmem)
            exact Ev.noConfusion ho
        · intro b hmem
          simp only [List.mem_cons] at hmem
          rcases hmem with hmem | hmem
          · exact Ev.noConfusion hmem
          · obtain ⟨o, r0, ho⟩ := destroyLoop_evs env _ pobjs s1 _ (by rw [hL]; exact hmem)
            exact Ev.noConfusion ho
      · intro s2 evs hL
        refine ⟨destroyLoop_ok_all env _ pobjs s1 s2 evs hL, ?_, ?_⟩
        · intro s3 e hw
          simp [destroyM, hg, hL, hw]
        · intro s3 hw
          constructor
          · intro s4 e hdl
            by_cases hnf : e.isApiNotFound = true <;>
              simp [destroyM, hg, hL, hw, hdl, hnf]
          · intro s4 hdl
            simp [destroyM, hg, hL, hw, hdl]
  · intro id st ops1 ops2 s1 tr1 h
    have hg : (mockEnv id).invGetPrune st [] = (st, memGetPrune st [], none) := rfl
    rcases hL : destroyLoop (mockEnv id)
        (if ops1.deletePropagationPolicy = "" then "Background"
         else ops1.deletePropagationPolicy) st (memGetPrune st []) with ⟨s2, evs, lr⟩
    have hw : (mockEnv id).invWrite s2 [] = ({ s2 with refs := [] }, none) := rfl
    have hdl : (mockEnv id).invDelete { s2 with refs := [] } = ({ s2 with refs := [] }, none) := rfl
    rcases lr with _ | e
    · have hM : destroyM (mockEnv id) st ops1 =
          ({ s2 with refs := [] },
           Ev.getPruneEv (memGetPrune st []) true :: (evs ++
             [Ev.invWriteEv [] true, Ev.invDeleteEv true]), none) := by
        simp only [destroyM, hg, hL, hw, hdl]
        rfl
      rw [hM] at h
      obtain ⟨hs1, -⟩ : ({ s2 with refs := [] } : MockSt) = s1 ∧ _ := by
        simpa [Prod.mk.injEq] using h
      subst hs1
      have hg2 : (mockEnv id).invGetPrune { s2 with refs := [] } [] =
          ({ s2 with refs := [] }, [], none) := rfl
      have hL2 : destroyLoop (mockEnv id)
          (if ops2.deletePropagationPolicy = "" then "Background"
           else ops2.deletePropagationPolicy) { s2 with refs := [] } [] =
          ({ s2 with refs := [] }, [], none) := rfl
      have hw2 : (mockEnv id).invWrite { s2 with refs := [] } [] =
          ({ s2 with refs := [] }, none) := rfl
      simp only [destroyM, hg2, hL2, hw2, hdl]
      rfl
    · have hM : destroyM (mockEnv id) st ops1 =
          (s2, Ev.getPruneEv (memGetPrune st []) true :: evs, some e) := by
        simp only [destroyM, hg, hL]
      rw [hM] at h
      have hbad := congrArg (fun t : MockSt × List Ev × Option GoErr => t.2.2) h
      simp at hbad

/-- Witness for C7: a destroy over one tracked configmap deletes it, and
the immediately following destroy is a no-op success. -/
theorem claim_C7_witness :
    (∀ o ∈ [skeletonOf (objMetaOf (cmManifest "old-cm"))], ∃ m,
      Ev.rmDeleteEv o "Background" m ∈
        [Ev.rmDeleteEv (skeletonOf (objMetaOf (cmManifest "old-cm"))) "Background"
           (some (objMetaOf (cmManifest "old-cm")))]) ∧
    destroyM (mockEnv "test-inventory") (⟨[], []⟩ : MockSt) ⟨""⟩ =
      ((⟨[], []⟩ : MockSt),
       [Ev.getPruneEv [] true, Ev.invWriteEv [] true, Ev.invDeleteEv true], none) := by
  constructor
  · exact (((claim_C7.1 MockSt (mockEnv "test-inventory") oneCmSt ⟨""⟩ "Background" (by decide)).2
      oneCmSt [skeletonOf (objMetaOf (cmManifest "old-cm"))] (by decide)).2
      ⟨[], [objMetaOf (cmManifest "old-cm")]⟩
      [Ev.rmDeleteEv (skeletonOf (objMetaOf (cmManifest "old-cm"))) "Background"
         (some (objMetaOf (cmManifest "old-cm")))] (by decide)).1
  · exact claim_C7.2 "test-inventory" oneCmSt ⟨""⟩ ⟨""⟩ ⟨[], []⟩
      [Ev.getPruneEv [skeletonOf (objMetaOf (cmManifest "old-cm"))] true,
       Ev.rmDeleteEv (skeletonOf (objMetaOf (cmManifest "old-cm"))) "Background"
         (some (objMetaOf (cmManifest "old-cm"))),
       Ev.invWriteEv [] true, Ev.invDeleteEv true] (by decide)

theorem dds_ok_char (env : Env σ) (s : σ) (o : Unstructured) (f : Bool) (pol : Policy)
    (r : DiffResult) (h : (diffDesiredStep env s o f pol).2.2 = .ok (.ok r)) :
    ((∃ e, (env.rmDiff s o f).2.err = some e ∧ e.notFoundForDiff = true) →
      r.action = .diffCreated ∧ renderManifestDiff env none (some o) = .ok r.diff) ∧
    ((env.rmDiff s o f).2.err = none → ∃ cs, (env.rmDiff s o f).2.entry = some cs ∧
      r.objMetadata = cs.objMetadata ∧ r.groupVersion = cs.groupVersion ∧
      r.subject = cs.subject ∧
      (cs.action = .created →
        r.action = .diffCreated ∧ renderManifestDiff env none (some o) = .ok r.diff) ∧
      (cs.action = .configured →
        r.action = .diffConfigured ∧
        renderManifestDiff env (env.rmDiff s o f).2.inCluster (env.rmDiff s o f).2.dryRun =
          .ok r.diff) ∧
      (cs.action = .unchanged → r.action = .diffUnchanged ∧ r.diff = "") ∧
      ((cs.action = .deleted ∨ cs.action = .skipped ∨ cs.action = .unknown) → False)) ∧
    ((∃ e, (env.rmDiff s o f).2.err = some e ∧ e.notFoundForDiff = false) → False) := by
  unfold diffDesiredStep diffOne at h
  rcases herr : (env.rmDiff s o f).2.err with _ | e
  · simp only [herr] at h
    rcases hent : (env.rmDiff s o f).2.entry with _ | cs
    · simp only [hent] at h
      simp at h
    · simp only [hent] at h
      refine ⟨by rintro ⟨e, he, -⟩; exact Option.noConfusion he, ?_,
        by rintro ⟨e, he, -⟩; exact Option.noConfusion he⟩
      intro _
      rcases hact : cs.action <;> simp only [hact] at h
      case created =>
        rcases hr : renderManifestDiff env none (some o) with e2 | d <;>
          simp only [hr] at h
        · simp at h
        · simp only [hact, GoResult.ok.injEq, Except.ok.injEq] at h
          refine ⟨cs, rfl, by simp [← h], by simp [← h], by simp [← h],
            fun _ => ⟨by simp [← h], by simp [← h, hr]⟩,
            fun hc => absurd (hact ▸ hc) (by simp),
            fun hc => absurd (hact ▸ hc) (by simp),
            fun hc => by rcases hact ▸ hc with hc | hc | hc <;> exact Action.noConfusion hc⟩
      case configured =>
        rcases hr : renderManifestDiff env (env.rmDiff s o f).2.inCluster
            (env.rmDiff s o f).2.dryRun with e2 | d <;> simp only [hr] at h
        · simp at h
        · rcases hca : env.canApply (env.rmDiff s o f).2.inCluster pol with _ | e3 <;>
            simp only [hca] at h
          · simp only [hact, GoResult.ok.injEq, Except.ok.injEq] at h
            refine ⟨cs, rfl, by simp [← h], by simp [← h], by simp [← h],
              fun hc => absurd (hact ▸ hc) (by simp),
              fun _ => ⟨by simp [← h], by simp [← h, hr]⟩,
              fun hc => absurd (hact ▸ hc) (by simp),
              fun hc => by rcases hact ▸ hc with hc | hc | hc <;> exact Action.noConfusion hc⟩
          · simp at h
      case unchanged =>
        simp only [hact, GoResult.ok.injEq, Except.ok.injEq] at h
        refine ⟨cs, rfl, by simp [← h], by simp [← h], by simp [← h],
          fun hc => absurd (hact ▸ hc) (by simp),
          fun hc => absurd (hact ▸ hc) (by simp),
          fun _ => ⟨by simp [← h], by simp [← h]⟩,
          fun hc => by rcases hact ▸ hc with hc | hc | hc <;> exact Action.noConfusion hc⟩
      case deleted =>
        rcases hr : createDeletedDiff env o with e2 | d <;> simp only [hr] at h <;> simp [hact] at h
      case skipped => simp [hact] at h
      case unknown => simp [hact] at h
  · simp only [herr] at h
    by_cases hnf : e.notFoundForDiff = true
    · simp only [hnf, if_pos] at h
      rcases hr : renderManifestDiff env none (some o) with e2 | d <;> simp only [hr] at h
      · simp at h
      · simp only [GoResult.ok.injEq, Except.ok.injEq] at h
        refine ⟨?_, fun hc => Option.noConfusion hc, ?_⟩
        · intro _
          exact ⟨by simp [← h], by simp [← h, hr]⟩
        · rintro ⟨e4, he4, hnf4⟩
          cases he4
          rw [hnf] at hnf4
          exact Bool.noConfusion hnf4
    · simp only [if_neg hnf] at h
      simp at h

theorem dds_bad (env : Env σ) (s : σ) (o : Unstructured) (f : Bool) (pol : Policy)
    (cs : ChangeSetEntry) (h1 : (env.rmDiff s o f).2.err = none)
    (h2 : (env.rmDiff s o f).2.entry = some cs)
    (h3 : cs.action = .deleted ∨ cs.action = .skipped ∨ cs.action = .unknown) :
    ∃ e, (diffDesiredStep env s o f pol).2.2 = .ok (.error e) := by
  unfold diffDesiredStep diffOne
  simp only [h1, h2]
  rcases h3 with h3 | h3 | h3 <;> rw [h3]
  · rcases hr : createDeletedDiff env o with e2 | d <;> simp only [hr]
    · exact ⟨e2, rfl⟩
    · exact ⟨errUnexpectedDiffAction .deleted cs.subject, by simp [h3]⟩
  · exact ⟨errUnexpectedDiffAction .skipped cs.subject, by simp [h3]⟩
  · exact ⟨errUnexpectedDiffAction .unknown cs.subject, by simp [h3]⟩

/-- Every result produced by the prune-preview loop of `Manager.Diff`
carries the `DiffPruned` action and zero-valued object-reference fields
(diff.go lines 78-88 populate only `Action` and `Diff`). -/
theorem dpl_ok (env : Env σ) (pol : Policy) (ps : List Unstructured) :
    ∀ (evs : List Ev) (rs : List DiffResult),
      diffPruneLoop env pol ps = (evs, .ok rs) →
      ∀ q ∈ rs, q.action = .diffPruned ∧ q.objMetadata = zeroMeta ∧
        q.groupVersion = "" ∧ q.subject = "" := by
  induction ps with
  | nil =>
    intro evs rs h q hq
    simp only [diffPruneLoop] at h
    injection h with h1 h2
    injection h2 with h3
    subst h3
    simp at hq
  | cons p rest ih =>
    intro evs rs h q hq
    rcases hca : env.canApply (some p) pol with _ | e
    · rcases hcd : createDeletedDiff env p with e1 | d
      · simp only [diffPruneLoop, hca, hcd] at h
        injection h with h1 h2
        exact Except.noConfusion h2
      · rcases hrec : diffPruneLoop env pol rest with ⟨evsR, rR⟩
        rcases rR with e2 | rsR
        · simp only [diffPruneLoop, hca, hcd, hrec] at h
          injection h with h1 h2
          exact Except.noConfusion h2
        · simp only [diffPruneLoop, hca, hcd, hrec] at h
          injection h with h1 h2
          injection h2 with h3
          subst h3
          rcases List.mem_cons.mp hq with hq | hq
          · subst hq
            exact ⟨rfl, rfl, rfl, rfl⟩
          · exact ih evsR rsR hrec q hq
    · simp only [diffPruneLoop, hca] at h
      injection h with h1 h2
      exact Except.noConfusion h2

/-- A successful run of the desired-object loop of `Manager.Diff`
produces one result per prepared object, each coming from a successful
`diffDesiredStep` at some intermediate state. -/
theorem ddl_char (env : Env σ) (f : Bool) (pol : Policy) (objs : List Unstructured) :
    ∀ (s s2 : σ) (evs : List Ev) (rs : List DiffResult),
      diffDesiredLoop env f pol s objs = (s2, evs, .ok (.ok rs)) →
      rs.length = objs.length ∧
      ∀ i (h1 : i < rs.length) (h2 : i < objs.length), ∃ si,
        (diffDesiredStep env si (objs.get ⟨i, h2⟩) f pol).2.2 =
          .ok (.ok (rs.get ⟨i, h1⟩)) := by
  induction objs with
  | nil =>
    intro s s2 evs rs h
    simp only [diffDesiredLoop] at h
    injection h with h1 h2
    injection h2 with h3 h4
    injection h4 with h5
    injection h5 with h6
    subst h6
    exact ⟨rfl, fun i h1 h2 => absurd h2 (by simp)⟩
  | cons o rest ih =>
    intro s s2 evs rs h
    rcases hstep : diffDesiredStep env s o f pol with ⟨s1, evs1, g⟩
    rcases g with _ | g2
    · simp only [diffDesiredLoop, hstep] at h
      injection h with h1 h2
      injection h2 with h3 h4
      exact GoResult.noConfusion h4
    · rcases g2 with e | r
      · simp only [diffDesiredLoop, hstep] at h
        injection h with h1 h2
        injection h2 with h3 h4
        injection h4 with h5
        exact Except.noConfusion h5
      · rcases hrec : diffDesiredLoop env f pol s1 rest with ⟨sR, evsR, gR⟩
        rcases gR with _ | gR2
        · simp only [diffDesiredLoop, hstep, hrec] at h
          injection h with h1 h2
          injection h2 with h3 h4
          exact GoResult.noConfusion h4
        · rcases gR2 with e | rsR
          · simp only [diffDesiredLoop, hstep, hrec] at h
            injection h with h1 h2
            injection h2 with h3 h4
            injection h4 with h5
            exact Except.noConfusion h5
          · simp only [diffDesiredLoop, hstep, hrec] at h
            injection h with h1 h2
            injection h2 with h3 h4
            injection h4 with h5
            injection h5 with h6
            subst h6
            obtain ⟨hlen, hall⟩ := ih s1 sR evsR rsR hrec
            refine ⟨by simp [hlen], ?_⟩
            intro i hi1 hi2
            cases i with
            | zero =>
              refine ⟨s, ?_⟩
              show (diffDesiredStep env s o f pol).2.2 = .ok (.ok r)
              rw [hstep]
            | succ n =>
              have hn1 : n < rsR.length := by simpa using hi1
              have hn2 : n < rest.length := by simpa using hi2
              obtain ⟨si, hsi⟩ := hall n hn1 hn2
              exact ⟨si, hsi⟩

/-- Decomposition of a successful `Manager.Diff`: the results are the
prune previews followed by the per-object desired results, the former
produced by the prune loop and the latter by the desired loop started at
the post-`GetPruneObjs` state. -/
theorem diffM_ok_decomp (env : Env σ) (s0 : σ) (objects : List Unstructured)
    (ops : DiffOptions) (sE : σ) (tr : List Ev) (rs : List DiffResult)
    (h : diffM env s0 objects ops = (sE, tr, .ok (.ok rs))) :
    ∃ objs prs drs s2 evs2,
      prepareObjects env.invID objects = .ok objs ∧
      rs = prs ++ drs ∧
      (∀ q ∈ prs, q.action = .diffPruned ∧ q.objMetadata = zeroMeta ∧
        q.groupVersion = "" ∧ q.subject = "") ∧
      diffDesiredLoop env ops.force ops.inventoryPolicy
        (env.invGetPrune s0 objs).1 objs = (s2, evs2, .ok (.ok drs)) := by
  unfold diffM at h
  rcases hp : prepareObjects env.invID objects with e | objs
  · simp only [hp] at h
    injection h with h1 h2
    injection h2 with h3 h4
    injection h4 with h5
    exact Except.noConfusion h5
  · simp only [hp] at h
    rcases hg : (env.invGetPrune s0 objs).2.2 with _ | e
    · simp only [hg] at h
      rcases hnp : ops.noPrune with _ | _
      · simp only [hnp, if_neg] at h
        rcases hpl : diffPruneLoop env ops.inventoryPolicy (env.invGetPrune s0 objs).2.1
            with ⟨evsP, rP⟩
        rcases rP with e2 | prs
        · simp only [hpl] at h
          injection h with h1 h2
          injection h2 with h3 h4
          injection h4 with h5
          exact Except.noConfusion h5
        · simp only [hpl] at h
          rcases hdl : diffDesiredLoop env ops.force ops.inventoryPolicy
              (env.invGetPrune s0 objs).1 objs with ⟨s2, evs2, g⟩
          rcases g with _ | g2
          · simp only [hdl] at h
            injection h with h1 h2
            injection h2 with h3 h4
            exact GoResult.noConfusion h4
          · rcases g2 with e3 | drs
            · simp only [hdl] at h
              injection h with h1 h2
              injection h2 with h3 h4
              injection h4 with h5
              exact Except.noConfusion h5
            · simp only [hdl] at h
              injection h with h1 h2
              injection h2 with h3 h4
              injection h4 with h5
              injection h5 with h6
              exact ⟨objs, prs, drs, s2, evs2, rfl, h6.symm,
                dpl_ok env ops.inventoryPolicy (env.invGetPrune s0 objs).2.1 evsP prs hpl,
                hdl⟩
      · simp only [hnp, if_pos] at h
        rcases hdl : diffDesiredLoop env ops.force ops.inventoryPolicy
            (env.invGetPrune s0 objs).1 objs with ⟨s2, evs2, g⟩
        rcases g with _ | g2
        · simp only [hdl] at h
          injection h with h1 h2
          injection h2 with h3 h4
          exact GoResult.noConfusion h4
        · rcases g2 with e3 | drs
          · simp only [hdl] at h
            injection h with h1 h2
            injection h2 with h3 h4
            injection h4 with h5
            exact Except.noConfusion h5
          · simp only [hdl] at h
            injection h with h1 h2
            injection h2 with h3 h4
            injection h4 with h5
            injection h5 with h6
            refine ⟨objs, [], drs, s2, evs2, rfl, ?_, by simp, hdl⟩
            simpa using h6.symm
    · simp only [hg] at h
      injection h with h1 h2
      injection h2 with h3 h4
      injection h4 with h5
      exact Except.noConfusion h5

/-- The diff result the mock backends produce for a fresh configmap. -/
def c4Res : DiffResult :=
  match (diffDesiredStep (mockEnv "test-inventory") (⟨[], []⟩ : MockSt) (cmManifest "test-cm")
      false Policy.adoptAll).2.2 with
  | .ok (.ok r) => r
  | _ => { action := .diffUnchanged, diff := "", objMetadata := zeroMeta
           groupVersion := "", subject := "" }

/-- C4: for every object in the desired set, `Manager.Diff` maps the
dry-run outcome as follows: a NotFound dry-run error or a `Created`
action yields a `DiffCreated` result whose diff renders nil to the
object; `Configured` yields `DiffConfigured` with a diff rendering the
in-cluster object to the dry-run object; `Unchanged` yields
`DiffUnchanged` with empty diff text; any other action from the resource
manager makes the per-object step fail with an error; and every
successful `Manager.Diff` maps each desired object through exactly such
a step. -/
theorem claim_C4 :
    (∀ (τ : Type) (env : Env τ) (s : τ) (o : Unstructured) (f : Bool) (pol : Policy)
        (r : DiffResult), (diffDesiredStep env s o f pol).2.2 = .ok (.ok r) →
      ((∃ e, (env.rmDiff s o f).2.err = some e ∧ e.notFoundForDiff = true) →
        r.action = .diffCreated ∧ renderManifestDiff env none (some o) = .ok r.diff) ∧
      ((env.rmDiff s o f).2.err = none → ∃ cs, (env.rmDiff s o f).2.entry = some cs ∧
        r.objMetadata = cs.objMetadata ∧ r.groupVersion = cs.groupVersion ∧
        r.subject = cs.subject ∧
        (cs.action = .created →
          r.action = .diffCreated ∧ renderManifestDiff env none (some o) = .ok r.diff) ∧
        (cs.action = .configured →
          r.action = .diffConfigured ∧
          renderManifestDiff env (env.rmDiff s o f).2.inCluster (env.rmDiff s o f).2.dryRun =
            .ok r.diff) ∧
        (cs.action = .unchanged → r.action = .diffUnchanged ∧ r.diff = "") ∧
        ((cs.action = .deleted ∨ cs.action = .skipped ∨ cs.action = .unknown) → False)) ∧
      ((∃ e, (env.rmDiff s o f).2.err = some e ∧ e.notFoundForDiff = false) → False)) ∧
    (∀ (τ : Type) (env : Env τ) (s : τ) (o : Unstructured) (f : Bool) (pol : Policy)
        (cs : ChangeSetEntry), (env.rmDiff s o f).2.err = none →
      (env.rmDiff s o f).2.entry = some cs →
      (cs.action = .deleted ∨ cs.action = .skipped ∨ cs.action = .unknown) →
      ∃ e, (diffDesiredStep env s o f pol).2.2 = .ok (.error e)) ∧
    (∀ (τ : Type) (env : Env τ) (s0 : τ) (objects : List Unstructured) (ops : DiffOptions)
        (sE : τ) (tr : List Ev) (rs : List DiffResult),
      diffM env s0 objects ops = (sE, tr, .ok (.ok rs)) →
      ∃ objs prs drs, prepareObjects env.invID objects = .ok objs ∧ rs = prs ++ drs ∧
        drs.length = objs.length ∧
        ∀ i (h1 : i < drs.length) (h2 : i < objs.length), ∃ si,
          (diffDesiredStep env si (objs.get ⟨i, h2⟩) ops.force ops.inventoryPolicy).2.2 =
            .ok (.ok (drs.get ⟨i, h1⟩))) := by
  refine ⟨?_, ?_, ?_⟩
  · intro τ env s o f pol r h
    exact dds_ok_char env s o f pol r h
  · intro τ env s o f pol cs h1 h2 h3
    exact dds_bad env s o f pol cs h1 h2 h3
  · intro τ env s0 objects ops sE tr rs h
    obtain ⟨objs, prs, drs, s2, evs2, hp, hrs, hprs, hdl⟩ :=
      diffM_ok_decomp env s0 objects ops sE tr rs h
    obtain ⟨hlen, hall⟩ := ddl_char env ops.force ops.inventoryPolicy objs _ s2 evs2 drs hdl
    exact ⟨objs, prs, drs, hp, hrs, hlen, hall⟩

/-- Witness for C4: the dry run of a fresh configmap against the in-repo
mock backends takes the `Created` branch and yields `DiffCreated`. -/
theorem claim_C4_witness :
    (diffDesiredStep (mockEnv "test-inventory") (⟨[], []⟩ : MockSt) (cmManifest "test-cm")
        false Policy.adoptAll).2.2 = .ok (.ok c4Res) ∧
    c4Res.action = DiffAction.diffCreated := by
  refine ⟨by rfl, ?_⟩
  obtain ⟨cs, hcs, -, -, -, hcr, -, -, -⟩ :=
    (claim_C4.1 MockSt (mockEnv "test-inventory") ⟨[], []⟩ (cmManifest "test-cm") false
      Policy.adoptAll c4Res (by rfl)).2.1 (by decide)
  have he : ((mockEnv "test-inventory").rmDiff (⟨[], []⟩ : MockSt) (cmManifest "test-cm")
      false).2.entry = some (entryFromObj (cmManifest "test-cm") Action.created) := by decide
  rw [he] at hcs
  injection hcs with hcs2
  exact (hcr (by rw [← hcs2]; rfl)).1

/-- Field provenance of a successful per-object diff step: the action is
one of the three populated `DiffAction`s, and the object-reference fields
come from the manager's change-set entry, or from the object itself when
the NotFound branch had no entry to copy (diff.go lines 124-143). -/
theorem dds_fields (env : Env σ) (s : σ) (o : Unstructured) (f : Bool) (pol : Policy)
    (r : DiffResult) (h : (diffDesiredStep env s o f pol).2.2 = .ok (.ok r)) :
    (r.action = .diffCreated ∨ r.action = .diffConfigured ∨ r.action = .diffUnchanged) ∧
    ((∃ cs, (env.rmDiff s o f).2.entry = some cs ∧ r.objMetadata = cs.objMetadata ∧
       r.groupVersion = cs.groupVersion ∧ r.subject = cs.subject) ∨
     ((env.rmDiff s o f).2.entry = none ∧ r.objMetadata = objMetaOf o ∧
       r.groupVersion = o.gvkVersion ∧ r.subject = formatObjectPath o)) := by
  unfold diffDesiredStep diffOne at h
  rcases herr : (env.rmDiff s o f).2.err with _ | e
  · simp only [herr] at h
    rcases hent : (env.rmDiff s o f).2.entry with _ | cs
    · simp only [hent] at h
      simp at h
    · simp only [hent] at h
      rcases hact : cs.action <;> simp only [hact] at h
      case created =>
        rcases hr : renderManifestDiff env none (some o) with e2 | d <;> simp only [hr] at h
        · simp at h
        · simp only [hact, GoResult.ok.injEq, Except.ok.injEq] at h
          exact ⟨Or.inl (by simp [← h]),
            Or.inl ⟨cs, rfl, by simp [← h], by simp [← h], by simp [← h]⟩⟩
      case configured =>
        rcases hr : renderManifestDiff env (env.rmDiff s o f).2.inCluster
            (env.rmDiff s o f).2.dryRun with e2 | d <;> simp only [hr] at h
        · simp at h
        · rcases hca : env.canApply (env.rmDiff s o f).2.inCluster pol with _ | e3 <;>
            simp only [hca] at h
          · simp only [hact, GoResult.ok.injEq, Except.ok.injEq] at h
            exact ⟨Or.inr (Or.inl (by simp [← h])),
              Or.inl ⟨cs, rfl, by simp [← h], by simp [← h], by simp [← h]⟩⟩
          · simp at h
      case unchanged =>
        simp only [hact, GoResult.ok.injEq, Except.ok.injEq] at h
        exact ⟨Or.inr (Or.inr (by simp [← h])),
          Or.inl ⟨cs, rfl, by simp [← h], by simp [← h], by simp [← h]⟩⟩
      case deleted =>
        rcases hr : createDeletedDiff env o with e2 | d <;> simp only [hr] at h <;>
          simp [hact] at h
      case skipped => simp [hact] at h
      case unknown => simp [hact] at h
  · simp only [herr] at h
    by_cases hnf : e.notFoundForDiff = true
    · simp only [hnf, if_pos] at h
      rcases hr : renderManifestDiff env none (some o) with e2 | d <;> simp only [hr] at h
      · simp at h
      · rcases hent : (env.rmDiff s o f).2.entry with _ | cs <;> simp only [hent] at h <;>
          simp only [GoResult.ok.injEq, Except.ok.injEq] at h
        · exact ⟨Or.inl (by simp [← h]),
            Or.inr ⟨rfl, by simp [← h], by simp [← h], by simp [← h]⟩⟩
        · exact ⟨Or.inl (by simp [← h]),
            Or.inl ⟨cs, rfl, by simp [← h], by simp [← h], by simp [← h]⟩⟩
    · simp only [if_neg hnf] at h
      simp at h

/-- The `Manager.Diff` run the C10 witness instantiates: one tracked
configmap in the store, an empty desired set, so pruning is previewed. -/
def c10out : MockSt × List Ev × GoResult (Except GoErr (List DiffResult)) :=
  diffM (mockEnv "test-inventory") oneCmSt [] ⟨false, false, Policy.adoptIfNoInventory⟩

/-- The single (pruned) result of that run. -/
def c10r0 : DiffResult :=
  match c10out.2.2 with
  | .ok (.ok (r :: _)) => r
  | _ => { action := .diffUnchanged, diff := "", objMetadata := zeroMeta
           groupVersion := "", subject := "" }

/-- C10: in every successful `Manager.Diff`, each `DiffPruned` result has
zero-valued `ObjMetadata`, `GroupVersion` and `Subject` (only `Action`
and `Diff` are populated), while every non-pruned result arises from the
per-object step of a desired object and carries that object's reference:
the change-set entry's fields, or the object's own metadata when the
NotFound branch had no entry. -/
theorem claim_C10 :
    ∀ (τ : Type) (env : Env τ) (s0 : τ) (objects : List Unstructured) (ops : DiffOptions)
      (sE : τ) (tr : List Ev) (rs : List DiffResult),
      diffM env s0 objects ops = (sE, tr, .ok (.ok rs)) →
      (∀ r ∈ rs, r.action = .diffPruned →
        r.objMetadata = zeroMeta ∧ r.groupVersion = "" ∧ r.subject = "") ∧
      (∀ r ∈ rs, r.action ≠ .diffPruned →
        ∃ objs, prepareObjects env.invID objects = .ok objs ∧
        ∃ i, ∃ (h2 : i < objs.length), ∃ si,
          (diffDesiredStep env si (objs.get ⟨i, h2⟩) ops.force ops.inventoryPolicy).2.2 =
            .ok (.ok r) ∧
          (r.action = .diffCreated ∨ r.action = .diffConfigured ∨ r.action = .diffUnchanged) ∧
          ((∃ cs, (env.rmDiff si (objs.get ⟨i, h2⟩) ops.force).2.entry = some cs ∧
             r.objMetadata = cs.objMetadata ∧ r.groupVersion = cs.groupVersion ∧
             r.subject = cs.subject) ∨
           ((env.rmDiff si (objs.get ⟨i, h2⟩) ops.force).2.entry = none ∧
             r.objMetadata = objMetaOf (objs.get ⟨i, h2⟩) ∧
             r.groupVersion = (objs.get ⟨i, h2⟩).gvkVersion ∧
             r.subject = formatObjectPath (objs.get ⟨i, h2⟩)))) := by
  intro τ env s0 objects ops sE tr rs h
  obtain ⟨objs, prs, drs, s2, evs2, hp, hrs, hprs, hdl⟩ :=
    diffM_ok_decomp env s0 objects ops sE tr rs h
  obtain ⟨hlen, hall⟩ := ddl_char env ops.force ops.inventoryPolicy objs _ s2 evs2 drs hdl
  subst hrs
  constructor
  · intro r hr hpr
    rcases List.mem_append.mp hr with hr | hr
    · exact (hprs r hr).2
    · obtain ⟨n, hn⟩ := List.mem_iff_get.mp hr
      obtain ⟨si, hsi⟩ := hall n.1 n.2 (hlen ▸ n.2)
      rw [hn] at hsi
      rcases (dds_fields env si _ ops.force ops.inventoryPolicy r hsi).1 with ha | ha | ha <;>
        rw [hpr] at ha <;> exact DiffAction.noConfusion ha
  · intro r hr hnp
    rcases List.mem_append.mp hr with hr | hr
    · exact absurd (hprs r hr).1 hnp
    · obtain ⟨n, hn⟩ := List.mem_iff_get.mp hr
      obtain ⟨si, hsi⟩ := hall n.1 n.2 (hlen ▸ n.2)
      rw [hn] at hsi
      obtain ⟨hact, hfld⟩ := dds_fields env si _ ops.force ops.inventoryPolicy r hsi
      exact ⟨objs, hp, n.1, hlen ▸ n.2, si, hsi, hact, hfld⟩

/-- Witness for C10: with one tracked configmap and an empty desired set,
`Manager.Diff` against the in-repo backends returns exactly one result,
a `DiffPruned` one with zero object-reference fields. -/
theorem claim_C10_witness :
    diffM (mockEnv "test-inventory") oneCmSt [] ⟨false, false, Policy.adoptIfNoInventory⟩ =
      (c10out.1, c10out.2.1, .ok (.ok [c10r0])) ∧
    c10r0.action = DiffAction.diffPruned ∧
    c10r0.objMetadata = zeroMeta ∧ c10r0.groupVersion = "" ∧ c10r0.subject = "" := by
  have h := (claim_C10 MockSt (mockEnv "test-inventory") oneCmSt []
    ⟨false, false, Policy.adoptIfNoInventory⟩ c10out.1 c10out.2.1 [c10r0] (by rfl)).1
    c10r0 (by simp) (by rfl)
  exact ⟨by rfl, by rfl, h.1, h.2.1, h.2.2⟩

/-- Whether an event is an inventory read. -/
def isInvReadEv : Ev → Bool
  | .invReadEv _ _ => true
  | _ => false

theorem diffPhase_not_post (ev : Ev) (h : isDiffPhaseEv ev = true) :
    isApplyAllEv ev = false ∧ isInvReadEv ev = false ∧ isInvWriteEv ev = false := by
  cases ev <;> simp_all [isDiffPhaseEv, isApplyAllEv, isInvReadEv, isInvWriteEv]

theorem prunePhase_not_post (ev : Ev) (h : isPrunePhaseEv ev = true) :
    isApplyAllEv ev = false ∧ isInvReadEv ev = false := by
  cases ev <;> simp_all [isPrunePhaseEv, isApplyAllEv, isInvReadEv]

/-- The prune phase of `Apply` performs no staged apply and no inventory
read. -/
theorem applyPrunePhase_no_post (env : Env σ) (s4 : σ) (objs : List Unstructured)
    (ops : ApplyOptions) (cm2 : ChangeMap) (refs1 : List ObjMetadata) :
    ∀ ev ∈ (applyPrunePhase env s4 objs ops cm2 refs1).2.1,
      isApplyAllEv ev = false ∧ isInvReadEv ev = false := by
  intro ev hev
  rcases applyPrunePhase_cases env s4 objs ops cm2 refs1 with
    ⟨-, hP⟩ | ⟨-, e, -, hP⟩ | ⟨-, -, s6, tr6, plr, hpl, hsub⟩
  · rw [hP] at hev
    simp at hev
  · rw [hP] at hev
    simp at hev
    simp [hev, isApplyAllEv, isInvReadEv]
  · have htr6 : ∀ y ∈ tr6, isApplyAllEv y = false ∧ isInvReadEv y = false := by
      intro y hy
      exact prunePhase_not_post y
        (pruneLoop_evs env ops.inventoryPolicy _ _ _ _ _ y (by rw [hpl]; exact hy))
    rcases hsub with ⟨-, hP⟩ | ⟨e, -, hP⟩ | ⟨cm3, refs2, pruneErr, -, hP⟩ <;> rw [hP] at hev
    · simp only [List.mem_cons] at hev
      rcases hev with hev | hev
      · simp [hev, isApplyAllEv, isInvReadEv]
      · exact htr6 ev hev
    · simp only [List.mem_cons] at hev
      rcases hev with hev | hev
      · simp [hev, isApplyAllEv, isInvReadEv]
      · exact htr6 ev hev
    · simp only [List.cons_append, List.mem_cons, List.mem_append, List.mem_singleton,
        List.not_mem_nil, or_false] at hev
      rcases hev with hev | hev | hev
      · simp [hev, isApplyAllEv, isInvReadEv]
      · exact htr6 ev hev
      · simp [hev, isApplyAllEv, isInvReadEv]

/-- Decomposition of an `Apply` run whose trace shows a staged apply that
returned a change set and a successful inventory read: the run went
through the merge loop, attempted the post-apply inventory write, and
either stopped with the joined error or went on to the prune phase. -/
theorem applyM_post_ok (env : Env σ) (s0 : σ) (objects : List Unstructured) (ops0 : ApplyOptions)
    (sE : σ) (tr : List Ev) (cs : List Change) (er : Option GoErr)
    (objsA : List Unstructured) (entries : List ChangeSetEntry) (okA : Bool)
    (refs0 : List ObjMetadata)
    (h : applyM env s0 objects ops0 = (sE, tr, .ok (cs, er)))
    (hA : Ev.applyAllEv objsA (some entries) okA ∈ tr)
    (hR : Ev.invReadEv refs0 true ∈ tr) :
    ∃ objs s1 tr1 cm1 s2 applyErr s3 cm2 refs1 invErr0 s4 werr,
      prepareObjects env.invID objects = .ok objs ∧
      applyDiffLoop env s0 objs (setDefaultOps ops0).force (setDefaultOps ops0).inventoryPolicy
        (buildChangeMap objects) = (s1, tr1, .ok (.ok cm1)) ∧
      objsA = objs ∧
      env.rmApplyAll s1 objs (setDefaultOps ops0).force (setDefaultOps ops0).waitInterval
        (setDefaultOps ops0).waitTimeout = (s2, some entries, applyErr) ∧
      okA = applyErr.isNone ∧
      env.invRead s2 = (s3, refs0, none) ∧
      mergeLoop entries cm1 refs0 none = .ok (cm2, refs1, invErr0) ∧
      env.invWrite s3 refs1 = (s4, werr) ∧
      ((∃ e, joinErr applyErr (joinErr invErr0 werr) = some e ∧
         er = some e ∧ cs = changesMapToArray cm2 ∧
         tr = tr1 ++ [Ev.applyAllEv objs (some entries) applyErr.isNone,
                      Ev.invReadEv refs0 true, Ev.invWriteEv refs1 werr.isNone]) ∨
       (joinErr applyErr (joinErr invErr0 werr) = none ∧
         applyPrunePhase env s4 objs (setDefaultOps ops0) cm2 refs1 =
           (sE, (applyPrunePhase env s4 objs (setDefaultOps ops0) cm2 refs1).2.1,
            .ok (cs, er)) ∧
         tr = tr1 ++ [Ev.applyAllEv objs (some entries) applyErr.isNone,
                      Ev.invReadEv refs0 true, Ev.invWriteEv refs1 werr.isNone] ++
              (applyPrunePhase env s4 objs (setDefaultOps ops0) cm2 refs1).2.1)) := by
  have hnotdiff1 : ∀ (tr1 : List Ev), (∀ y ∈ tr1, isDiffPhaseEv y = true) →
      Ev.applyAllEv objsA (some entries) okA ∉ tr1 ∧ Ev.invReadEv refs0 true ∉ tr1 := by
    intro tr1 hall
    constructor
    · intro hmem
      have := (diffPhase_not_post _ (hall _ hmem)).1
      simp [isApplyAllEv] at this
    · intro hmem
      have := (diffPhase_not_post _ (hall _ hmem)).2.1
      simp [isInvReadEv] at this
  rcases applyM_cases env s0 objects ops0 with
    ⟨e, -, hM⟩ | ⟨objs, s1, tr1, r1, hp, hd, hsub⟩
  · rw [hM] at h
    have htr := congrArg (fun t : σ × List Ev × GoResult (List Change × Option GoErr) => t.2.1) h
    simp only at htr
    rw [← htr] at hA
    simp at hA
  · have htr1 : ∀ y ∈ tr1, isDiffPhaseEv y = true := by
      intro y hy
      exact applyDiffLoop_evs env objs s0 (setDefaultOps ops0).force
        (setDefaultOps ops0).inventoryPolicy (buildChangeMap objects) y (by rw [hd]; exact hy)
    rcases hsub with ⟨-, hM⟩ | ⟨e, -, hM⟩ | ⟨cm1, hr1, hM⟩
    · rw [hM] at h
      have := congrArg (fun t : σ × List Ev × GoResult (List Change × Option GoErr) => t.2.2) h
      simp at this
    · rw [hM] at h
      have htr := congrArg (fun t : σ × List Ev × GoResult (List Change × Option GoErr) => t.2.1) h
      simp only at htr
      rw [← htr] at hA
      exact absurd hA ((hnotdiff1 tr1 htr1).1)
    · subst hr1
      rw [hM] at h
      have hsE := congrArg (fun t : σ × List Ev × GoResult (List Change × Option GoErr) => t.1) h
      have htr := congrArg (fun t : σ × List Ev × GoResult (List Change × Option GoErr) => t.2.1) h
      have hres := congrArg (fun t : σ × List Ev × GoResult (List Change × Option GoErr) => t.2.2) h
      simp only at hsE htr hres
      rw [← htr] at hA hR
      rcases List.mem_append.mp hA with hA1 | hA2
      · exact absurd hA1 ((hnotdiff1 tr1 htr1).1)
      rcases List.mem_append.mp hR with hR1 | hR2
      · exact absurd hR1 ((hnotdiff1 tr1 htr1).2)
      rcases applyPost_cases env s1 objs (setDefaultOps ops0) cm1 with
        ⟨e, hent, herr, hP⟩ | ⟨e, hre, hP⟩ | ⟨hre, hbad, hP⟩ |
        ⟨entries2, cm2, refs1, invErr0, hent, hre, hm, hsub2⟩
      · rw [hP] at hA2
        simp only [List.mem_singleton] at hA2
        injection hA2 with h1 h2 h3
        exact Option.noConfusion h2
      · rw [hP] at hR2
        simp only [List.mem_cons, List.not_mem_nil, or_false] at hR2
        rcases hR2 with hR2 | hR2
        · exact Ev.noConfusion hR2
        · injection hR2 with h1 h2
          exact Bool.noConfusion h2
      · rw [hP] at hres
        simp at hres
      · rcases hq : env.rmApplyAll s1 objs (setDefaultOps ops0).force
            (setDefaultOps ops0).waitInterval (setDefaultOps ops0).waitTimeout
            with ⟨s2, entsOpt, applyErr⟩
        rcases hrd : env.invRead s2 with ⟨s3, refs0b, readErr⟩
        rw [hq] at hent
        simp only at hent
        subst hent
        rw [hq] at hre hm hsub2
        simp only at hre hm hsub2
        rw [hrd] at hre hm hsub2
        simp only at hre hm hsub2
        subst hre
        rcases hw : env.invWrite s3 refs1 with ⟨s4, werr⟩
        rw [hw] at hsub2
        simp only at hsub2
        rcases hsub2 with ⟨e, hj, hP⟩ | ⟨hj, hP⟩
        · rw [hP] at hA2 hR2 hres hsE htr
          simp only at hA2 hR2 hres hsE htr
          simp only [List.mem_cons, List.not_mem_nil, or_false] at hA2 hR2
          rcases hA2 with hA2 | hA2 | hA2
          · injection hA2 with h1 h2 h3
            injection h2 with h2
            subst h2
            subst h3
            rcases hR2 with hR2 | hR2 | hR2
            · exact Ev.noConfusion hR2
            · injection hR2 with h4 h5
              subst h4
              refine ⟨objs, s1, tr1, cm1, s2, applyErr, s3, cm2, refs1, invErr0, s4, werr,
                hp, hd, h1, hq, rfl, hrd, hm, hw, Or.inl ⟨e, hj, ?_, ?_, ?_⟩⟩
              · simp only [GoResult.ok.injEq, Prod.mk.injEq] at hres
                exact hres.2.symm
              · simp only [GoResult.ok.injEq, Prod.mk.injEq] at hres
                exact hres.1.symm
              · exact htr.symm
            · exact Ev.noConfusion hR2
          · exact Ev.noConfusion hA2
          · exact Ev.noConfusion hA2
        · rcases hPP : applyPrunePhase env s4 objs (setDefaultOps ops0) cm2 refs1
              with ⟨sP, trP, resP⟩
          rw [hPP] at hP
          simp only at hP
          rw [hP] at hA2 hR2 hres hsE htr
          simp only at hA2 hR2 hres hsE htr
          simp only [List.cons_append, List.nil_append, List.mem_cons, List.mem_append] at hA2 hR2
          rcases hA2 with hA2 | hA2 | hA2 | hA2
          · injection hA2 with h1 h2 h3
            injection h2 with h2
            subst h2
            subst h3
            rcases hR2 with hR2 | hR2 | hR2 | hR2
            · exact Ev.noConfusion hR2
            · injection hR2 with h4 h5
              subst h4
              refine ⟨objs, s1, tr1, cm1, s2, applyErr, s3, cm2, refs1, invErr0, s4, werr,
                hp, hd, h1, hq, rfl, hrd, hm, hw, Or.inr ⟨hj, ?_, ?_⟩⟩
              · rw [hPP]
                simp only
                rw [← hres, ← hsE]
              · rw [hPP]
                simp only
                rw [← htr]
                simp
            · exact Ev.noConfusion hR2
            · have := (applyPrunePhase_no_post env s4 objs (setDefaultOps ops0) cm2 refs1
                (Ev.invReadEv refs0 true) (by rw [hPP]; exact hR2)).2
              simp [isInvReadEv] at this
          · exact Ev.noConfusion hA2
          · exact Ev.noConfusion hA2
          · have := (applyPrunePhase_no_post env s4 objs (setDefaultOps ops0) cm2 refs1
              (Ev.applyAllEv objsA (some entries) okA) (by rw [hPP]; exact hA2)).1
            simp [isApplyAllEv] at this

/-- The options of the C2 scenario: default apply options under the
`MustMatch` inventory policy. -/
def c2ops : ApplyOptions := { zeroApplyOptions with inventoryPolicy := .mustMatch }

/-- The C2 run: one tracked but unannotated configmap in the cluster and
a fresh desired configmap, applied under `MustMatch`. -/
def c2out : MockSt × List Ev × GoResult (List Change × Option GoErr) :=
  applyM (mockEnv "test-inventory") oneCmSt [cmManifest "test-cm"] c2ops

/-- The desired configmap as prepared (annotation stamped). -/
def c2prep : Unstructured := stampInv "test-inventory" (cmManifest "test-cm")

/-- The changes and error the C2 run returns. -/
def c2chg : List Change :=
  match c2out.2.2 with
  | .ok q => q.1
  | _ => []

def c2err : Option GoErr :=
  match c2out.2.2 with
  | .ok q => q.2
  | _ => none

/-- C2 (amended): when `Manager.Apply` detects an inventory-policy
violation on a prune target it returns `nil` changes — not the collected
partial change set — together with the wrapped policy error (apply.go
line 169 `return nil, err`); the violation ends the run, and before it
the apply phase had completed: a staged apply returning a change set, a
successful inventory read, the post-apply inventory write and the prune
computation all appear earlier in the trace. -/
theorem claim_C2 :
    ∀ (τ : Type) (env : Env τ) (s0 : τ) (objects : List Unstructured) (ops0 : ApplyOptions)
      (sE : τ) (tr : List Ev) (changes : List Change) (err : Option GoErr) (p : Unstructured),
      applyM env s0 objects ops0 = (sE, tr, .ok (changes, err)) →
      Ev.canApplyPruneEv p false ∈ tr →
      changes = [] ∧
      (∃ e, env.canApply (some p) (setDefaultOps ops0).inventoryPolicy = some e ∧
        err = some (errPolicyCheck (formatObjectPathWithGV p) e)) ∧
      ∃ t1, tr = t1 ++ [Ev.canApplyPruneEv p false] ∧
        ∃ objsA entries refs0 refs1 pruneObjs,
          Ev.applyAllEv objsA (some entries) true ∈ t1 ∧
          Ev.invReadEv refs0 true ∈ t1 ∧
          Ev.invWriteEv refs1 true ∈ t1 ∧
          Ev.getPruneEv pruneObjs true ∈ t1 := by
  intro τ env s0 objects ops0 sE tr changes err p h hev
  rcases applyM_cases env s0 objects ops0 with
    ⟨e, -, hM⟩ | ⟨objs, s1, tr1, r1, hp, hd, hsub⟩
  · rw [hM] at h
    have htr := congrArg (fun t : τ × List Ev × GoResult (List Change × Option GoErr) => t.2.1) h
    simp only at htr
    rw [← htr] at hev
    simp at hev
  · have htr1 : ∀ y ∈ tr1, isDiffPhaseEv y = true := fun y hy =>
      applyDiffLoop_evs env objs s0 (setDefaultOps ops0).force
        (setDefaultOps ops0).inventoryPolicy (buildChangeMap objects) y (by rw [hd]; exact hy)
    have hnot1 : Ev.canApplyPruneEv p false ∉ tr1 := by
      intro hmem
      have := htr1 _ hmem
      simp [isDiffPhaseEv] at this
    rcases hsub with ⟨hr1, hM⟩ | ⟨e, hr1, hM⟩ | ⟨cm1, hr1, hM⟩
    · rw [hM] at h
      have hbad := congrArg (fun t : τ × List Ev × GoResult (List Change × Option GoErr) => t.2.2) h
      simp at hbad
    · rw [hM] at h
      have htr := congrArg (fun t : τ × List Ev × GoResult (List Change × Option GoErr) => t.2.1) h
      simp only at htr
      rw [← htr] at hev
      exact absurd hev hnot1
    · subst hr1
      rw [hM] at h
      have hsE := congrArg (fun t : τ × List Ev × GoResult (List Change × Option GoErr) => t.1) h
      have htr := congrArg (fun t : τ × List Ev × GoResult (List Change × Option GoErr) => t.2.1) h
      have hres := congrArg (fun t : τ × List Ev × GoResult (List Change × Option GoErr) => t.2.2) h
      simp only at hsE htr hres
      rw [← htr] at hev
      rcases List.mem_append.mp hev with hev1 | hev2
      · exact absurd hev1 hnot1
      rcases applyPost_cases env s1 objs (setDefaultOps ops0) cm1 with
        ⟨e, hent, herr, hP⟩ | ⟨e, hre, hP⟩ | ⟨hre, hbad, hP⟩ |
        ⟨entries, cm2, refs1, invErr0, hent, hre, hm, hsub2⟩
      · rw [hP] at hev2
        simp at hev2
      · rw [hP] at hev2
        simp at hev2
      · rw [hP] at hres
        simp at hres
      · rcases hsub2 with ⟨e, hj, hP⟩ | ⟨hj, hP⟩
        · rw [hP] at hev2
          simp at hev2
        · rw [hP] at hev2 hres hsE htr
          simp only at hev2 hres hsE htr
          obtain ⟨hae, hie⟩ := joinErr_eq_none hj
          obtain ⟨hi0, hw2⟩ := joinErr_eq_none hie
          simp only [List.cons_append, List.nil_append, List.mem_cons, List.mem_append] at hev2
          rcases hev2 with hev2 | hev2 | hev2 | hev2
          · exact Ev.noConfusion hev2
          · exact Ev.noConfusion hev2
          · exact Ev.noConfusion hev2
          rcases applyPrunePhase_cases env
              (env.invWrite (env.invRead (env.rmApplyAll s1 objs (setDefaultOps ops0).force
                (setDefaultOps ops0).waitInterval (setDefaultOps ops0).waitTimeout).1).1 refs1).1
              objs (setDefaultOps ops0) cm2 refs1 with
            ⟨hnp, hPP⟩ | ⟨hnp, e2, hg, hPP⟩ | ⟨hnp, hg, s6, tr6, plr, hpl, hsub3⟩
          · rw [hPP] at hev2
            simp at hev2
          · rw [hPP] at hev2
            simp at hev2
          · rcases hsub3 with ⟨hplr, hPP⟩ | ⟨e2, hplr, hPP⟩ | ⟨cm3, refs2, pruneErr, hplr, hPP⟩
            · rw [hPP] at hres
              simp at hres
            · rw [hPP] at hev2 hres hsE htr
              simp only [List.mem_cons] at hev2
              rcases hev2 with hev2 | hev2
              · exact Ev.noConfusion hev2
              obtain ⟨⟨pre, hpre, -⟩, e3, hca, hres3⟩ :=
                pruneLoop_false env (setDefaultOps ops0).inventoryPolicy _ _ _ _ _ p
                  (by rw [hpl]; exact hev2)
              rw [hpl] at hpre hres3
              simp only at hpre hres3
              rw [hplr] at hres3
              injection hres3 with hres3
              injection hres3 with hres3
              subst hres3
              simp only [GoResult.ok.injEq, Prod.mk.injEq] at hres
              refine ⟨hres.1.symm, ⟨e3, hca, hres.2.symm⟩, ?_⟩
              rw [hpre] at htr
              refine ⟨tr1 ++ ([Ev.applyAllEv objs (some entries)
                  (env.rmApplyAll s1 objs (setDefaultOps ops0).force
                    (setDefaultOps ops0).waitInterval (setDefaultOps ops0).waitTimeout).2.2.isNone,
                Ev.invReadEv (env.invRead (env.rmApplyAll s1 objs (setDefaultOps ops0).force
                    (setDefaultOps ops0).waitInterval (setDefaultOps ops0).waitTimeout).1).2.1 true,
                Ev.invWriteEv refs1 (env.invWrite (env.invRead (env.rmApplyAll s1 objs
                    (setDefaultOps ops0).force (setDefaultOps ops0).waitInterval
                    (setDefaultOps ops0).waitTimeout).1).1 refs1).2.isNone] ++
                (Ev.getPruneEv (env.invGetPrune (env.invWrite (env.invRead (env.rmApplyAll s1 objs
                    (setDefaultOps ops0).force (setDefaultOps ops0).waitInterval
                    (setDefaultOps ops0).waitTimeout).1).1 refs1).1 objs).2.1 true :: pre)), ?_, ?_⟩
              · rw [← htr]
                simp
              · refine ⟨objs, entries,
                  (env.invRead (env.rmApplyAll s1 objs (setDefaultOps ops0).force
                    (setDefaultOps ops0).waitInterval (setDefaultOps ops0).waitTimeout).1).2.1,
                  refs1,
                  (env.invGetPrune (env.invWrite (env.invRead (env.rmApplyAll s1 objs
                    (setDefaultOps ops0).force (setDefaultOps ops0).waitInterval
                    (setDefaultOps ops0).waitTimeout).1).1 refs1).1 objs).2.1, ?_, ?_, ?_, ?_⟩
                · rw [hae]
                  simp
                · simp
                · rw [hw2]
                  simp
                · simp
            · rw [hPP] at hev2
              simp only [List.cons_append, List.mem_cons, List.mem_append,
                List.mem_singleton, List.not_mem_nil, or_false] at hev2
              rcases hev2 with hev2 | hev2 | hev2
              · exact Ev.noConfusion hev2
              · obtain ⟨-, e3, -, hres3⟩ :=
                  pruneLoop_false env (setDefaultOps ops0).inventoryPolicy _ _ _ _ _ p
                    (by rw [hpl]; exact hev2)
                rw [hpl] at hres3
                simp only at hres3
                rw [hplr] at hres3
                injection hres3 with hres3
                exact PruneOut.noConfusion hres3
              · exact Ev.noConfusion hev2

/-- Counterexample to C2 as stated: in the concrete C2 run the staged
apply succeeded (a `Created` entry was returned and the post-apply
inventory write went through), yet on the prune-policy violation `Apply`
returns an empty change list rather than the collected changes. -/
theorem claim_C2_counterexample :
    Ev.applyAllEv [c2prep] (some [entryFromObj c2prep .created]) true ∈ c2out.2.1 ∧
    Ev.invWriteEv [objMetaOf (cmManifest "old-cm"), objMetaOf c2prep] true ∈ c2out.2.1 ∧
    Ev.canApplyPruneEv (skeletonOf (objMetaOf (cmManifest "old-cm"))) false ∈ c2out.2.1 ∧
    c2out.2.2 = .ok ([], c2err) ∧
    c2err.isSome = true := by
  refine ⟨by decide, by decide, by decide, by rfl, by rfl⟩

/-- Witness for C2: applying the amended theorem to the concrete C2 run
returns nil changes with the policy error. -/
theorem claim_C2_witness :
    applyM (mockEnv "test-inventory") oneCmSt [cmManifest "test-cm"] c2ops =
      (c2out.1, c2out.2.1, .ok (c2chg, c2err)) ∧
    c2chg = [] := by
  refine ⟨by rfl, ?_⟩
  exact (claim_C2 MockSt (mockEnv "test-inventory") oneCmSt [cmManifest "test-cm"] c2ops
    c2out.1 c2out.2.1 c2chg c2err (skeletonOf (objMetaOf (cmManifest "old-cm")))
    (by rfl) (by decide)).1

/-- The desired configmap of the C1 scenario, as prepared. -/
def c1prep : Unstructured := stampInv "test-inventory" (cmManifest "test-cm")

/-- A backend equal to the in-repo test backends except that the
inventory read fails. -/
def c1env : Env MockSt :=
  { mockEnv "test-inventory" with
      invRead := fun s => (s, [], some (GoErr.base "read failed" false false)) }

/-- The C1 counterexample run: a fresh configmap applied against a
backend whose post-apply inventory read fails. -/
def c1out : MockSt × List Ev × GoResult (List Change × Option GoErr) :=
  applyM c1env ⟨[], []⟩ [cmManifest "test-cm"] zeroApplyOptions

/-- The options and run of the C1 witness: a successful apply-and-prune
round against the in-repo backends. -/
def c1ops : ApplyOptions := { zeroApplyOptions with inventoryPolicy := .adoptAll }

def c1okout : MockSt × List Ev × GoResult (List Change × Option GoErr) :=
  applyM (mockEnv "test-inventory") oneCmSt [cmManifest "test-cm"] c1ops

def c1chg2 : List Change :=
  match c1okout.2.2 with
  | .ok q => q.1
  | _ => []

def c1err2 : Option GoErr :=
  match c1okout.2.2 with
  | .ok q => q.2
  | _ => none

/-- C1 (amended): whenever the staged apply of `Manager.Apply` returned a
change set and the post-apply inventory read succeeded, an inventory
write containing the metadata of every successfully handled entry is
attempted before `Apply` returns; and whenever the prune loop runs to
completion, the refs it hands to the final inventory write are the merged
refs minus exactly the successfully deleted objects — objects the manager
failed to delete stay in the inventory. -/
theorem claim_C1 :
    (∀ (τ : Type) (env : Env τ) (s0 : τ) (objects : List Unstructured) (ops0 : ApplyOptions)
      (sE : τ) (tr : List Ev) (cs : List Change) (er : Option GoErr)
      (objsA : List Unstructured) (entries : List ChangeSetEntry) (okA : Bool)
      (refs0 : List ObjMetadata),
      applyM env s0 objects ops0 = (sE, tr, .ok (cs, er)) →
      Ev.applyAllEv objsA (some entries) okA ∈ tr →
      Ev.invReadEv refs0 true ∈ tr →
      ∃ refs1 okW, Ev.invWriteEv refs1 okW ∈ tr ∧
        ∀ e ∈ entries, isGoodAction e.action = true → e.objMetadata ∈ refs1) ∧
    (∀ (τ : Type) (env : Env τ) (pol : Policy) (ps : List Unstructured) (s : τ)
      (cm : ChangeMap) (refs : List ObjMetadata) (pe : Option GoErr) (s2 : τ)
      (evs : List Ev) (cm2 : ChangeMap) (refs2 : List ObjMetadata) (pe2 : Option GoErr),
      pruneLoop env pol s ps cm refs pe = (s2, evs, .ok (.done cm2 refs2 pe2)) →
      refs2 = refs.filter (fun m => !(metaIn m (sucDeleteMetas evs)))) := by
  constructor
  · intro τ env s0 objects ops0 sE tr cs er objsA entries okA refs0 h hA hR
    obtain ⟨objs, s1, tr1, cm1, s2, applyErr, s3, cm2, refs1, invErr0, s4, werr,
      hp, hd, hobj, hq, hok, hrd, hm, hw, hbr⟩ :=
      applyM_post_ok env s0 objects ops0 sE tr cs er objsA entries okA refs0 h hA hR
    refine ⟨refs1, werr.isNone, ?_, ?_⟩
    · rcases hbr with ⟨e, -, -, -, htr⟩ | ⟨-, -, htr⟩ <;> rw [htr] <;> simp
    · intro e he hg
      exact mergeLoop_good entries cm1 refs0 none cm2 refs1 invErr0 e he hg hm
  · intro τ env pol ps s cm refs pe s2 evs cm2 refs2 pe2 h
    exact pruneLoop_done_refs env pol ps s cm refs pe s2 evs cm2 refs2 pe2 h

/-- Counterexample to C1 as stated: in the concrete run against the
read-failing backend an object was successfully applied, yet no inventory
write of any kind is attempted before `Apply` returns — the trace holds
no write event and the call returns only the read error. -/
theorem claim_C1_counterexample :
    Ev.applyAllEv [c1prep] (some [entryFromObj c1prep .created]) true ∈ c1out.2.1 ∧
    c1out.2.1.any isInvWriteEv = false ∧
    c1out.2.2 = .ok ([], some (GoErr.base "read failed" false false)) := by
  decide

/-- Witness for C1: in a successful apply-and-prune round against the
in-repo backends the amended theorem produces the attempted write, whose
refs contain the applied configmap's metadata. -/
theorem claim_C1_witness :
    applyM (mockEnv "test-inventory") oneCmSt [cmManifest "test-cm"] c1ops =
      (c1okout.1, c1okout.2.1, .ok (c1chg2, c1err2)) ∧
    ∃ refs1 okW, Ev.invWriteEv refs1 okW ∈ c1okout.2.1 ∧
      ∀ e ∈ [entryFromObj c1prep .created], isGoodAction e.action = true →
        e.objMetadata ∈ refs1 := by
  refine ⟨by rfl, ?_⟩
  exact claim_C1.1 MockSt (mockEnv "test-inventory") oneCmSt [cmManifest "test-cm"] c1ops
    c1okout.1 c1okout.2.1 c1chg2 c1err2 [c1prep] [entryFromObj c1prep .created] true
    [objMetaOf (cmManifest "old-cm")] (by rfl) (by decide) (by decide)

/-- The desired configmap of the C6 scenario, as prepared. -/
def c6prep : Unstructured := stampInv "test-inventory" (cmManifest "test-cm")

/-- The bad change-set entry a misbehaving resource manager reports. -/
def c6bad : ChangeSetEntry := entryFromObj (cmManifest "bad-cm") .deleted

/-- A backend whose staged apply reports an extra `Deleted` entry and
whose inventory read fails. -/
def c6badEnv : Env MockSt :=
  { mockEnv "test-inventory" with
      rmApplyAll := fun s _ _ _ _ => (s, some [c6bad], none)
      invRead := fun s => (s, [], some (GoErr.base "read failed" false false)) }

/-- The C6 counterexample run. -/
def c6badOut : MockSt × List Ev × GoResult (List Change × Option GoErr) :=
  applyM c6badEnv ⟨[], []⟩ [cmManifest "test-cm"] zeroApplyOptions

/-- A backend equal to the in-repo test backends except that the staged
apply appends an extra `Deleted` entry to its change set. -/
def c6Env : Env MockSt :=
  { mockEnv "test-inventory" with
      rmApplyAll := fun s objs _ _ _ =>
        let p := mockApplyAll s objs
        (p.1, some (p.2 ++ [c6bad]), none) }

/-- The C6 witness run. -/
def c6out : MockSt × List Ev × GoResult (List Change × Option GoErr) :=
  applyM c6Env ⟨[], []⟩ [cmManifest "test-cm"] zeroApplyOptions

def c6chg : List Change :=
  match c6out.2.2 with
  | .ok q => q.1
  | _ => []

def c6er : GoErr :=
  match c6out.2.2 with
  | .ok (_, some e) => e
  | _ => GoErr.base "" false false

/-- C6 (amended): when the change set returned by the staged apply holds
a `Deleted` or `Unknown` entry AND the post-apply inventory read
succeeded, `Apply` surfaces an error whose join contains the
unexpected-action error naming that entry, and the one inventory write of
the run only ever extends the refs that were read with metadata of
well-handled entries — the bad entry contributes nothing of its own. -/
theorem claim_C6 :
    ∀ (τ : Type) (env : Env τ) (s0 : τ) (objects : List Unstructured) (ops0 : ApplyOptions)
      (sE : τ) (tr : List Ev) (cs : List Change) (er : Option GoErr)
      (objsA : List Unstructured) (entries : List ChangeSetEntry) (okA : Bool)
      (refs0 : List ObjMetadata) (ent : ChangeSetEntry),
      applyM env s0 objects ops0 = (sE, tr, .ok (cs, er)) →
      Ev.applyAllEv objsA (some entries) okA ∈ tr →
      Ev.invReadEv refs0 true ∈ tr →
      ent ∈ entries → isGoodAction ent.action = false →
      (∃ er2, er = some er2 ∧
        er2.hasBase (errUnexpectedApplyAction ent.action ent.subject) = true) ∧
      ∀ refs1 okW, Ev.invWriteEv refs1 okW ∈ tr →
        ∃ δ, refs1 = refs0 ++ δ ∧
          ∀ m ∈ δ, ∃ e2 ∈ entries, isGoodAction e2.action = true ∧ e2.objMetadata = m := by
  intro τ env s0 objects ops0 sE tr cs er objsA entries okA refs0 ent h hA hR hent hbad
  obtain ⟨objs, s1, tr1, cm1, s2, applyErr, s3, cm2, refs1, invErr0, s4, werr,
    hp, hd, hobj, hq, hok, hrd, hm, hw, hbr⟩ :=
    applyM_post_ok env s0 objects ops0 sE tr cs er objsA entries okA refs0 h hA hR
  obtain ⟨er0, her0, hb0⟩ := mergeLoop_bad entries cm1 refs0 none cm2 refs1 invErr0 ent
    hent hbad hm
  subst her0
  obtain ⟨er1, her1, hb1⟩ := joinErr_mono_hasBase werr er0
    (errUnexpectedApplyAction ent.action ent.subject) hb0
  obtain ⟨er2, her2, hb2⟩ := joinErr_some_right_hasBase applyErr er1
    (errUnexpectedApplyAction ent.action ent.subject) hb1
  rcases hbr with ⟨e, hj, hers, -, htr⟩ | ⟨hj, -, -⟩
  · rw [her1] at hj
    rw [her2] at hj
    injection hj with hj
    subst hj
    refine ⟨⟨er2, hers, hb2⟩, ?_⟩
    intro refsW okW hW
    rw [htr] at hW
    rcases List.mem_append.mp hW with hW | hW
    · have hdp := applyDiffLoop_evs env objs s0 (setDefaultOps ops0).force
        (setDefaultOps ops0).inventoryPolicy (buildChangeMap objects) _ (by rw [hd]; exact hW)
      have := (diffPhase_not_post _ hdp).2.2
      simp [isInvWriteEv] at this
    · simp only [List.mem_cons, List.not_mem_nil, or_false] at hW
      rcases hW with hW | hW | hW
      · exact Ev.noConfusion hW
      · exact Ev.noConfusion hW
      · injection hW with h1 h2
        subst h1
        obtain ⟨δ, hδ1, hδ2⟩ := mergeLoop_refs entries cm1 refs0 none cm2 refsW (some er0) hm
        exact ⟨δ, hδ1, hδ2⟩
  · rw [her1] at hj
    rw [her2] at hj
    exact Option.noConfusion hj

/-- Counterexample to C6 as stated: the staged apply returned a change
set containing a `Deleted` entry, but because the post-apply inventory
read failed, `Apply` returns only the read error — the surfaced error
does not identify the bad entry. -/
theorem claim_C6_counterexample :
    Ev.applyAllEv [c6prep] (some [c6bad]) true ∈ c6badOut.2.1 ∧
    c6badOut.2.2 = .ok ([], some (GoErr.base "read failed" false false)) ∧
    (GoErr.base "read failed" false false).hasBase
      (errUnexpectedApplyAction .deleted c6bad.subject) = false := by
  decide

/-- Witness for C6: against a backend reporting an extra `Deleted` entry
but with a healthy inventory, the amended theorem yields the surfaced
unexpected-action error. -/
theorem claim_C6_witness :
    applyM c6Env ⟨[], []⟩ [cmManifest "test-cm"] zeroApplyOptions =
      (c6out.1, c6out.2.1, .ok (c6chg, some c6er)) ∧
    c6er.hasBase (errUnexpectedApplyAction .deleted c6bad.subject) = true := by
  refine ⟨by rfl, ?_⟩
  obtain ⟨er2, her2, hb⟩ := (claim_C6 MockSt c6Env ⟨[], []⟩ [cmManifest "test-cm"]
    zeroApplyOptions c6out.1 c6out.2.1 c6chg (some c6er) [c6prep]
    [entryFromObj c6prep .created, c6bad] true [] c6bad
    (by rfl) (by decide) (by decide) (by decide) (by decide)).1
  injection her2 with her2
  rw [her2]
  exact hb

/-- `prepareObjects` succeeds and stamps every object when no input
carries a foreign owning-inventory annotation. -/
theorem prepare_ok (id : String) :
    ∀ (objects : List Unstructured),
      (∀ o ∈ objects, ∀ v, getAnn o.annotations InventoryAnnotationKey = some v → v = id) →
      prepareObjects id objects = .ok (objects.map (stampInv id)) := by
  intro objects
  induction objects with
  | nil => intro h1; rfl
  | cons o rest ih =>
    intro h1
    have hrest : prepareObjects id rest = .ok (rest.map (stampInv id)) :=
      ih (fun q hq v hv => h1 q (List.mem_cons_of_mem o hq) v hv)
    simp only [prepareObjects]
    rcases hg : getAnn o.annotations InventoryAnnotationKey with _ | v
    · simp [hrest]
    · have hv : v = id := h1 o (List.mem_cons_self o rest) v hg
      subst hv
      simp [hrest]

theorem cmUpsert_keys (cm : ChangeMap) (k : String) (c : Change) :
    ∀ k2, k2 ∈ (cmUpsert cm k c).map Prod.fst ↔ k2 = k ∨ k2 ∈ cm.map Prod.fst := by
  induction cm with
  | nil => intro k2; simp [cmUpsert]
  | cons kv rest ih =>
    intro k2
    by_cases h : kv.1 = k
    · rcases kv with ⟨k0, c0⟩
      simp only at h
      simp [cmUpsert, if_pos h, h]
    · rcases kv with ⟨k0, c0⟩
      simp only at h
      simp [cmUpsert, if_neg h, ih]
      tauto

theorem cmUpsert_vals (cm : ChangeMap) (k : String) (c : Change) (Q : Change → Prop)
    (hcm : ∀ kv ∈ cm, Q kv.2) (hc : Q c) :
    ∀ kv ∈ cmUpsert cm k c, Q kv.2 := by
  induction cm with
  | nil =>
    intro kv hkv
    simp [cmUpsert] at hkv
    rw [hkv]
    exact hc
  | cons kv0 rest ih =>
    intro kv hkv
    rcases kv0 with ⟨k0, c0⟩
    by_cases h : k0 = k
    · simp only [cmUpsert, if_pos h] at hkv
      rcases List.mem_cons.mp hkv with hkv | hkv
      · rw [hkv]
        exact hc
      · exact hcm kv (List.mem_cons_of_mem _ hkv)
    · simp only [cmUpsert, if_neg h] at hkv
      rcases List.mem_cons.mp hkv with hkv | hkv
      · rw [hkv]
        exact hcm (k0, c0) (List.mem_cons_self _ _)
      · exact ih (fun kv2 hkv2 => hcm kv2 (List.mem_cons_of_mem _ hkv2)) kv hkv

theorem buildChangeMap_facts (objs : List Unstructured) :
    (∀ o ∈ objs, formatObjectPathWithGV o ∈ (buildChangeMap objs).map Prod.fst) ∧
    (∀ kv ∈ buildChangeMap objs, kv.2.entry.action = Action.unknown) := by
  have main : ∀ (L : List Unstructured) (m : ChangeMap),
      (∀ kv ∈ m, kv.2.entry.action = Action.unknown) →
      (∀ o ∈ L, formatObjectPathWithGV o ∈
        (L.foldl (fun m2 o2 => cmUpsert m2 (formatObjectPathWithGV o2)
          (changeFromObject o2 "" .unknown)) m).map Prod.fst) ∧
      (∀ k, k ∈ m.map Prod.fst → k ∈
        (L.foldl (fun m2 o2 => cmUpsert m2 (formatObjectPathWithGV o2)
          (changeFromObject o2 "" .unknown)) m).map Prod.fst) ∧
      (∀ kv ∈ (L.foldl (fun m2 o2 => cmUpsert m2 (formatObjectPathWithGV o2)
          (changeFromObject o2 "" .unknown)) m), kv.2.entry.action = Action.unknown) := by
    intro L
    induction L with
    | nil => intro m hm; exact ⟨by simp, fun k hk => by simpa using hk, hm⟩
    | cons o rest ih =>
      intro m hm
      have hm1 : ∀ kv ∈ cmUpsert m (formatObjectPathWithGV o) (changeFromObject o "" .unknown),
          kv.2.entry.action = Action.unknown := by
        refine cmUpsert_vals m _ _ (fun c => c.entry.action = Action.unknown) hm rfl
      obtain ⟨ih1, ih2, ih3⟩ := ih _ hm1
      refine ⟨?_, ?_, ih3⟩
      · intro o2 ho2
        rcases List.mem_cons.mp ho2 with ho2 | ho2
        · subst ho2
          refine ih2 _ ?_
          exact (cmUpsert_keys m _ _ _).mpr (Or.inl rfl)
        · exact ih1 o2 ho2
      · intro k hk
        refine ih2 _ ?_
        exact (cmUpsert_keys m _ _ _).mpr (Or.inr hk)
  obtain ⟨h1, -, h3⟩ := main objs [] (by simp)
  exact ⟨h1, h3⟩

theorem cmSetDiff_facts (k : String) (d : String) :
    ∀ (cm : ChangeMap), k ∈ cm.map Prod.fst →
      ∃ cm2, cmSetDiff cm k d = some cm2 ∧
        cm2.map Prod.fst = cm.map Prod.fst ∧
        ∀ Q : Action → Prop, (∀ kv ∈ cm, Q kv.2.entry.action) →
          ∀ kv ∈ cm2, Q kv.2.entry.action := by
  intro cm
  induction cm with
  | nil => intro hk; simp at hk
  | cons kv0 rest ih =>
    intro hk
    rcases kv0 with ⟨k0, c0⟩
    by_cases h : k0 = k
    · refine ⟨(k0, { c0 with diff := d }) :: rest, by simp [cmSetDiff, if_pos h], by simp, ?_⟩
      intro Q hQ kv hkv
      rcases List.mem_cons.mp hkv with hkv | hkv
      · rw [hkv]
        exact hQ (k0, c0) (List.mem_cons_self _ _)
      · exact hQ kv (List.mem_cons_of_mem _ hkv)
    · have hk2 : k ∈ rest.map Prod.fst := by
        simp only [List.map_cons, List.mem_cons] at hk
        rcases hk with hk | hk
        · exact absurd hk.symm h
        · exact hk
      obtain ⟨cm2, hcm2, hkeys, hQ⟩ := ih hk2
      refine ⟨(k0, c0) :: cm2, by simp [cmSetDiff, if_neg h, hcm2], by simp [hkeys], ?_⟩
      intro Q hQ0 kv hkv
      rcases List.mem_cons.mp hkv with hkv | hkv
      · rw [hkv]
        exact hQ0 (k0, c0) (List.mem_cons_self _ _)
      · exact hQ Q (fun kv2 hkv2 => hQ0 kv2 (List.mem_cons_of_mem _ hkv2)) kv hkv

theorem cmSetAction_facts (k : String) (a : Action) :
    ∀ (cm : ChangeMap), k ∈ cm.map Prod.fst →
      ∃ cm2, cmSetAction cm k a = some cm2 ∧
        cm2.map Prod.fst = cm.map Prod.fst ∧
        ∀ Q : Action → Prop, (∀ kv ∈ cm, Q kv.2.entry.action) → Q a →
          ∀ kv ∈ cm2, Q kv.2.entry.action := by
  intro cm
  induction cm with
  | nil => intro hk; simp at hk
  | cons kv0 rest ih =>
    intro hk
    rcases kv0 with ⟨k0, c0⟩
    by_cases h : k0 = k
    · refine ⟨(k0, { c0 with entry := { c0.entry with action := a } }) :: rest,
        by simp [cmSetAction, if_pos h], by simp, ?_⟩
      intro Q hQ ha kv hkv
      rcases List.mem_cons.mp hkv with hkv | hkv
      · rw [hkv]
        exact ha
      · exact hQ kv (List.mem_cons_of_mem _ hkv)
    · have hk2 : k ∈ rest.map Prod.fst := by
        simp only [List.map_cons, List.mem_cons] at hk
        rcases hk with hk | hk
        · exact absurd hk.symm h
        · exact hk
      obtain ⟨cm2, hcm2, hkeys, hQ⟩ := ih hk2
      refine ⟨(k0, c0) :: cm2, by simp [cmSetAction, if_neg h, hcm2], by simp [hkeys], ?_⟩
      intro Q hQ0 ha kv hkv
      rcases List.mem_cons.mp hkv with hkv | hkv
      · rw [hkv]
        exact hQ0 (k0, c0) (List.mem_cons_self _ _)
      · exact hQ Q (fun kv2 hkv2 => hQ0 kv2 (List.mem_cons_of_mem _ hkv2)) ha kv hkv

theorem mLookup_mInsert_self (m : List (ObjKey × Unstructured)) (k : ObjKey) (o : Unstructured) :
    mLookup (mInsert m k o) k = some o := by
  induction m with
  | nil => simp [mInsert, mLookup]
  | cons kv rest ih =>
    rcases kv with ⟨k0, o0⟩
    by_cases h : k0 = k
    · simp [mInsert, if_pos h, mLookup]
    · simp [mInsert, if_neg h, mLookup, if_neg h, ih]

theorem mLookup_mInsert_other (m : List (ObjKey × Unstructured)) (k k2 : ObjKey)
    (o : Unstructured) (h : k2 ≠ k) : mLookup (mInsert m k o) k2 = mLookup m k2 := by
  induction m with
  | nil => simp [mInsert, mLookup, if_neg (fun hh : k = k2 => h hh.symm)]
  | cons kv rest ih =>
    rcases kv with ⟨k0, o0⟩
    by_cases h0 : k0 = k
    · subst h0
      simp [mInsert, mLookup, if_neg (fun hh : k0 = k2 => h hh.symm)]
    · simp [mInsert, if_neg h0, mLookup, ih]

/-- The deterministic renderer stand-ins never fail. -/
theorem renderMock_ok (id : String) (a b : Option Unstructured) :
    ∃ d, renderManifestDiff (mockEnv id) a b = .ok d := by
  cases a <;> cases b <;> exact ⟨_, rfl⟩

/-- `Manager.diff` against the mock for an object absent from the store:
a `Created` entry and a rendered nil-to-object diff. -/
theorem mock_diffOne_absent (id : String) (st : MockSt) (p : Unstructured) (f : Bool)
    (pol : Policy) (hlk : mLookup st.objects (keyFromObj p) = none) :
    ∃ d, diffOne (mockEnv id) st p f pol =
      (st, [Ev.rmDiffEv p], .ok (.ok (entryFromObj p .created, d))) := by
  obtain ⟨d, hd⟩ := renderMock_ok id none (some p)
  refine ⟨d, ?_⟩
  unfold diffOne
  have hrm : (mockEnv id).rmDiff st p f = (st, mockDiff st p) := rfl
  rw [hrm]
  simp only [mockDiff, hlk, hd, entryFromObj]

/-- `Manager.diff` against the mock for an object stored exactly as
desired: an `Unchanged` entry with an empty diff. -/
theorem mock_diffOne_same (id : String) (st : MockSt) (p : Unstructured) (f : Bool)
    (pol : Policy) (hlk : mLookup st.objects (keyFromObj p) = some p) :
    diffOne (mockEnv id) st p f pol =
      (st, [Ev.rmDiffEv p], .ok (.ok (entryFromObj p .unchanged, ""))) := by
  unfold diffOne
  have hrm : (mockEnv id).rmDiff st p f = (st, mockDiff st p) := rfl
  rw [hrm]
  simp [mockDiff, hlk, entryFromObj]

/-- The dry-run loop of `Apply` over the mock backends, when every
desired object is either absent or stored exactly as desired: it leaves
the state alone, succeeds, and only sets diff texts in the change map. -/
theorem mockDiffLoop (id : String) :
    ∀ (L : List Unstructured) (st : MockSt) (f : Bool) (pol : Policy) (cm : ChangeMap),
      (∀ p ∈ L, mLookup st.objects (keyFromObj p) = none ∨
                mLookup st.objects (keyFromObj p) = some p) →
      (∀ p ∈ L, formatObjectPathWithGV p ∈ cm.map Prod.fst) →
      ∃ evs cm1, applyDiffLoop (mockEnv id) st L f pol cm = (st, evs, .ok (.ok cm1)) ∧
        cm1.map Prod.fst = cm.map Prod.fst ∧
        ∀ Q : Action → Prop, (∀ kv ∈ cm, Q kv.2.entry.action) →
          ∀ kv ∈ cm1, Q kv.2.entry.action := by
  intro L
  induction L with
  | nil =>
    intro st f pol cm hlk hkey
    exact ⟨[], cm, rfl, rfl, fun Q hQ => hQ⟩
  | cons p rest ih =>
    intro st f pol cm hlk hkey
    rcases hlk p (List.mem_cons_self p rest) with hl | hl
    · obtain ⟨d, hdo⟩ := mock_diffOne_absent id st p f pol hl
      obtain ⟨cmd2, hcmd2, hkeys2, hQ2⟩ := cmSetDiff_facts (formatObjectPathWithGV p) d cm
        (hkey p (List.mem_cons_self p rest))
      obtain ⟨evs2, cm2, hrec, hkeysR, hQR⟩ := ih st f pol cmd2
        (fun q hq => hlk q (List.mem_cons_of_mem p hq))
        (fun q hq => by rw [hkeys2]; exact hkey q (List.mem_cons_of_mem p hq))
      refine ⟨[Ev.rmDiffEv p] ++ evs2, cm2, ?_, by rw [hkeysR, hkeys2], ?_⟩
      · simp only [applyDiffLoop, hdo, hcmd2]
        have hne : (entryFromObj p Action.created).action ≠ Action.configured := by
          simp [entryFromObj]
        rw [if_neg hne]
        rw [hrec]
      · intro Q hQ kv hkv
        exact hQR Q (hQ2 Q hQ) kv hkv
    · have hdo := mock_diffOne_same id st p f pol hl
      obtain ⟨cmd2, hcmd2, hkeys2, hQ2⟩ := cmSetDiff_facts (formatObjectPathWithGV p) "" cm
        (hkey p (List.mem_cons_self p rest))
      obtain ⟨evs2, cm2, hrec, hkeysR, hQR⟩ := ih st f pol cmd2
        (fun q hq => hlk q (List.mem_cons_of_mem p hq))
        (fun q hq => by rw [hkeys2]; exact hkey q (List.mem_cons_of_mem p hq))
      refine ⟨[Ev.rmDiffEv p] ++ evs2, cm2, ?_, by rw [hkeysR, hkeys2], ?_⟩
      · simp only [applyDiffLoop, hdo, hcmd2]
        have hne : (entryFromObj p Action.unchanged).action ≠ Action.configured := by
          simp [entryFromObj]
        rw [if_neg hne]
        rw [hrec]
      · intro Q hQ kv hkv
        exact hQR Q (hQ2 Q hQ) kv hkv

/-- `Mock.ApplyAllStaged` never touches the inventory refs. -/
theorem mockApplyAll_refs : ∀ (L : List Unstructured) (st : MockSt),
    (mockApplyAll st L).1.refs = st.refs := by
  intro L
  induction L with
  | nil => intro st; rfl
  | cons p rest ih =>
    intro st
    simp only [mockApplyAll, mockApplyOne]
    exact ih _

/-- `Mock.ApplyAllStaged` from a store missing every desired object (with
pairwise distinct keys): all entries are `Created`, every object ends up
stored exactly as given, and untouched keys are unchanged. -/
theorem mockApplyAll_absent :
    ∀ (L : List Unstructured) (st : MockSt),
      (∀ p ∈ L, mLookup st.objects (keyFromObj p) = none) →
      (L.map (fun p => keyFromObj p)).Nodup →
      (mockApplyAll st L).2 = L.map (fun p => entryFromObj p .created) ∧
      (∀ p ∈ L, mLookup (mockApplyAll st L).1.objects (keyFromObj p) = some p) ∧
      (∀ k, (∀ p ∈ L, k ≠ keyFromObj p) →
        mLookup (mockApplyAll st L).1.objects k = mLookup st.objects k) := by
  intro L
  induction L with
  | nil => intro st h1 h2; exact ⟨rfl, by simp, fun k _ => rfl⟩
  | cons p rest ih =>
    intro st h1 h2
    have hl : mLookup st.objects (keyFromObj p) = none := h1 p (List.mem_cons_self p rest)
    have hone : mockApplyOne st p =
        ({ st with objects := mInsert st.objects (keyFromObj p) p },
         entryFromObj p .created) := by
      simp [mockApplyOne, hl]
    rw [List.map_cons] at h2
    have hnd := List.nodup_cons.mp h2
    have hrest1 : ∀ q ∈ rest, mLookup (mInsert st.objects (keyFromObj p) p)
        (keyFromObj q) = none := by
      intro q hq
      rw [mLookup_mInsert_other st.objects (keyFromObj p) (keyFromObj q) p
        (fun hh => hnd.1 (by rw [← hh]; exact List.mem_map_of_mem _ hq))]
      exact h1 q (List.mem_cons_of_mem p hq)
    obtain ⟨ihE, ihS, ihK⟩ := ih { st with objects := mInsert st.objects (keyFromObj p) p }
      hrest1 hnd.2
    refine ⟨?_, ?_, ?_⟩
    · simp only [mockApplyAll, hone]
      rw [ihE]
      simp
    · intro q hq
      rcases List.mem_cons.mp hq with hq | hq
      · subst hq
        simp only [mockApplyAll, hone]
        rw [ihK (keyFromObj q)
          (fun r hr hh => hnd.1 (by rw [hh]; exact List.mem_map_of_mem _ hr))]
        exact mLookup_mInsert_self st.objects (keyFromObj q) q
      · simp only [mockApplyAll, hone]
        exact ihS q hq
    · intro k hk
      simp only [mockApplyAll, hone]
      rw [ihK k (fun r hr => hk r (List.mem_cons_of_mem p hr))]
      exact mLookup_mInsert_other st.objects (keyFromObj p) k p
        (hk p (List.mem_cons_self p rest))

/-- `Mock.ApplyAllStaged` from a store already holding every desired
object exactly (with pairwise distinct keys): all entries are
`Configured` and the refs are untouched. -/
theorem mockApplyAll_present :
    ∀ (L : List Unstructured) (st : MockSt),
      (∀ p ∈ L, mLookup st.objects (keyFromObj p) = some p) →
      (L.map (fun p => keyFromObj p)).Nodup →
      (mockApplyAll st L).2 = L.map (fun p => entryFromObj p .configured) := by
  intro L
  induction L with
  | nil => intro st h1 h2; rfl
  | cons p rest ih =>
    intro st h1 h2
    have hl : mLookup st.objects (keyFromObj p) = some p := h1 p (List.mem_cons_self p rest)
    have hone : mockApplyOne st p =
        ({ st with objects := mInsert st.objects (keyFromObj p) p },
         entryFromObj p .configured) := by
      simp [mockApplyOne, hl]
    rw [List.map_cons] at h2
    have hnd := List.nodup_cons.mp h2
    have hrest1 : ∀ q ∈ rest, mLookup (mInsert st.objects (keyFromObj p) p)
        (keyFromObj q) = some q := by
      intro q hq
      rw [mLookup_mInsert_other st.objects (keyFromObj p) (keyFromObj q) p
        (fun hh => hnd.1 (by rw [← hh]; exact List.mem_map_of_mem _ hq))]
      exact h1 q (List.mem_cons_of_mem p hq)
    have ihE := ih { st with objects := mInsert st.objects (keyFromObj p) p } hrest1 hnd.2
    simp only [mockApplyAll, hone]
    rw [ihE]
    simp

theorem metaContains_false (l : List ObjMetadata) (a : ObjMetadata) :
    l.contains a = false ↔ a ∉ l := by
  rw [← Bool.not_eq_true]
  constructor
  · intro h hm
    exact h (List.elem_eq_true_of_mem hm)
  · intro h hb
    exact h (List.mem_of_elem_eq_true hb)

/-- The inventory-merge loop over all-`Created` entries: every metadata
is fresh, so the refs are extended by exactly the desired metadata. -/
theorem mergeLoop_created :
    ∀ (L : List Unstructured) (cm : ChangeMap) (r0 : List ObjMetadata),
      (∀ p ∈ L, formatObjectMetaPath (objMetaOf p) p.apiVersion ∈ cm.map Prod.fst) →
      (∀ p ∈ L, r0.contains (objMetaOf p) = false) →
      (L.map (fun p => objMetaOf p)).Nodup →
      ∃ cm2, mergeLoop (L.map (fun p => entryFromObj p .created)) cm r0 none =
        .ok (cm2, r0 ++ L.map (fun p => objMetaOf p), none) ∧
        cm2.map Prod.fst = cm.map Prod.fst := by
  intro L
  induction L with
  | nil => intro cm r0 h1 h2 h3; exact ⟨cm, by simp [mergeLoop], rfl⟩
  | cons p rest ih =>
    intro cm r0 h1 h2 h3
    obtain ⟨cm1, hset, hkeys, -⟩ := cmSetAction_facts
      (formatObjectMetaPath (objMetaOf p) p.apiVersion) .created cm
      (h1 p (List.mem_cons_self p rest))
    rw [List.map_cons] at h3
    have hnd := List.nodup_cons.mp h3
    have hr2 : ∀ q ∈ rest, (r0 ++ [objMetaOf p]).contains (objMetaOf q) = false := by
      intro q hq
      have hne : objMetaOf q ≠ objMetaOf p := by
        intro hh
        exact hnd.1 (by rw [← hh]; exact List.mem_map_of_mem _ hq)
      rw [metaContains_false]
      simp only [List.mem_append, List.mem_singleton]
      rintro (hin | hin)
      · exact ((metaContains_false r0 _).mp (h2 q (List.mem_cons_of_mem p hq))) hin
      · exact hne hin
    obtain ⟨cm2, hrec, hkeys2⟩ := ih cm1 (r0 ++ [objMetaOf p])
      (fun q hq => by rw [hkeys]; exact h1 q (List.mem_cons_of_mem p hq))
      hr2 hnd.2
    refine ⟨cm2, ?_, by rw [hkeys2, hkeys]⟩
    have hact : (entryFromObj p Action.created).action = Action.created := rfl
    have hmeta : (entryFromObj p Action.created).objMetadata = objMetaOf p := rfl
    have hgv : (entryFromObj p Action.created).groupVersion = p.apiVersion := rfl
    simp only [List.map_cons, mergeLoop, hact, hmeta, hgv, hset]
    rw [if_neg (by rw [h2 p (List.mem_cons_self p rest)]; simp)]
    rw [hrec]
    simp

/-- The inventory-merge loop over all-`Configured` entries whose metadata
is already tracked: the refs come back unchanged and every change-map
action is either still the placeholder or `Configured`. -/
theorem mergeLoop_configured :
    ∀ (L : List Unstructured) (cm : ChangeMap) (r0 : List ObjMetadata),
      (∀ p ∈ L, formatObjectMetaPath (objMetaOf p) p.apiVersion ∈ cm.map Prod.fst) →
      (∀ p ∈ L, r0.contains (objMetaOf p) = true) →
      ∃ cm2, mergeLoop (L.map (fun p => entryFromObj p .configured)) cm r0 none =
        .ok (cm2, r0, none) ∧
        cm2.map Prod.fst = cm.map Prod.fst ∧
        ((∀ kv ∈ cm, kv.2.entry.action = Action.unknown ∨
            kv.2.entry.action = Action.configured) →
          ∀ kv ∈ cm2, kv.2.entry.action = Action.unknown ∨
            kv.2.entry.action = Action.configured) := by
  intro L
  induction L with
  | nil => intro cm r0 h1 h2; exact ⟨cm, by simp [mergeLoop], rfl, fun h => h⟩
  | cons p rest ih =>
    intro cm r0 h1 h2
    obtain ⟨cm1, hset, hkeys, hQ⟩ := cmSetAction_facts
      (formatObjectMetaPath (objMetaOf p) p.apiVersion) .configured cm
      (h1 p (List.mem_cons_self p rest))
    obtain ⟨cm2, hrec, hkeys2, hQ2⟩ := ih cm1 r0
      (fun q hq => by rw [hkeys]; exact h1 q (List.mem_cons_of_mem p hq))
      (fun q hq => h2 q (List.mem_cons_of_mem p hq))
    refine ⟨cm2, ?_, by rw [hkeys2, hkeys], ?_⟩
    · have hact : (entryFromObj p Action.configured).action = Action.configured := rfl
      have hmeta : (entryFromObj p Action.configured).objMetadata = objMetaOf p := rfl
      have hgv : (entryFromObj p Action.configured).groupVersion = p.apiVersion := rfl
      simp only [List.map_cons, mergeLoop, hact, hmeta, hgv, hset]
      rw [if_pos (h2 p (List.mem_cons_self p rest))]
      rw [hrec]
    · intro hQ0 kv hkv
      exact hQ2 (hQ (fun a => a = Action.unknown ∨ a = Action.configured) hQ0 (Or.inr rfl))
        kv hkv

/-- `memory.GetPruneObjs` is empty when every tracked ref is part of the
current desired set. -/
theorem memGetPrune_nil (st : MockSt) (objs : List Unstructured)
    (h : ∀ r ∈ st.refs, (objs.map (fun o => objMetaOf o)).contains r = true) :
    memGetPrune st objs = [] := by
  have hf : st.refs.filter (fun r => !((objs.map (fun o => objMetaOf o)).contains r)) = [] := by
    rw [List.filter_eq_nil_iff]
    intro r hr
    rw [h r hr]
    simp
  show List.map skeletonOf
    (st.refs.filter (fun r => !((objs.map (fun o => objMetaOf o)).contains r))) = []
  rw [hf]
  rfl

theorem setDefaultOps_noPrune (ops : ApplyOptions) :
    (setDefaultOps ops).noPrune = ops.noPrune := by
  unfold setDefaultOps
  dsimp only
  split <;> split <;> split <;> rfl

theorem map_stamp_keys (id : String) (objects : List Unstructured) :
    (objects.map (stampInv id)).map (fun p => keyFromObj p) =
      objects.map (fun o => keyFromObj o) := by
  induction objects with
  | nil => rfl
  | cons o rest ih =>
    simp only [List.map_cons]
    rw [ih]
    rfl

theorem map_stamp_metas (id : String) (objects : List Unstructured) :
    (objects.map (stampInv id)).map (fun p => objMetaOf p) =
      objects.map (fun o => objMetaOf o) := by
  induction objects with
  | nil => rfl
  | cons o rest ih =>
    simp only [List.map_cons]
    rw [ih]
    rfl

/-- A first `Manager.Apply` of a well-formed desired set against the
in-repo backends from an empty cluster and inventory: it succeeds with no
error, the inventory tracks exactly the desired metadata, and the store
holds every prepared object. -/
theorem mock_first_apply (id : String) (objects : List Unstructured) (ops0 : ApplyOptions)
    (H1 : ∀ o ∈ objects, ∀ v, getAnn o.annotations InventoryAnnotationKey = some v → v = id)
    (H2 : (objects.map (fun o => keyFromObj o)).Nodup)
    (H2m : (objects.map (fun o => objMetaOf o)).Nodup)
    (H3 : ∀ o ∈ objects, formatObjectMetaPath (objMetaOf o) o.apiVersion =
      formatObjectPathWithGV o)
    (Hnp : ops0.noPrune = false) :
    ∃ st1 tr cs, applyM (mockEnv id) (⟨[], []⟩ : MockSt) objects ops0 =
        (st1, tr, .ok (cs, none)) ∧
      st1.refs = objects.map (fun o => objMetaOf o) ∧
      ∀ p ∈ objects.map (stampInv id), mLookup st1.objects (keyFromObj p) = some p := by
  have hprep : prepareObjects id objects = .ok (objects.map (stampInv id)) :=
    prepare_ok id objects H1
  obtain ⟨hbk, hbu⟩ := buildChangeMap_facts objects
  have hkeyP : ∀ p ∈ objects.map (stampInv id),
      formatObjectPathWithGV p ∈ (buildChangeMap objects).map Prod.fst := by
    intro p hp
    obtain ⟨o, ho, rfl⟩ := List.mem_map.mp hp
    exact hbk o ho
  obtain ⟨evsD, cm1, hD, hkD, hQD⟩ := mockDiffLoop id (objects.map (stampInv id))
    ⟨[], []⟩ (setDefaultOps ops0).force (setDefaultOps ops0).inventoryPolicy
    (buildChangeMap objects) (fun p _ => Or.inl rfl) hkeyP
  have hkeysEq := map_stamp_keys id objects
  have hmetasEq := map_stamp_metas id objects
  obtain ⟨hAE, hAS, hAK⟩ := mockApplyAll_absent (objects.map (stampInv id)) ⟨[], []⟩
    (fun p _ => rfl) (by rw [hkeysEq]; exact H2)
  have hkeyM : ∀ p ∈ objects.map (stampInv id),
      formatObjectMetaPath (objMetaOf p) p.apiVersion ∈ cm1.map Prod.fst := by
    intro p hp
    rw [hkD]
    obtain ⟨o, ho, rfl⟩ := List.mem_map.mp hp
    have h3 : formatObjectMetaPath (objMetaOf (stampInv id o)) (stampInv id o).apiVersion =
        formatObjectPathWithGV (stampInv id o) := H3 o ho
    rw [h3]
    exact hbk o ho
  obtain ⟨cm2, hmerge, hkM⟩ := mergeLoop_created (objects.map (stampInv id)) cm1 []
    hkeyM (fun p _ => rfl) (by rw [hmetasEq]; exact H2m)
  have hM2 : mergeLoop ((objects.map (stampInv id)).map (fun p => entryFromObj p .created))
      cm1 [] none =
      .ok (cm2, objects.map (fun o => objMetaOf o), none) := by
    rw [hmerge]
    rw [List.nil_append, hmetasEq]
  have hAA : (mockEnv id).rmApplyAll (⟨[], []⟩ : MockSt) (objects.map (stampInv id))
      (setDefaultOps ops0).force (setDefaultOps ops0).waitInterval
      (setDefaultOps ops0).waitTimeout =
      ((mockApplyAll ⟨[], []⟩ (objects.map (stampInv id))).1,
       some ((objects.map (stampInv id)).map (fun p => entryFromObj p .created)), none) := by
    show ((mockApplyAll ⟨[], []⟩ (objects.map (stampInv id))).1,
      some ((mockApplyAll ⟨[], []⟩ (objects.map (stampInv id))).2), none) = _
    rw [hAE]
  have hRd : (mockEnv id).invRead (mockApplyAll ⟨[], []⟩ (objects.map (stampInv id))).1 =
      ((mockApplyAll ⟨[], []⟩ (objects.map (stampInv id))).1, [], none) := by
    show ((mockApplyAll ⟨[], []⟩ (objects.map (stampInv id))).1,
      (mockApplyAll ⟨[], []⟩ (objects.map (stampInv id))).1.refs, none) = _
    rw [mockApplyAll_refs]
  have hnp2 : (setDefaultOps ops0).noPrune = false := by
    rw [setDefaultOps_noPrune]
    exact Hnp
  have hmgp : memGetPrune
      ⟨(mockApplyAll ⟨[], []⟩ (objects.map (stampInv id))).1.objects,
       objects.map (fun o => objMetaOf o)⟩ (objects.map (stampInv id)) = [] := by
    refine memGetPrune_nil _ _ ?_
    intro r hr
    simp only at hr
    refine List.elem_eq_true_of_mem ?_
    rw [hmetasEq]
    exact hr
  have hPrune : applyPrunePhase (mockEnv id)
      ⟨(mockApplyAll ⟨[], []⟩ (objects.map (stampInv id))).1.objects,
       objects.map (fun o => objMetaOf o)⟩ (objects.map (stampInv id))
      (setDefaultOps ops0) cm2 (objects.map (fun o => objMetaOf o)) =
      (⟨(mockApplyAll ⟨[], []⟩ (objects.map (stampInv id))).1.objects,
        objects.map (fun o => objMetaOf o)⟩,
       [Ev.getPruneEv [] true, Ev.invWriteEv (objects.map (fun o => objMetaOf o)) true],
       .ok (changesMapToArray cm2, none)) := by
    unfold applyPrunePhase
    rw [if_neg (by rw [hnp2]; simp)]
    have hgp : (mockEnv id).invGetPrune
        ⟨(mockApplyAll ⟨[], []⟩ (objects.map (stampInv id))).1.objects,
         objects.map (fun o => objMetaOf o)⟩ (objects.map (stampInv id)) =
        (⟨(mockApplyAll ⟨[], []⟩ (objects.map (stampInv id))).1.objects,
          objects.map (fun o => objMetaOf o)⟩, [], none) := by
      show (_, memGetPrune _ _, none) = _
      rw [hmgp]
    simp only [hgp, pruneLoop]
    rfl
  have hPost : applyPost (mockEnv id) (⟨[], []⟩ : MockSt) (objects.map (stampInv id))
      (setDefaultOps ops0) cm1 =
      (⟨(mockApplyAll ⟨[], []⟩ (objects.map (stampInv id))).1.objects,
        objects.map (fun o => objMetaOf o)⟩,
       [Ev.applyAllEv (objects.map (stampInv id))
          (some ((objects.map (stampInv id)).map (fun p => entryFromObj p .created))) true,
        Ev.invReadEv [] true,
        Ev.invWriteEv (objects.map (fun o => objMetaOf o)) true] ++
        [Ev.getPruneEv [] true, Ev.invWriteEv (objects.map (fun o => objMetaOf o)) true],
       .ok (changesMapToArray cm2, none)) := by
    unfold applyPost
    simp only [hAA, hRd, hM2]
    have hW : (mockEnv id).invWrite (mockApplyAll ⟨[], []⟩ (objects.map (stampInv id))).1
        (objects.map (fun o => objMetaOf o)) =
        (⟨(mockApplyAll ⟨[], []⟩ (objects.map (stampInv id))).1.objects,
          objects.map (fun o => objMetaOf o)⟩, none) := rfl
    simp only [hW, joinErr]
    rw [hPrune]
    rfl
  refine ⟨⟨(mockApplyAll ⟨[], []⟩ (objects.map (stampInv id))).1.objects,
    objects.map (fun o => objMetaOf o)⟩,
    evsD ++ ([Ev.applyAllEv (objects.map (stampInv id))
        (some ((objects.map (stampInv id)).map (fun p => entryFromObj p .created))) true,
      Ev.invReadEv [] true,
      Ev.invWriteEv (objects.map (fun o => objMetaOf o)) true] ++
      [Ev.getPruneEv [] true, Ev.invWriteEv (objects.map (fun o => objMetaOf o)) true]),
    changesMapToArray cm2, ?_, rfl, ?_⟩
  · have hid : (mockEnv id).invID = id := rfl
    simp only [applyM, hid, hprep, hD, hPost]
  · intro p hp
    exact hAS p hp

/-- A second `Manager.Apply` of the same desired set against the in-repo
backends: every action reported in the returned changes is `Configured`,
the call succeeds with no error, and the inventory refs are unchanged. -/
theorem mock_reapply (id : String) (objects : List Unstructured) (ops0 : ApplyOptions)
    (st1 : MockSt)
    (H1 : ∀ o ∈ objects, ∀ v, getAnn o.annotations InventoryAnnotationKey = some v → v = id)
    (H2 : (objects.map (fun o => keyFromObj o)).Nodup)
    (H3 : ∀ o ∈ objects, formatObjectMetaPath (objMetaOf o) o.apiVersion =
      formatObjectPathWithGV o)
    (Hnp : ops0.noPrune = false)
    (hrefs : st1.refs = objects.map (fun o => objMetaOf o))
    (hlook : ∀ p ∈ objects.map (stampInv id), mLookup st1.objects (keyFromObj p) = some p) :
    ∃ st2 tr cs, applyM (mockEnv id) st1 objects ops0 = (st2, tr, .ok (cs, none)) ∧
      st2.refs = st1.refs ∧
      ∀ c ∈ cs, c.entry.action = Action.configured := by
  have hprep : prepareObjects id objects = .ok (objects.map (stampInv id)) :=
    prepare_ok id objects H1
  obtain ⟨hbk, hbu⟩ := buildChangeMap_facts objects
  have hkeyP : ∀ p ∈ objects.map (stampInv id),
      formatObjectPathWithGV p ∈ (buildChangeMap objects).map Prod.fst := by
    intro p hp
    obtain ⟨o, ho, rfl⟩ := List.mem_map.mp hp
    exact hbk o ho
  obtain ⟨evsD, cm1, hD, hkD, hQD⟩ := mockDiffLoop id (objects.map (stampInv id))
    st1 (setDefaultOps ops0).force (setDefaultOps ops0).inventoryPolicy
    (buildChangeMap objects) (fun p hp => Or.inr (hlook p hp)) hkeyP
  have hkeysEq := map_stamp_keys id objects
  have hmetasEq := map_stamp_metas id objects
  have hAE := mockApplyAll_present (objects.map (stampInv id)) st1 hlook
    (by rw [hkeysEq]; exact H2)
  have hkeyM : ∀ p ∈ objects.map (stampInv id),
      formatObjectMetaPath (objMetaOf p) p.apiVersion ∈ cm1.map Prod.fst := by
    intro p hp
    rw [hkD]
    obtain ⟨o, ho, rfl⟩ := List.mem_map.mp hp
    have h3 : formatObjectMetaPath (objMetaOf (stampInv id o)) (stampInv id o).apiVersion =
        formatObjectPathWithGV (stampInv id o) := H3 o ho
    rw [h3]
    exact hbk o ho
  have hcont : ∀ p ∈ objects.map (stampInv id), st1.refs.contains (objMetaOf p) = true := by
    intro p hp
    refine List.elem_eq_true_of_mem ?_
    rw [hrefs, ← hmetasEq]
    exact List.mem_map_of_mem _ hp
  obtain ⟨cm2, hmerge, hkM, hQM⟩ := mergeLoop_configured (objects.map (stampInv id)) cm1
    st1.refs hkeyM hcont
  have hAA : (mockEnv id).rmApplyAll st1 (objects.map (stampInv id))
      (setDefaultOps ops0).force (setDefaultOps ops0).waitInterval
      (setDefaultOps ops0).waitTimeout =
      ((mockApplyAll st1 (objects.map (stampInv id))).1,
       some ((objects.map (stampInv id)).map (fun p => entryFromObj p .configured)), none) := by
    show ((mockApplyAll st1 (objects.map (stampInv id))).1,
      some ((mockApplyAll st1 (objects.map (stampInv id))).2), none) = _
    rw [hAE]
  have hRd : (mockEnv id).invRead (mockApplyAll st1 (objects.map (stampInv id))).1 =
      ((mockApplyAll st1 (objects.map (stampInv id))).1, st1.refs, none) := by
    show ((mockApplyAll st1 (objects.map (stampInv id))).1,
      (mockApplyAll st1 (objects.map (stampInv id))).1.refs, none) = _
    rw [mockApplyAll_refs]
  have hnp2 : (setDefaultOps ops0).noPrune = false := by
    rw [setDefaultOps_noPrune]
    exact Hnp
  have hmgp : memGetPrune
      ⟨(mockApplyAll st1 (objects.map (stampInv id))).1.objects, st1.refs⟩
      (objects.map (stampInv id)) = [] := by
    refine memGetPrune_nil _ _ ?_
    intro r hr
    simp only at hr
    refine List.elem_eq_true_of_mem ?_
    rw [hmetasEq]
    rw [hrefs] at hr
    exact hr
  have hPrune : applyPrunePhase (mockEnv id)
      ⟨(mockApplyAll st1 (objects.map (stampInv id))).1.objects, st1.refs⟩
      (objects.map (stampInv id)) (setDefaultOps ops0) cm2 st1.refs =
      (⟨(mockApplyAll st1 (objects.map (stampInv id))).1.objects, st1.refs⟩,
       [Ev.getPruneEv [] true, Ev.invWriteEv st1.refs true],
       .ok (changesMapToArray cm2, none)) := by
    unfold applyPrunePhase
    rw [if_neg (by rw [hnp2]; simp)]
    have hgp : (mockEnv id).invGetPrune
        ⟨(mockApplyAll st1 (objects.map (stampInv id))).1.objects, st1.refs⟩
        (objects.map (stampInv id)) =
        (⟨(mockApplyAll st1 (objects.map (stampInv id))).1.objects, st1.refs⟩, [], none) := by
      show (_, memGetPrune _ _, none) = _
      rw [hmgp]
    simp only [hgp, pruneLoop]
    rfl
  have hPost : applyPost (mockEnv id) st1 (objects.map (stampInv id))
      (setDefaultOps ops0) cm1 =
      (⟨(mockApplyAll st1 (objects.map (stampInv id))).1.objects, st1.refs⟩,
       [Ev.applyAllEv (objects.map (stampInv id))
          (some ((objects.map (stampInv id)).map (fun p => entryFromObj p .configured))) true,
        Ev.invReadEv st1.refs true,
        Ev.invWriteEv st1.refs true] ++
        [Ev.getPruneEv [] true, Ev.invWriteEv st1.refs true],
       .ok (changesMapToArray cm2, none)) := by
    unfold applyPost
    simp only [hAA, hRd, hmerge]
    have hW : (mockEnv id).invWrite (mockApplyAll st1 (objects.map (stampInv id))).1
        st1.refs =
        (⟨(mockApplyAll st1 (objects.map (stampInv id))).1.objects, st1.refs⟩, none) := rfl
    simp only [hW, joinErr]
    rw [hPrune]
    rfl
  have hQ1 : ∀ kv ∈ cm1, kv.2.entry.action = Action.unknown :=
    hQD (fun a => a = Action.unknown) hbu
  have hQ2 : ∀ kv ∈ cm2, kv.2.entry.action = Action.unknown ∨
      kv.2.entry.action = Action.configured :=
    hQM (fun kv hkv => Or.inl (hQ1 kv hkv))
  refine ⟨⟨(mockApplyAll st1 (objects.map (stampInv id))).1.objects, st1.refs⟩,
    evsD ++ ([Ev.applyAllEv (objects.map (stampInv id))
        (some ((objects.map (stampInv id)).map (fun p => entryFromObj p .configured))) true,
      Ev.invReadEv st1.refs true, Ev.invWriteEv st1.refs true] ++
      [Ev.getPruneEv [] true, Ev.invWriteEv st1.refs true]),
    changesMapToArray cm2, ?_, rfl, ?_⟩
  · have hid : (mockEnv id).invID = id := rfl
    simp only [applyM, hid, hprep, hD, hPost]
  · intro c hc
    unfold changesMapToArray at hc
    obtain ⟨hmem, hfil⟩ := List.mem_filter.mp hc
    obtain ⟨kv, hkv, hkv2⟩ := List.mem_map.mp hmem
    rcases hQ2 kv hkv with h | h
    · rw [← hkv2, h] at hfil
      simp at hfil
    · rw [← hkv2]
      exact h

/-- C9: applying the same well-formed desired set twice with
`Manager.Apply` against the in-repo mock resource manager and in-memory
inventory (starting from an empty cluster and inventory) succeeds both
times; the second call reports only `Configured` actions and leaves the
inventory refs exactly as the first call wrote them — re-apply adds no
duplicate entries and the inventory size is unchanged.  The desired set
is well formed when no object carries a foreign owning-inventory
annotation, object keys and metadata are pairwise distinct, and each
object's metadata path agrees with its object path (as is the case for
core-group objects), with pruning enabled. -/
theorem claim_C9 :
    ∀ (id : String) (objects : List Unstructured) (ops0 : ApplyOptions),
      (∀ o ∈ objects, ∀ v, getAnn o.annotations InventoryAnnotationKey = some v → v = id) →
      (objects.map (fun o => keyFromObj o)).Nodup →
      (objects.map (fun o => objMetaOf o)).Nodup →
      (∀ o ∈ objects, formatObjectMetaPath (objMetaOf o) o.apiVersion =
        formatObjectPathWithGV o) →
      ops0.noPrune = false →
      ∃ st1 tr1 cs1 st2 tr2 cs2,
        applyM (mockEnv id) (⟨[], []⟩ : MockSt) objects ops0 = (st1, tr1, .ok (cs1, none)) ∧
        applyM (mockEnv id) st1 objects ops0 = (st2, tr2, .ok (cs2, none)) ∧
        st2.refs = st1.refs ∧
        st1.refs = objects.map (fun o => objMetaOf o) ∧
        ∀ c ∈ cs2, c.entry.action = Action.configured := by
  intro id objects ops0 H1 H2 H2m H3 Hnp
  obtain ⟨st1, tr1, cs1, hA1, hrefs1, hlook1⟩ :=
    mock_first_apply id objects ops0 H1 H2 H2m H3 Hnp
  obtain ⟨st2, tr2, cs2, hA2, hrefs2, hacts⟩ :=
    mock_reapply id objects ops0 st1 H1 H2 H3 Hnp hrefs1 hlook1
  exact ⟨st1, tr1, cs1, st2, tr2, cs2, hA1, hA2, hrefs2, hrefs1, hacts⟩

/-- Witness for C9: re-applying a single fresh configmap against the
in-repo backends. -/
theorem claim_C9_witness :
    (∀ o ∈ [cmManifest "test-cm"], ∀ v,
      getAnn o.annotations InventoryAnnotationKey = some v → v = "test-inventory") ∧
    ∃ st1 tr1 cs1 st2 tr2 cs2,
      applyM (mockEnv "test-inventory") (⟨[], []⟩ : MockSt) [cmManifest "test-cm"]
        zeroApplyOptions = (st1, tr1, .ok (cs1, none)) ∧
      applyM (mockEnv "test-inventory") st1 [cmManifest "test-cm"] zeroApplyOptions =
        (st2, tr2, .ok (cs2, none)) ∧
      st2.refs = st1.refs ∧
      st1.refs = [objMetaOf (cmManifest "test-cm")] ∧
      ∀ c ∈ cs2, c.entry.action = Action.configured := by
  refine ⟨by decide, ?_⟩
  exact claim_C9 "test-inventory" [cmManifest "test-cm"] zeroApplyOptions
    (by decide) (by decide) (by decide) (by decide) (by rfl)

end GoKubernetes













